import Mathlib

/-!
FunctionMaxima

A verification development for `function_maxima.h`: a function `A → V` stored as a
`std::multiset` of points ordered by argument (`points`), together with a second
`std::multiset` of its local maxima (`maxima`) ordered by value descending, argument
ascending.

A `std::multiset` is modelled by the sequence of its elements in iteration order, an
iterator by the index of the element it points to (`end()` is the length).  Since the
nodes of a `std::multiset` do not move, an iterator that is kept across an insertion or
an erasure is relocated to the new index of its element (`after_insert`, `after_erase`).
The orders `<` on `A` and on `V` are parameters `ltA` and `ltV`.
-/

set_option autoImplicit false

/-- The class `InvalidArg` thrown by `value_at`. -/
inductive InvalidArg where
  | invalid_argument_value
  deriving DecidableEq, Repr

/-- The struct `point_type`: the argument and the value of one point of the function. -/
structure FunctionMaxima.point_type (A V : Type) where
  arg : A
  value : V
  deriving DecidableEq, Repr

/-- The class `FunctionMaxima<A, V>`: the two multisets `points` and `maxima`, each given
by its elements in iteration order. -/
structure FunctionMaxima (A V : Type) where
  points : List (FunctionMaxima.point_type A V)
  maxima : List (FunctionMaxima.point_type A V)
  deriving DecidableEq, Repr

namespace FunctionMaxima

variable {α A V : Type}

/-! ## The ordered container -/

/-- Index of the first element that is not less than `k` (`std::multiset::lower_bound`). -/
def multiset_lower_bound (comp : α → α → Bool) : List α → α → Nat
  | [], _ => 0
  | x :: xs, k => if comp x k then multiset_lower_bound comp xs k + 1 else 0

/-- Index of the first element that `k` is less than (`std::multiset::upper_bound`). -/
def multiset_upper_bound (comp : α → α → Bool) : List α → α → Nat
  | [], _ => 0
  | x :: xs, k => if comp k x then 0 else multiset_upper_bound comp xs k + 1

/-- Iterator to an element equivalent to `k`, or `end()` (`std::multiset::find`): the
lower bound of `k` when `k` is not less than the element there. -/
def multiset_find (comp : α → α → Bool) (l : List α) (k : α) : Nat :=
  let j := multiset_lower_bound comp l k
  match l[j]? with
  | none => l.length
  | some x => if comp k x then l.length else j

/-- The sequence `l` with `x` put in front of the element at index `k`. -/
def insert_at : List α → Nat → α → List α
  | l, 0, x => x :: l
  | [], _ + 1, x => [x]
  | y :: l, k + 1, x => y :: insert_at l k x

/-- Insertion (`std::multiset::insert`): the new element goes to the upper bound of the
elements equivalent to it; the result is the new sequence and the iterator to the new
element. -/
def multiset_insert (comp : α → α → Bool) (l : List α) (x : α) : List α × Nat :=
  let k := multiset_upper_bound comp l x
  (insert_at l k x, k)

/-- Erasure by iterator (`std::multiset::erase(iterator)`). -/
def multiset_erase (l : List α) (it : Nat) : List α :=
  l.eraseIdx it

/-- New index, after an insertion at index `k`, of the element that was at index `it`
(`end()` stays `end()`). -/
def after_insert (k it : Nat) : Nat :=
  if k ≤ it then it + 1 else it

/-- New index, after the erasure of the element at index `k`, of the element that was at
index `it`. -/
def after_erase (k it : Nat) : Nat :=
  if k < it then it - 1 else it

/-- Dereference `*it` of an iterator into `l`.  The value `d` is what the model gives for
an iterator that points to no element, which the source never dereferences. -/
def deref (l : List α) (it : Nat) (d : α) : α :=
  l.getD it d

/-! ## Comparators and the local-maximum test -/

/-- The function `is_maximum`: `mid` should be a maximum between `left` and `right`. -/
def is_maximum (ltV : V → V → Bool) (left mid right : point_type A V) : Bool :=
  !(ltV mid.value left.value) && !(ltV mid.value right.value)

/-- The comparator `points_comparator`. -/
def points_comparator (ltA : A → A → Bool) (a b : point_type A V) : Bool :=
  ltA a.arg b.arg

/-- The comparator `maxima_comparator`: the greatest value first, the least argument first
among equivalent values. -/
def maxima_comparator (ltA : A → A → Bool) (ltV : V → V → Bool)
    (a b : point_type A V) : Bool :=
  if !(ltV a.value b.value) && !(ltV b.value a.value) then ltA a.arg b.arg
  else ltV b.value a.value

/-! ## Observers -/

/-- The method `size`. -/
def size (s : FunctionMaxima A V) : Nat :=
  s.points.length

/-- The method `find`: iterator to the point with argument `a`, or `end()`.  The key that
is looked up carries the value of the first point. -/
def find (ltA : A → A → Bool) (s : FunctionMaxima A V) (a : A) : Nat :=
  match s.points with
  | [] => s.points.length
  | p :: _ => multiset_find (points_comparator ltA) s.points ⟨a, p.value⟩

/-- The method `value_at`: the value at `a`, or `InvalidArg` when `find` gives `end()`
(the only iterator that points to no element). -/
def value_at (ltA : A → A → Bool) (s : FunctionMaxima A V) (a : A) : Except InvalidArg V :=
  let point_it := find ltA s a
  match s.points[point_it]? with
  | none => .error InvalidArg.invalid_argument_value
  | some p => .ok p.value

/-! ## Mutations -/

/-- The multiset `maxima` during a mutation, with the iterators into it that the call
holds: `max_it_old`, `max_it_left`, `max_it_right`. -/
structure mx_state (A V : Type) where
  maxima : List (point_type A V)
  max_it_old : Nat
  max_it_left : Nat
  max_it_right : Nat
  deriving DecidableEq, Repr

/-- The call `maxima.insert(x)`; the iterators held are relocated. -/
def mx_state.insert (ltA : A → A → Bool) (ltV : V → V → Bool) (m : mx_state A V)
    (x : point_type A V) : mx_state A V :=
  let r := multiset_insert (maxima_comparator ltA ltV) m.maxima x
  { maxima := r.1
    max_it_old := after_insert r.2 m.max_it_old
    max_it_left := after_insert r.2 m.max_it_left
    max_it_right := after_insert r.2 m.max_it_right }

/-- The call `maxima.erase(it)`; the iterators held are relocated. -/
def mx_state.erase (m : mx_state A V) (it : Nat) : mx_state A V :=
  { maxima := multiset_erase m.maxima it
    max_it_old := after_erase it m.max_it_old
    max_it_left := after_erase it m.max_it_left
    max_it_right := after_erase it m.max_it_right }

/-- The local variables of `set_value` and of `erase` when the `try` block is reached.
For `erase` the point `mid` that goes away is held in the fields named after `old_mid`. -/
structure locals (A V : Type) where
  old_mid_it : Nat
  exists_left : Bool
  exists_old_mid : Bool
  exists_right : Bool
  old_mid : point_type A V
  left : point_type A V
  right : point_type A V
  max_it_old : Nat
  max_it_left : Nat
  max_it_right : Nat
  is_in_old : Bool
  is_max_left : Bool
  is_in_left : Bool
  is_max_right : Bool
  is_in_right : Bool
  is_max_new : Bool
  deriving DecidableEq, Repr

/-- The part of `set_value` before the `try` block: it locates the old point at `a` and
the two neighbours of the new point, and works out which of them are in `maxima` and which
should be.  Iterators that the source leaves uninitialised are given as `end()`. -/
def set_value_locals (ltA : A → A → Bool) (ltV : V → V → Bool) (s : FunctionMaxima A V)
    (a : A) (v : V) : locals A V :=
  let new_mid : point_type A V := ⟨a, v⟩
  let old_mid_it := multiset_find (points_comparator ltA) s.points new_mid
  let right_it := multiset_upper_bound (points_comparator ltA) s.points new_mid
  let left_it0 := if old_mid_it ≠ s.points.length then old_mid_it else right_it
  let exists_left := decide (left_it0 ≠ 0)
  let left_it := if left_it0 ≠ 0 then left_it0 - 1 else left_it0
  let exists_old_mid := decide (old_mid_it ≠ s.points.length)
  let exists_right := decide (right_it ≠ s.points.length)
  let old_mid := deref s.points old_mid_it new_mid
  let left := deref s.points left_it new_mid
  let right := deref s.points right_it new_mid
  let mfind := multiset_find (maxima_comparator ltA ltV) s.maxima
  let max_it_old := if exists_old_mid then mfind old_mid else s.maxima.length
  let is_in_old := exists_old_mid && decide (max_it_old ≠ s.maxima.length)
  let max_it_left := if exists_left then mfind left else s.maxima.length
  let is_max_left := exists_left &&
    is_maximum ltV (if left_it ≠ 0 then deref s.points (left_it - 1) new_mid else left)
      left new_mid
  let is_in_left := exists_left && decide (mfind left ≠ s.maxima.length)
  let max_it_right := if exists_right then mfind right else s.maxima.length
  let is_max_right := exists_right &&
    is_maximum ltV new_mid right
      (if right_it + 1 ≠ s.points.length then deref s.points (right_it + 1) new_mid
       else right)
  let is_in_right := exists_right && decide (mfind right ≠ s.maxima.length)
  let is_max_new := is_maximum ltV (if exists_left then left else new_mid) new_mid
    (if exists_right then right else new_mid)
  { old_mid_it := old_mid_it
    exists_left := exists_left
    exists_old_mid := exists_old_mid
    exists_right := exists_right
    old_mid := old_mid
    left := left
    right := right
    max_it_old := max_it_old
    max_it_left := max_it_left
    max_it_right := max_it_right
    is_in_old := is_in_old
    is_max_left := is_max_left
    is_in_left := is_in_left
    is_max_right := is_max_right
    is_in_right := is_in_right
    is_max_new := is_max_new }

/-- The method `set_value` when no comparison throws: the staged insertions into `maxima`
and the insertion into `points` (the `try` block), then the removals. -/
def set_value (ltA : A → A → Bool) (ltV : V → V → Bool) (s : FunctionMaxima A V)
    (a : A) (v : V) : FunctionMaxima A V :=
  let new_mid : point_type A V := ⟨a, v⟩
  let x := set_value_locals ltA ltV s a v
  let m0 : mx_state A V := ⟨s.maxima, x.max_it_old, x.max_it_left, x.max_it_right⟩
  let m1 := if x.exists_left && x.is_max_left && !x.is_in_left then m0.insert ltA ltV x.left
    else m0
  let m2 := if x.exists_right && x.is_max_right && !x.is_in_right then
    m1.insert ltA ltV x.right else m1
  let m3 := if x.is_max_new then m2.insert ltA ltV new_mid else m2
  let p1 := multiset_insert (points_comparator ltA) s.points new_mid
  let old_mid_it1 := after_insert p1.2 x.old_mid_it
  let m4 := if x.exists_left && !x.is_max_left && x.is_in_left then m3.erase m3.max_it_left
    else m3
  let m5 := if x.exists_right && !x.is_max_right && x.is_in_right then
    m4.erase m4.max_it_right else m4
  let p2 := if x.exists_old_mid then multiset_erase p1.1 old_mid_it1 else p1.1
  let m6 := if x.exists_old_mid && x.is_in_old then m5.erase m5.max_it_old else m5
  ⟨p2, m6.maxima⟩

/-- The part of `erase` before the `try` block, once `mid_it` is known to point to the
point `mid`. -/
def erase_locals (ltA : A → A → Bool) (ltV : V → V → Bool) (s : FunctionMaxima A V)
    (mid_it : Nat) (mid : point_type A V) : locals A V :=
  let right_it := multiset_upper_bound (points_comparator ltA) s.points mid
  let left_it0 := if mid_it ≠ s.points.length then mid_it else right_it
  let exists_left := decide (left_it0 ≠ 0)
  let left_it := if left_it0 ≠ 0 then left_it0 - 1 else left_it0
  let exists_right := decide (right_it ≠ s.points.length)
  let left := deref s.points left_it mid
  let right := deref s.points right_it mid
  let mfind := multiset_find (maxima_comparator ltA ltV) s.maxima
  let max_it_mid := mfind mid
  let max_it_left := if exists_left then mfind left else s.maxima.length
  let max_it_right := if exists_right then mfind right else s.maxima.length
  let is_in_mid := decide (max_it_mid ≠ s.maxima.length)
  let is_max_left := exists_left &&
    is_maximum ltV (if left_it ≠ 0 then deref s.points (left_it - 1) mid else left)
      left (if exists_right then right else left)
  let is_in_left := exists_left && decide (mfind left ≠ s.maxima.length)
  let is_max_right := exists_right &&
    is_maximum ltV (if exists_left then left else right) right
      (if right_it + 1 ≠ s.points.length then deref s.points (right_it + 1) mid
       else right)
  let is_in_right := exists_right && decide (mfind right ≠ s.maxima.length)
  { old_mid_it := mid_it
    exists_left := exists_left
    exists_old_mid := true
    exists_right := exists_right
    old_mid := mid
    left := left
    right := right
    max_it_old := max_it_mid
    max_it_left := max_it_left
    max_it_right := max_it_right
    is_in_old := is_in_mid
    is_max_left := is_max_left
    is_in_left := is_in_left
    is_max_right := is_max_right
    is_in_right := is_in_right
    is_max_new := false }

/-- The method `erase` when no comparison throws.  The early return is taken when `mid_it`
is `end()`, the only iterator that `find` gives that points to no element. -/
def erase (ltA : A → A → Bool) (ltV : V → V → Bool) (s : FunctionMaxima A V)
    (a : A) : FunctionMaxima A V :=
  let mid_it := find ltA s a
  match s.points[mid_it]? with
  | none => s
  | some mid =>
    let x := erase_locals ltA ltV s mid_it mid
    let m0 : mx_state A V := ⟨s.maxima, x.max_it_old, x.max_it_left, x.max_it_right⟩
    let m1 := if x.exists_left && x.is_max_left && !x.is_in_left then
      m0.insert ltA ltV x.left else m0
    let m2 := if x.exists_right && x.is_max_right && !x.is_in_right then
      m1.insert ltA ltV x.right else m1
    let m3 := if x.exists_left && !x.is_max_left && x.is_in_left then
      m2.erase m2.max_it_left else m2
    let m4 := if x.exists_right && !x.is_max_right && x.is_in_right then
      m3.erase m3.max_it_right else m3
    let m5 := if x.is_in_old then m4.erase m4.max_it_old else m4
    ⟨multiset_erase s.points mid_it, m5.maxima⟩

/-- The default constructor: both multisets empty. -/
def empty : FunctionMaxima A V := ⟨[], []⟩

end FunctionMaxima

namespace FunctionMaxima

variable {α A V : Type}

/-! ## Strict weak orders, local maxima, well-formed states -/

/-- A strict weak order given by its less-than test, as the C++ standard words it:
irreflexive, transitive, and with a transitive equivalence "neither is less". -/
structure StrictWeakOrder (lt : α → α → Bool) : Prop where
  irrefl : ∀ a, lt a a = false
  trans : ∀ a b c, lt a b = true → lt b c = true → lt a c = true
  equiv_trans : ∀ a b c, lt a b = false → lt b a = false → lt b c = false →
    lt c b = false → lt a c = false

/-- The value of `p` is not less than the value of its neighbour `n`; a missing neighbour
satisfies its side. -/
def not_below (ltV : V → V → Bool) (p : point_type A V) (n : Option (point_type A V)) :
    Bool :=
  match n with
  | none => true
  | some q => !(ltV p.value q.value)

/-- The left domain-neighbour of the point at index `i` of the domain `pts`. -/
def left_neighbour (pts : List (point_type A V)) (i : Nat) : Option (point_type A V) :=
  if i = 0 then none else pts[i - 1]?

/-- The right domain-neighbour of the point at index `i` of the domain `pts`. -/
def right_neighbour (pts : List (point_type A V)) (i : Nat) : Option (point_type A V) :=
  pts[i + 1]?

/-- The point at index `i` of the domain `pts` is a local maximum: its value is not less
than the value of its left neighbour nor than the value of its right neighbour. -/
def is_local_maximum_at (ltV : V → V → Bool) (pts : List (point_type A V)) (i : Nat) :
    Bool :=
  match pts[i]? with
  | none => false
  | some p =>
    not_below ltV p (left_neighbour pts i) && not_below ltV p (right_neighbour pts i)

/-- The local maxima of a stretch `l` of the domain that lies between the points `prev`
and `next`, in domain order. -/
def local_maxima_between (ltV : V → V → Bool) :
    Option (point_type A V) → List (point_type A V) → Option (point_type A V) →
    List (point_type A V)
  | _, [], _ => []
  | prev, p :: rest, next =>
    (if not_below ltV p prev && not_below ltV p (rest.head?.or next) then [p] else []) ++
      local_maxima_between ltV (some p) rest next

/-- The point `o`, when there is one and it passes the test `f`. -/
def keep_if (o : Option (point_type A V)) (f : point_type A V → Bool) :
    List (point_type A V) :=
  match o with
  | none => []
  | some p => if f p then [p] else []

/-- The state invariant: the domain is strictly increasing in the argument, the maxima are
strictly increasing for `maxima_comparator`, and the maxima are exactly the domain points
that are local maxima. -/
structure WellFormed (ltA : A → A → Bool) (ltV : V → V → Bool) (s : FunctionMaxima A V) :
    Prop where
  points_sorted : s.points.Pairwise (fun p q => ltA p.arg q.arg = true)
  maxima_sorted : s.maxima.Pairwise (fun p q => maxima_comparator ltA ltV p q = true)
  maxima_exact : ∀ p, p ∈ s.maxima ↔
    ∃ i, s.points[i]? = some p ∧ is_local_maximum_at ltV s.points i = true

/-- The domain `pts` splits around the argument `a` into the points `L` with a lesser
argument, the points `M` (at most one) with an argument equivalent to `a`, and the points
`R` with a greater argument. -/
structure SplitAt (ltA : A → A → Bool) (pts : List (point_type A V)) (a : A)
    (L M R : List (point_type A V)) : Prop where
  eq : pts = L ++ M ++ R
  left : ∀ x ∈ L, ltA x.arg a = true
  mid : ∀ x ∈ M, ltA x.arg a = false ∧ ltA a x.arg = false
  right : ∀ x ∈ R, ltA a x.arg = true
  len : M.length ≤ 1

/-- Bookkeeping for a mutation in progress: `maxima` holds `left`, `old` and `right` as the
flags `sL`, `sO` and `sR` say, besides the points `W`; it is sorted; and the iterator kept
for each of the three points that is held points to it. -/
structure Tracked (ltA : A → A → Bool) (ltV : V → V → Bool) (m : mx_state A V)
    (left old right : point_type A V) (sL sO sR : Bool) (W : List (point_type A V)) :
    Prop where
  perm : m.maxima.Perm ((if sL then [left] else []) ++ (if sO then [old] else []) ++
    (if sR then [right] else []) ++ W)
  sorted : m.maxima.Pairwise (fun p q => maxima_comparator ltA ltV q p = false)
  it_left : sL = true → m.maxima[m.max_it_left]? = some left
  it_old : sO = true → m.maxima[m.max_it_old]? = some old
  it_right : sR = true → m.maxima[m.max_it_right]? = some right

/-- The changes that a mutation makes to `maxima`, from its local variables: the staged
insertions of the left neighbour, the right neighbour and the new point, then the removals
of the left neighbour, the right neighbour and the old point. -/
def commit (ltA : A → A → Bool) (ltV : V → V → Bool) (x : locals A V)
    (new_mid : point_type A V) (m0 : mx_state A V) : mx_state A V :=
  let m1 := if x.exists_left && x.is_max_left && !x.is_in_left then m0.insert ltA ltV x.left
    else m0
  let m2 := if x.exists_right && x.is_max_right && !x.is_in_right then
    m1.insert ltA ltV x.right else m1
  let m3 := if x.is_max_new then m2.insert ltA ltV new_mid else m2
  let m4 := if x.exists_left && !x.is_max_left && x.is_in_left then m3.erase m3.max_it_left
    else m3
  let m5 := if x.exists_right && !x.is_max_right && x.is_in_right then
    m4.erase m4.max_it_right else m4
  if x.exists_old_mid && x.is_in_old then m5.erase m5.max_it_old else m5

/-- What the local variables `x` of a mutation of the state `s` hold, when the domain
splits into `L`, `M` and `R` around the argument and the point at the argument is to
become `mid` (the new point for `set_value`, none for `erase`). -/
structure Located (ltA : A → A → Bool) (ltV : V → V → Bool) (s : FunctionMaxima A V)
    (x : locals A V) (L M R : List (point_type A V)) (mid : Option (point_type A V))
    (new_mid : point_type A V) : Prop where
  left_none : L.getLast? = none →
    x.exists_left = false ∧ x.is_max_left = false ∧ x.is_in_left = false
  left_some : ∀ l, L.getLast? = some l →
    x.exists_left = true ∧ x.left = l ∧
    x.is_max_left = (not_below ltV l L.dropLast.getLast? &&
      not_below ltV l (mid.or R.head?)) ∧
    x.is_in_left =
      decide (multiset_find (maxima_comparator ltA ltV) s.maxima l ≠ s.maxima.length) ∧
    x.max_it_left = multiset_find (maxima_comparator ltA ltV) s.maxima l
  right_none : R.head? = none →
    x.exists_right = false ∧ x.is_max_right = false ∧ x.is_in_right = false
  right_some : ∀ r, R.head? = some r →
    x.exists_right = true ∧ x.right = r ∧
    x.is_max_right = (not_below ltV r (mid.or L.getLast?) &&
      not_below ltV r R.tail.head?) ∧
    x.is_in_right =
      decide (multiset_find (maxima_comparator ltA ltV) s.maxima r ≠ s.maxima.length) ∧
    x.max_it_right = multiset_find (maxima_comparator ltA ltV) s.maxima r
  old_none : M = [] → x.exists_old_mid = false ∧ x.is_in_old = false
  old_some : ∀ o, M = [o] →
    x.exists_old_mid = true ∧ x.old_mid = o ∧
    x.is_in_old =
      decide (multiset_find (maxima_comparator ltA ltV) s.maxima o ≠ s.maxima.length) ∧
    x.max_it_old = multiset_find (maxima_comparator ltA ltV) s.maxima o
  new_none : mid = none → x.is_max_new = false
  new_some : ∀ n, mid = some n →
    n = new_mid ∧ x.is_max_new = (not_below ltV n L.getLast? && not_below ltV n R.head?)

/-- A state whose Maxima Index holds only domain points, none twice: the domain is
strictly increasing in the argument, the maxima are strictly increasing for
`maxima_comparator`, and every point of `maxima` is a point of the domain.  Which domain
points are in `maxima` is left open. -/
structure MaximaInDomain (ltA : A → A → Bool) (ltV : V → V → Bool)
    (s : FunctionMaxima A V) : Prop where
  points_sorted : s.points.Pairwise (fun p q => ltA p.arg q.arg = true)
  maxima_sorted : s.maxima.Pairwise (fun p q => maxima_comparator ltA ltV p q = true)
  subset : ∀ p ∈ s.maxima, p ∈ s.points

/-- The states reachable from the empty structure by `set_value` and `erase`. -/
inductive Reachable (ltA : A → A → Bool) (ltV : V → V → Bool) :
    FunctionMaxima A V → Prop where
  | empty : Reachable ltA ltV empty
  | set_value (s : FunctionMaxima A V) (a : A) (v : V) :
      Reachable ltA ltV s → Reachable ltA ltV (set_value ltA ltV s a v)
  | erase (s : FunctionMaxima A V) (a : A) :
      Reachable ltA ltV s → Reachable ltA ltV (erase ltA ltV s a)

end FunctionMaxima

namespace FunctionMaxima

variable {α A V σ E : Type}

/-! ## The mutations with operations that may throw

The comparisons `<` on `A` and on `V`, and the allocations and copies that the methods
make, are caller-supplied operations that may throw.  They are modelled as computations
over a hidden state `σ` of the caller that end in a result or in an exception `E`.  The
structure itself is threaded explicitly, so that the state it is left in when an exception
leaves a method is part of the outcome.

The lookups and the insertion of `std::multiset` call the comparator as often and in the
order that the library sees fit, and allocate the node when it sees fit.  The code of the
library is not in this repository, so these operations are parameters too: each is a
computation that ends in a result or in an exception.  With the strong guarantee of
`insert`, a container operation that throws leaves the container as it was, which is how
the explicit threading of the two sequences models it. -/

/-- The operations of the caller that may throw: the two comparisons, and `alloc`, which
stands for an allocation or a copy of an argument or a value. -/
structure comparison_ops (σ E A V : Type) where
  ltA : A → A → StateT σ (Except E) Bool
  ltV : V → V → StateT σ (Except E) Bool
  alloc : StateT σ (Except E) Unit

/-- The operations of one `std::multiset` that may throw: `find`, `upper_bound` and
`insert`, which gives the new sequence and the iterator to the new element.  How many
comparisons each of them makes, in which order, and when `insert` allocates, is left open.
The method `erase(iterator)` does not throw and is the function `multiset_erase`. -/
structure multiset_ops (σ E α : Type) where
  find : List α → α → StateT σ (Except E) Nat
  upper_bound : List α → α → StateT σ (Except E) Nat
  insert : List α → α → StateT σ (Except E) (List α × Nat)

/-- All operations that may throw in a mutation: those of the caller, and those of the two
multisets `points` and `maxima`. -/
structure throwing_ops (σ E A V : Type) extends comparison_ops σ E A V where
  points : multiset_ops σ E (point_type A V)
  maxima : multiset_ops σ E (point_type A V)

/-- What `insert` does when it returns: the new element is in the sequence at the iterator
that is returned, and the other elements are as they were. -/
def multiset_ops.insert_ok (m : multiset_ops σ E α) : Prop :=
  ∀ (l : List α) (x : α) (c c1 : σ) (r : List α × Nat),
    m.insert l x c = .ok (r, c1) → r.2 ≤ l.length ∧ r.1 = insert_at l r.2 x

/-- How a call of a mutating method ends: it returns, or an exception leaves it; either
way the structure is left in some state. -/
inductive outcome (σ E A V : Type) where
  | returned (s : FunctionMaxima A V) (c : σ)
  | threw (e : E) (s : FunctionMaxima A V)
  deriving DecidableEq, Repr

/-- The function `multiset_lower_bound` with a comparison that may throw, as a scan from
the front.  This and the next three functions make up a reference container for runs with
concrete operations; a red-black tree makes other comparisons, in another order. -/
def multiset_lower_boundE (comp : α → α → StateT σ (Except E) Bool) :
    List α → α → StateT σ (Except E) Nat
  | [], _ => pure 0
  | x :: xs, k => do
    if ← comp x k then
      let j ← multiset_lower_boundE comp xs k
      pure (j + 1)
    else
      pure 0

/-- The function `multiset_upper_bound` with a comparison that may throw. -/
def multiset_upper_boundE (comp : α → α → StateT σ (Except E) Bool) :
    List α → α → StateT σ (Except E) Nat
  | [], _ => pure 0
  | x :: xs, k => do
    if ← comp k x then
      pure 0
    else
      let j ← multiset_upper_boundE comp xs k
      pure (j + 1)

/-- The function `multiset_find` with a comparison that may throw. -/
def multiset_findE (comp : α → α → StateT σ (Except E) Bool) (l : List α) (k : α) :
    StateT σ (Except E) Nat := do
  let j ← multiset_lower_boundE comp l k
  match l[j]? with
  | none => pure l.length
  | some x => if ← comp k x then pure l.length else pure j

/-- The function `multiset_insert` of the reference container, with a comparison and a
node allocation that may throw.  The insertion has the strong guarantee: when it throws,
the sequence is as before. -/
def multiset_insertE (alloc : StateT σ (Except E) Unit)
    (comp : α → α → StateT σ (Except E) Bool) (l : List α) (x : α) :
    StateT σ (Except E) (List α × Nat) := do
  let k ← multiset_upper_boundE comp l x
  alloc
  pure (insert_at l k x, k)

/-- The function `is_maximum` with a comparison that may throw; `&&` evaluates its second
operand only when the first one is true. -/
def is_maximumE (ops : throwing_ops σ E A V) (left mid right : point_type A V) :
    StateT σ (Except E) Bool := do
  if ← ops.ltV mid.value left.value then
    pure false
  else
    let c ← ops.ltV mid.value right.value
    pure (!c)

/-- The comparator `points_comparator` with a comparison that may throw. -/
def points_comparatorE (ops : comparison_ops σ E A V) (a b : point_type A V) :
    StateT σ (Except E) Bool :=
  ops.ltA a.arg b.arg

/-- The comparator `maxima_comparator` with comparisons that may throw. -/
def maxima_comparatorE (ops : comparison_ops σ E A V) (a b : point_type A V) :
    StateT σ (Except E) Bool := do
  let equivalent ←
    if ← ops.ltV a.value b.value then
      pure false
    else
      let c ← ops.ltV b.value a.value
      pure (!c)
  if equivalent then ops.ltA a.arg b.arg else ops.ltV b.value a.value

/-- The constructor `point_type(a, v)`: two calls of `make_shared`, each of which allocates
and copies and may throw. -/
def point_typeE (ops : throwing_ops σ E A V) (a : A) (v : V) :
    StateT σ (Except E) (point_type A V) := do
  ops.alloc
  ops.alloc
  pure ⟨a, v⟩

/-- The method `find` with operations that may throw: the value of the first point is
copied and the key is constructed before the lookup. -/
def findE (ops : throwing_ops σ E A V) (s : FunctionMaxima A V) (a : A) :
    StateT σ (Except E) Nat :=
  match s.points with
  | [] => pure s.points.length
  | p :: _ => do
    ops.alloc
    let key ← point_typeE ops a p.value
    ops.points.find s.points key

/-- The part of `set_value` before the `try` block, with operations that may throw.
Nothing is changed here. -/
def set_value_localsE (ops : throwing_ops σ E A V) (s : FunctionMaxima A V) (a : A) (v : V) :
    StateT σ (Except E) (locals A V) := do
  let new_mid ← point_typeE ops a v
  let old_mid_it ← ops.points.find s.points new_mid
  let right_it ← ops.points.upper_bound s.points new_mid
  let left_it0 := if old_mid_it ≠ s.points.length then old_mid_it else right_it
  let exists_left := decide (left_it0 ≠ 0)
  let left_it := if left_it0 ≠ 0 then left_it0 - 1 else left_it0
  let exists_old_mid := decide (old_mid_it ≠ s.points.length)
  let exists_right := decide (right_it ≠ s.points.length)
  let old_mid := deref s.points old_mid_it new_mid
  let left := deref s.points left_it new_mid
  let right := deref s.points right_it new_mid
  let mfind := ops.maxima.find s.maxima
  let max_it_old ← if exists_old_mid then mfind old_mid else pure s.maxima.length
  let is_in_old := exists_old_mid && decide (max_it_old ≠ s.maxima.length)
  let (max_it_left, is_max_left, is_in_left) ←
    if exists_left then do
      let it ← mfind left
      let mx ← is_maximumE ops
        (if left_it ≠ 0 then deref s.points (left_it - 1) new_mid else left) left new_mid
      let it2 ← mfind left
      pure (it, mx, decide (it2 ≠ s.maxima.length))
    else
      pure (s.maxima.length, false, false)
  let (max_it_right, is_max_right, is_in_right) ←
    if exists_right then do
      let it ← mfind right
      let mx ← is_maximumE ops new_mid right
        (if right_it + 1 ≠ s.points.length then deref s.points (right_it + 1) new_mid
         else right)
      let it2 ← mfind right
      pure (it, mx, decide (it2 ≠ s.maxima.length))
    else
      pure (s.maxima.length, false, false)
  let is_max_new ← is_maximumE ops (if exists_left then left else new_mid) new_mid
    (if exists_right then right else new_mid)
  pure
    { old_mid_it := old_mid_it
      exists_left := exists_left
      exists_old_mid := exists_old_mid
      exists_right := exists_right
      old_mid := old_mid
      left := left
      right := right
      max_it_old := max_it_old
      max_it_left := max_it_left
      max_it_right := max_it_right
      is_in_old := is_in_old
      is_max_left := is_max_left
      is_in_left := is_in_left
      is_max_right := is_max_right
      is_in_right := is_in_right
      is_max_new := is_max_new }

/-- The structure inside the `try` block of a mutation, with the iterators into `maxima`
and into `points` that the call holds and the flags `insert_max_left`, `insert_max_right`
and `insert_max_new` with their iterators. -/
structure try_state (A V : Type) where
  points : List (point_type A V)
  maxima : List (point_type A V)
  old_mid_it : Nat
  max_it_old : Nat
  max_it_left : Nat
  max_it_right : Nat
  insert_max_left : Bool
  insert_max_it_left : Nat
  insert_max_right : Bool
  insert_max_it_right : Nat
  insert_max_new : Bool
  insert_max_it_new : Nat
  deriving DecidableEq, Repr

/-- The iterators into `maxima` relocated by `f`. -/
def try_state.relocate (f : Nat → Nat) (t : try_state A V) : try_state A V :=
  { t with
    max_it_old := f t.max_it_old
    max_it_left := f t.max_it_left
    max_it_right := f t.max_it_right
    insert_max_it_left := f t.insert_max_it_left
    insert_max_it_right := f t.insert_max_it_right
    insert_max_it_new := f t.insert_max_it_new }

/-- The call `maxima.insert(x)` with operations that may throw; it gives the new state and
the iterator to the new element. -/
def try_state.insert_maxima (ops : throwing_ops σ E A V) (t : try_state A V)
    (x : point_type A V) : StateT σ (Except E) (try_state A V × Nat) := do
  let r ← ops.maxima.insert t.maxima x
  pure ({ t.relocate (after_insert r.2) with maxima := r.1 }, r.2)

/-- The call `maxima.erase(it)`, which does not throw. -/
def try_state.erase_maxima (t : try_state A V) (it : Nat) : try_state A V :=
  { t.relocate (after_erase it) with maxima := multiset_erase t.maxima it }

/-- The multiset `maxima` of a state inside a `try` block, with the three iterators that
are kept for the removals. -/
def try_state.mx (t : try_state A V) : mx_state A V :=
  ⟨t.maxima, t.max_it_old, t.max_it_left, t.max_it_right⟩

/-- The statements of a `try` block run in turn.  When one of them throws, the result is
the exception together with the state reached before that statement. -/
def run_try : List (try_state A V → StateT σ (Except E) (try_state A V)) → try_state A V →
    σ → Except (E × try_state A V) (try_state A V × σ)
  | [], t, c => .ok (t, c)
  | f :: fs, t, c =>
    match f t c with
    | .error e => .error (e, t)
    | .ok (t1, c1) => run_try fs t1 c1

/-- The first statement of the `try` blocks: the left neighbour is inserted into `maxima`
when it becomes a maximum. -/
def try_insert_left (ops : throwing_ops σ E A V) (x : locals A V) (t : try_state A V) :
    StateT σ (Except E) (try_state A V) :=
  if x.exists_left && x.is_max_left && !x.is_in_left then do
    let r ← t.insert_maxima ops x.left
    pure { r.1 with insert_max_it_left := r.2, insert_max_left := true }
  else
    pure t

/-- The second statement of the `try` blocks, for the right neighbour. -/
def try_insert_right (ops : throwing_ops σ E A V) (x : locals A V) (t : try_state A V) :
    StateT σ (Except E) (try_state A V) :=
  if x.exists_right && x.is_max_right && !x.is_in_right then do
    let r ← t.insert_maxima ops x.right
    pure { r.1 with insert_max_it_right := r.2, insert_max_right := true }
  else
    pure t

/-- The third statement of the `try` block of `set_value`, for the new point. -/
def try_insert_new (ops : throwing_ops σ E A V) (x : locals A V) (new_mid : point_type A V)
    (t : try_state A V) : StateT σ (Except E) (try_state A V) :=
  if x.is_max_new then do
    let r ← t.insert_maxima ops new_mid
    pure { r.1 with insert_max_it_new := r.2, insert_max_new := true }
  else
    pure t

/-- The last statement of the `try` block of `set_value`: `points.insert(new_mid)`. -/
def try_insert_point (ops : throwing_ops σ E A V) (new_mid : point_type A V)
    (t : try_state A V) : StateT σ (Except E) (try_state A V) := do
  let r ← ops.points.insert t.points new_mid
  pure { t with points := r.1, old_mid_it := after_insert r.2 t.old_mid_it }

/-- The `catch` block of the mutations: the insertions into `maxima` that were made are
erased again, before the exception is thrown on. -/
def rollback (t : try_state A V) : try_state A V :=
  let t1 := if t.insert_max_left then t.erase_maxima t.insert_max_it_left else t
  let t2 := if t1.insert_max_right then t1.erase_maxima t1.insert_max_it_right else t1
  if t2.insert_max_new then t2.erase_maxima t2.insert_max_it_new else t2

/-- Bookkeeping for a `try` block in progress, for a structure that had the maxima `M0`
when the method was called: the `catch` block would bring `M0` back, and the iterators of
the insertions made for the left and the right neighbour point to two elements. -/
structure Staged (M0 : List (point_type A V)) (t : try_state A V) : Prop where
  undo : (rollback t).maxima = M0
  left_lt : t.insert_max_left = true → t.insert_max_it_left < t.maxima.length
  right_lt : t.insert_max_right = true → t.insert_max_it_right < t.maxima.length
  left_right : t.insert_max_left = true → t.insert_max_right = true →
    t.insert_max_it_left ≠ t.insert_max_it_right

/-- The state at the start of a `try` block. -/
def try_start (s : FunctionMaxima A V) (x : locals A V) : try_state A V :=
  { points := s.points
    maxima := s.maxima
    old_mid_it := x.old_mid_it
    max_it_old := x.max_it_old
    max_it_left := x.max_it_left
    max_it_right := x.max_it_right
    insert_max_left := false
    insert_max_it_left := s.maxima.length
    insert_max_right := false
    insert_max_it_right := s.maxima.length
    insert_max_new := false
    insert_max_it_new := s.maxima.length }

/-- The statements of `set_value` after the `try` block, which do not throw: the removals
of the left neighbour, of the right neighbour and of the old point. -/
def set_value_removals (x : locals A V) (t : try_state A V) : FunctionMaxima A V :=
  let t4 := if x.exists_left && !x.is_max_left && x.is_in_left then
    t.erase_maxima t.max_it_left else t
  let t5 := if x.exists_right && !x.is_max_right && x.is_in_right then
    t4.erase_maxima t4.max_it_right else t4
  let p2 := if x.exists_old_mid then multiset_erase t5.points t5.old_mid_it
    else t5.points
  let t6 := if x.exists_old_mid && x.is_in_old then t5.erase_maxima t5.max_it_old
    else t5
  ⟨p2, t6.maxima⟩

/-- The method `set_value` with operations that may throw. -/
def set_valueE (ops : throwing_ops σ E A V) (s : FunctionMaxima A V) (a : A) (v : V)
    (c : σ) : outcome σ E A V :=
  match set_value_localsE ops s a v c with
  | .error e => .threw e s
  | .ok (x, c1) =>
    match run_try [try_insert_left ops x, try_insert_right ops x,
        try_insert_new ops x ⟨a, v⟩, try_insert_point ops ⟨a, v⟩] (try_start s x) c1 with
    | .error (e, t) =>
      let t1 := rollback t
      .threw e ⟨t1.points, t1.maxima⟩
    | .ok (t, c2) => .returned (set_value_removals x t) c2

/-- The part of `erase` before the `try` block, with operations that may throw, once
`mid_it` is known to point to the point `mid`. -/
def erase_localsE (ops : throwing_ops σ E A V) (s : FunctionMaxima A V) (mid_it : Nat)
    (mid : point_type A V) : StateT σ (Except E) (locals A V) := do
  let right_it ← ops.points.upper_bound s.points mid
  let left_it0 := if mid_it ≠ s.points.length then mid_it else right_it
  let exists_left := decide (left_it0 ≠ 0)
  let left_it := if left_it0 ≠ 0 then left_it0 - 1 else left_it0
  let exists_right := decide (right_it ≠ s.points.length)
  let left := deref s.points left_it mid
  let right := deref s.points right_it mid
  let mfind := ops.maxima.find s.maxima
  let max_it_mid ← mfind mid
  let max_it_left ← if exists_left then mfind left else pure s.maxima.length
  let max_it_right ← if exists_right then mfind right else pure s.maxima.length
  let is_in_mid := decide (max_it_mid ≠ s.maxima.length)
  let (is_max_left, is_in_left) ←
    if exists_left then do
      let mx ← is_maximumE ops
        (if left_it ≠ 0 then deref s.points (left_it - 1) mid else left) left
        (if exists_right then right else left)
      let it2 ← mfind left
      pure (mx, decide (it2 ≠ s.maxima.length))
    else
      pure (false, false)
  let (is_max_right, is_in_right) ←
    if exists_right then do
      let mx ← is_maximumE ops (if exists_left then left else right) right
        (if right_it + 1 ≠ s.points.length then deref s.points (right_it + 1) mid
         else right)
      let it2 ← mfind right
      pure (mx, decide (it2 ≠ s.maxima.length))
    else
      pure (false, false)
  pure
    { old_mid_it := mid_it
      exists_left := exists_left
      exists_old_mid := true
      exists_right := exists_right
      old_mid := mid
      left := left
      right := right
      max_it_old := max_it_mid
      max_it_left := max_it_left
      max_it_right := max_it_right
      is_in_old := is_in_mid
      is_max_left := is_max_left
      is_in_left := is_in_left
      is_max_right := is_max_right
      is_in_right := is_in_right
      is_max_new := false }

/-- The statements of `erase` after the `try` block, which do not throw: the removals of
the left neighbour, of the right neighbour and of the point `mid` from `maxima`, and of
`mid` from `points`. -/
def erase_removals (x : locals A V) (t : try_state A V) : FunctionMaxima A V :=
  let t3 := if x.exists_left && !x.is_max_left && x.is_in_left then
    t.erase_maxima t.max_it_left else t
  let t4 := if x.exists_right && !x.is_max_right && x.is_in_right then
    t3.erase_maxima t3.max_it_right else t3
  let t5 := if x.is_in_old then t4.erase_maxima t4.max_it_old else t4
  ⟨multiset_erase t5.points t5.old_mid_it, t5.maxima⟩

/-- The method `erase` with operations that may throw. -/
def eraseE (ops : throwing_ops σ E A V) (s : FunctionMaxima A V) (a : A) (c : σ) :
    outcome σ E A V :=
  match findE ops s a c with
  | .error e => .threw e s
  | .ok (mid_it, c0) =>
    match s.points[mid_it]? with
    | none => .returned s c0
    | some mid =>
      match erase_localsE ops s mid_it mid c0 with
      | .error e => .threw e s
      | .ok (x, c1) =>
        match run_try [try_insert_left ops x, try_insert_right ops x] (try_start s x) c1 with
        | .error (e, t) =>
          let t1 := rollback t
          .threw e ⟨t1.points, t1.maxima⟩
        | .ok (t, c2) => .returned (erase_removals x t) c2

/-- The outcome of a call that is atomic on failure: an exception leaves the call together
with the structure `s` that the call found, and a result is returned as it is. -/
def atomic_outcome (s : FunctionMaxima A V) :
    Except E (FunctionMaxima A V × σ) → outcome σ E A V
  | .error e => .threw e s
  | .ok (s1, c) => .returned s1 c

/-- The statements of `set_value` in the order of the source, without the `catch` block,
as one computation: the first operation that throws ends it with its exception, and when
none throws it gives the new structure. -/
def set_value_uncaught (ops : throwing_ops σ E A V) (s : FunctionMaxima A V) (a : A)
    (v : V) : StateT σ (Except E) (FunctionMaxima A V) := do
  let x ← set_value_localsE ops s a v
  let t1 ← try_insert_left ops x (try_start s x)
  let t2 ← try_insert_right ops x t1
  let t3 ← try_insert_new ops x ⟨a, v⟩ t2
  let t4 ← try_insert_point ops ⟨a, v⟩ t3
  pure (set_value_removals x t4)

/-- The statements of `erase` in the order of the source, without the `catch` block, as
one computation: the first operation that throws ends it with its exception, and when none
throws it gives the new structure. -/
def erase_uncaught (ops : throwing_ops σ E A V) (s : FunctionMaxima A V) (a : A) :
    StateT σ (Except E) (FunctionMaxima A V) := do
  let mid_it ← findE ops s a
  match s.points[mid_it]? with
  | none => pure s
  | some mid => do
    let x ← erase_localsE ops s mid_it mid
    let t1 ← try_insert_left ops x (try_start s x)
    let t2 ← try_insert_right ops x t1
    pure (erase_removals x t2)

/-- The reference container over a comparator and an allocation that may throw. -/
def scan_multiset (alloc : StateT σ (Except E) Unit)
    (comp : α → α → StateT σ (Except E) Bool) : multiset_ops σ E α :=
  { find := multiset_findE comp
    upper_bound := multiset_upper_boundE comp
    insert := multiset_insertE alloc comp }

/-- The operations of the caller together with two reference containers that use them. -/
def with_scan (ops : comparison_ops σ E A V) : throwing_ops σ E A V :=
  { ops with
    points := scan_multiset ops.alloc (points_comparatorE ops)
    maxima := scan_multiset ops.alloc (maxima_comparatorE ops) }

/-- Operations that never throw, from two pure comparisons. -/
def pure_ops (ltA : A → A → Bool) (ltV : V → V → Bool) : throwing_ops σ E A V :=
  with_scan
    { ltA := fun a b => pure (ltA a b)
      ltV := fun a b => pure (ltV a b)
      alloc := pure () }

/-- Operations over a countdown: each comparison and each allocation takes one unit, and
the operation that finds the countdown at zero throws the exception `e`. -/
def countdown_ops (e : E) (ltA : A → A → Bool) (ltV : V → V → Bool) :
    throwing_ops Nat E A V :=
  with_scan
    { ltA := fun a b c => match c with
        | 0 => .error e
        | n + 1 => .ok (ltA a b, n)
      ltV := fun a b c => match c with
        | 0 => .error e
        | n + 1 => .ok (ltV a b, n)
      alloc := fun c => match c with
        | 0 => .error e
        | n + 1 => .ok ((), n) }

/-- A computation over a countdown that runs with the result `r`: it makes a number `k` of
operations, so that it throws `e` when the countdown is below `k`, and otherwise returns
`r` and leaves the countdown less `k`. -/
def runs (e : E) {β : Type} (m : StateT Nat (Except E) β) (r : β) : Prop :=
  ∃ k, ∀ n, (n < k → m n = .error e) ∧ (k ≤ n → m n = .ok (r, n - k))

/-! ## Concrete scenarios -/

/-- The order `<` of the natural numbers as a test. -/
def nat_lt (a b : Nat) : Bool := decide (a < b)

/-- The points (1,10), (2,5), (3,10) inserted in this order into the empty structure. -/
def scenario_three : FunctionMaxima Nat Nat :=
  set_value nat_lt nat_lt (set_value nat_lt nat_lt (set_value nat_lt nat_lt empty 1 10) 2 5)
    3 10

/-- Scenario A: the points (1,10), (2,5), (3,10), (4,1) inserted in this order. -/
def scenario_A : FunctionMaxima Nat Nat :=
  set_value nat_lt nat_lt scenario_three 4 1

/-- The points (1,5), (2,10), (3,5) inserted in this order: a peak between two points that
become maxima when the peak goes away. -/
def scenario_peak : FunctionMaxima Nat Nat :=
  set_value nat_lt nat_lt (set_value nat_lt nat_lt (set_value nat_lt nat_lt empty 1 5) 2 10)
    3 5

end FunctionMaxima

namespace FunctionMaxima

variable {α A V : Type}

/-! ## Traversal of the maxima -/

/-- The method `mx_begin`: iterator to the first local maximum. -/
def mx_begin (_s : FunctionMaxima A V) : Nat :=
  0

/-- The method `mx_end`: iterator past the last local maximum. -/
def mx_end (s : FunctionMaxima A V) : Nat :=
  s.maxima.length

/-! ## The steps of `set_value`, and what a mutation leaves alone -/

/-- The two indices after each primitive insertion or removal that `set_value` performs,
in the order of the source: the staged insertions of the left neighbour, of the right
neighbour and of the new point into `maxima`, then `points.insert(new_mid)`, then the
removals of the left and of the right neighbour from `maxima`, then
`points.erase(old_mid_it)` and `maxima.erase(max_it_old)`.  A step whose condition does
not hold leaves the two indices as they are. -/
def set_value_steps (ltA : A → A → Bool) (ltV : V → V → Bool) (s : FunctionMaxima A V)
    (a : A) (v : V) : List (FunctionMaxima A V) :=
  let new_mid : point_type A V := ⟨a, v⟩
  let x := set_value_locals ltA ltV s a v
  let m0 : mx_state A V := ⟨s.maxima, x.max_it_old, x.max_it_left, x.max_it_right⟩
  let m1 := if x.exists_left && x.is_max_left && !x.is_in_left then m0.insert ltA ltV x.left
    else m0
  let m2 := if x.exists_right && x.is_max_right && !x.is_in_right then
    m1.insert ltA ltV x.right else m1
  let m3 := if x.is_max_new then m2.insert ltA ltV new_mid else m2
  let p1 := multiset_insert (points_comparator ltA) s.points new_mid
  let old_mid_it1 := after_insert p1.2 x.old_mid_it
  let m4 := if x.exists_left && !x.is_max_left && x.is_in_left then m3.erase m3.max_it_left
    else m3
  let m5 := if x.exists_right && !x.is_max_right && x.is_in_right then
    m4.erase m4.max_it_right else m4
  let p2 := if x.exists_old_mid then multiset_erase p1.1 old_mid_it1 else p1.1
  let m6 := if x.exists_old_mid && x.is_in_old then m5.erase m5.max_it_old else m5
  [⟨s.points, m1.maxima⟩, ⟨s.points, m2.maxima⟩, ⟨s.points, m3.maxima⟩,
    ⟨p1.1, m3.maxima⟩, ⟨p1.1, m4.maxima⟩, ⟨p1.1, m5.maxima⟩, ⟨p2, m5.maxima⟩,
    ⟨p2, m6.maxima⟩]

/-- The entries of an index `pts` whose argument is equivalent to `a`. -/
def entries_at (ltA : A → A → Bool) (pts : List (point_type A V)) (a : A) :
    List (point_type A V) :=
  pts.filter (fun p => !(ltA p.arg a) && !(ltA a p.arg))

/-- Bookkeeping for a point `p` that a mutation in progress does not touch: `p` is in
`maxima` exactly when it was in `M0` at the start, and the iterator kept for each of
`left`, `old` and `right` that is held (flags `sL`, `sO`, `sR`) points to an entry whose
argument is equivalent to the argument of that point. -/
structure Untouched (ltA : A → A → Bool) (m : mx_state A V) (M0 : List (point_type A V))
    (p left old right : point_type A V) (sL sO sR : Bool) : Prop where
  mem : p ∈ m.maxima ↔ p ∈ M0
  it_left : sL = true → ∃ y, m.maxima[m.max_it_left]? = some y ∧
    ltA y.arg left.arg = false ∧ ltA left.arg y.arg = false
  it_old : sO = true → ∃ y, m.maxima[m.max_it_old]? = some y ∧
    ltA y.arg old.arg = false ∧ ltA old.arg y.arg = false
  it_right : sR = true → ∃ y, m.maxima[m.max_it_right]? = some y ∧
    ltA y.arg right.arg = false ∧ ltA right.arg y.arg = false

/-- The order `≤` on the naturals: a less-than test that is not irreflexive. -/
def nat_le (a b : Nat) : Bool := decide (a ≤ b)

end FunctionMaxima

namespace FunctionMaxima

variable {α A V : Type}

/-! ## Strict weak orders -/

theorem StrictWeakOrder.asymm {lt : α → α → Bool} (h : StrictWeakOrder lt) {a b : α}
    (hab : lt a b = true) : lt b a = false := by
  cases hba : lt b a with
  | false => rfl
  | true =>
    have := h.trans a b a hab hba
    rw [h.irrefl] at this
    exact absurd this (by decide)

/-- Negative transitivity. -/
theorem StrictWeakOrder.not_lt_trans {lt : α → α → Bool} (h : StrictWeakOrder lt)
    {a b c : α} (hab : lt a b = false) (hbc : lt b c = false) : lt a c = false := by
  cases hac : lt a c with
  | false => rfl
  | true =>
    exfalso
    cases hba : lt b a with
    | true =>
      have := h.trans b a c hba hac
      rw [hbc] at this
      exact Bool.noConfusion this
    | false =>
      cases hcb : lt c b with
      | true =>
        have := h.trans a c b hac hcb
        rw [hab] at this
        exact Bool.noConfusion this
      | false =>
        have := h.equiv_trans a b c hab hba hbc hcb
        rw [hac] at this
        exact Bool.noConfusion this

theorem StrictWeakOrder.lt_of_lt_of_not_lt {lt : α → α → Bool} (h : StrictWeakOrder lt)
    {a b c : α} (hab : lt a b = true) (hcb : lt c b = false) : lt a c = true := by
  cases hac : lt a c with
  | true => rfl
  | false =>
    have := h.not_lt_trans hac hcb
    rw [hab] at this
    exact Bool.noConfusion this

theorem StrictWeakOrder.lt_of_not_lt_of_lt {lt : α → α → Bool} (h : StrictWeakOrder lt)
    {a b c : α} (hba : lt b a = false) (hbc : lt b c = true) : lt a c = true := by
  cases hac : lt a c with
  | true => rfl
  | false =>
    have := h.not_lt_trans hba hac
    rw [hbc] at this
    exact Bool.noConfusion this

/-! ## Sequences: insertion and erasure at an index -/

theorem insert_at_eq_take_drop (l : List α) (k : Nat) (x : α) :
    insert_at l k x = l.take k ++ x :: l.drop k := by
  induction l generalizing k with
  | nil => cases k <;> simp [insert_at]
  | cons y l ih =>
    cases k with
    | zero => simp [insert_at]
    | succ k => simp [insert_at, ih]

theorem insert_at_append_length (l r : List α) (x : α) :
    insert_at (l ++ r) l.length x = l ++ x :: r := by
  simp [insert_at_eq_take_drop]

theorem insert_at_length (l : List α) (k : Nat) (x : α) :
    (insert_at l k x).length = l.length + 1 := by
  induction l generalizing k with
  | nil => cases k <;> simp [insert_at]
  | cons y l ih =>
    cases k with
    | zero => simp [insert_at]
    | succ k => simp [insert_at, ih]

theorem insert_at_perm (l : List α) (k : Nat) (x : α) :
    (insert_at l k x).Perm (x :: l) := by
  induction l generalizing k with
  | nil => cases k <;> simp [insert_at]
  | cons y l ih =>
    cases k with
    | zero => simp [insert_at]
    | succ k =>
      simp only [insert_at]
      exact ((ih k).cons y).trans (List.Perm.swap x y l)

theorem getElem?_insert_at_self (l : List α) (k : Nat) (x : α) (hk : k ≤ l.length) :
    (insert_at l k x)[k]? = some x := by
  induction l generalizing k with
  | nil =>
    cases k with
    | zero => simp [insert_at]
    | succ k => simp at hk
  | cons y l ih =>
    cases k with
    | zero => simp [insert_at]
    | succ k =>
      simp only [insert_at, List.getElem?_cons_succ]
      exact ih k (by simpa using hk)

theorem getElem?_insert_at_after (l : List α) (k it : Nat) (x : α) (hk : k ≤ l.length) :
    (insert_at l k x)[after_insert k it]? = l[it]? := by
  induction l generalizing k it with
  | nil =>
    cases k with
    | zero => simp [insert_at, after_insert]
    | succ k => simp at hk
  | cons y l ih =>
    cases k with
    | zero => simp [insert_at, after_insert]
    | succ k =>
      cases it with
      | zero => simp [insert_at, after_insert]
      | succ it =>
        have := ih k it (by simpa using hk)
        simp only [after_insert, insert_at] at this ⊢
        by_cases hle : k ≤ it
        · simp [hle] at this ⊢
          exact this
        · simp [hle] at this ⊢
          exact this

theorem eraseIdx_insert_at (l : List α) (k : Nat) (x : α) (hk : k ≤ l.length) :
    (insert_at l k x).eraseIdx k = l := by
  induction l generalizing k with
  | nil =>
    cases k with
    | zero => simp [insert_at]
    | succ k => simp at hk
  | cons y l ih =>
    cases k with
    | zero => simp [insert_at]
    | succ k =>
      simp only [insert_at, List.eraseIdx_cons_succ]
      rw [ih k (by simpa using hk)]

theorem perm_cons_eraseIdx (l : List α) (it : Nat) (p : α) (h : l[it]? = some p) :
    l.Perm (p :: l.eraseIdx it) := by
  induction l generalizing it with
  | nil => simp at h
  | cons y l ih =>
    cases it with
    | zero =>
      simp at h
      subst h
      simp
    | succ it =>
      simp only [List.getElem?_cons_succ] at h
      simp only [List.eraseIdx_cons_succ]
      exact ((ih it h).cons y).trans (List.Perm.swap p y _)

theorem getElem?_eraseIdx_after (l : List α) (k it : Nat) (h : it ≠ k) :
    (l.eraseIdx k)[after_erase k it]? = l[it]? := by
  rw [List.getElem?_eraseIdx]
  unfold after_erase
  by_cases hlt : k < it
  · have h1 : ¬ (it - 1 < k) := by omega
    have h2 : it - 1 + 1 = it := by omega
    simp [hlt, h1, h2]
  · have h1 : it < k := by omega
    simp [hlt, h1]

theorem eraseIdx_append_length (l r : List α) (x : α) :
    (l ++ x :: r).eraseIdx l.length = l ++ r := by
  induction l with
  | nil => simp
  | cons y l ih => simp [ih]

end FunctionMaxima

namespace FunctionMaxima

variable {α A V : Type}

/-! ## Bounds and lookup in a sorted sequence -/

theorem multiset_lower_bound_le (comp : α → α → Bool) (l : List α) (k : α) :
    multiset_lower_bound comp l k ≤ l.length := by
  induction l with
  | nil => simp [multiset_lower_bound]
  | cons x xs ih =>
    simp only [multiset_lower_bound]
    split <;> simp
    exact ih

theorem multiset_upper_bound_le (comp : α → α → Bool) (l : List α) (k : α) :
    multiset_upper_bound comp l k ≤ l.length := by
  induction l with
  | nil => simp [multiset_upper_bound]
  | cons x xs ih =>
    simp only [multiset_upper_bound]
    split <;> simp
    exact ih

theorem multiset_find_le (comp : α → α → Bool) (l : List α) (k : α) :
    multiset_find comp l k ≤ l.length := by
  unfold multiset_find
  simp only
  split
  · exact Nat.le_refl _
  · split
    · exact Nat.le_refl _
    · exact multiset_lower_bound_le comp l k

theorem multiset_lower_bound_append (comp : α → α → Bool) (L R : List α) (k : α)
    (hL : ∀ x ∈ L, comp x k = true) (hR : ∀ y, R.head? = some y → comp y k = false) :
    multiset_lower_bound comp (L ++ R) k = L.length := by
  induction L with
  | nil =>
    cases R with
    | nil => simp [multiset_lower_bound]
    | cons y R => simp [multiset_lower_bound, hR y]
  | cons x L ih =>
    have hx : comp x k = true := hL x (by simp)
    have e : (x :: L) ++ R = x :: (L ++ R) := rfl
    rw [e]
    simp only [multiset_lower_bound, hx, if_true, List.length_cons]
    rw [ih (fun y hy => hL y (by simp [hy]))]

theorem multiset_upper_bound_append (comp : α → α → Bool) (L R : List α) (k : α)
    (hL : ∀ x ∈ L, comp k x = false) (hR : ∀ y, R.head? = some y → comp k y = true) :
    multiset_upper_bound comp (L ++ R) k = L.length := by
  induction L with
  | nil =>
    cases R with
    | nil => simp [multiset_upper_bound]
    | cons y R => simp [multiset_upper_bound, hR y]
  | cons x L ih =>
    have hx : comp k x = false := hL x (by simp)
    have e : (x :: L) ++ R = x :: (L ++ R) := rfl
    rw [e]
    simp only [multiset_upper_bound, hx, List.length_cons]
    rw [ih (fun y hy => hL y (by simp [hy]))]
    simp

theorem getElem?_append_length (L R : List α) (m : α) :
    (L ++ m :: R)[L.length]? = some m := by
  induction L with
  | nil => simp
  | cons y L ih => simpa using ih

/-- A sequence that is strictly sorted by a key splits, for any key `k`, into the elements
with a key less than `k`, at most one element with a key equivalent to `k`, and the
elements with a key greater than `k`. -/
theorem sorted_split {β : Type} {lt : β → β → Bool} (h : StrictWeakOrder lt) (f : α → β)
    (l : List α) (hs : l.Pairwise (fun x y => lt (f x) (f y) = true)) (k : β) :
    ∃ L M R, l = L ++ M ++ R ∧ (∀ x ∈ L, lt (f x) k = true) ∧
      (∀ x ∈ M, lt (f x) k = false ∧ lt k (f x) = false) ∧ (∀ x ∈ R, lt k (f x) = true) ∧
      M.length ≤ 1 := by
  induction l with
  | nil => exact ⟨[], [], [], by simp⟩
  | cons p t ih =>
    rw [List.pairwise_cons] at hs
    obtain ⟨hp, ht⟩ := hs
    cases hpk : lt (f p) k with
    | true =>
      obtain ⟨L, M, R, hl, hL, hM, hR, hlen⟩ := ih ht
      refine ⟨p :: L, M, R, by simp [hl], ?_, hM, hR, hlen⟩
      intro x hx
      rcases List.mem_cons.1 hx with rfl | hx
      · exact hpk
      · exact hL x hx
    | false =>
      cases hkp : lt k (f p) with
      | true =>
        refine ⟨[], [], p :: t, by simp, by simp, by simp, ?_, by simp⟩
        intro x hx
        rcases List.mem_cons.1 hx with rfl | hx
        · exact hkp
        · exact h.trans _ _ _ hkp (hp x hx)
      | false =>
        refine ⟨[], [p], t, by simp, by simp, ?_, ?_, by simp⟩
        · intro x hx
          rw [List.mem_singleton] at hx
          subst hx
          exact ⟨hpk, hkp⟩
        · intro x hx
          exact h.lt_of_not_lt_of_lt hpk (hp x hx)

/-- Lookup of a key in a split sequence without an equivalent element gives `end()`. -/
theorem multiset_find_absent (comp : α → α → Bool) (L R : List α) (k : α)
    (hL : ∀ x ∈ L, comp x k = true) (hR : ∀ x ∈ R, comp k x = true)
    (hR2 : ∀ x ∈ R, comp x k = false) :
    multiset_find comp (L ++ R) k = (L ++ R).length := by
  unfold multiset_find
  have hlb : multiset_lower_bound comp (L ++ R) k = L.length :=
    multiset_lower_bound_append comp L R k hL (by
      intro y hy
      exact hR2 y (List.mem_of_mem_head? hy))
  simp only [hlb]
  cases R with
  | nil => simp
  | cons y R =>
    rw [getElem?_append_length]
    simp [hR y]

/-- Lookup of a key in a split sequence with an equivalent element gives its index. -/
theorem multiset_find_present (comp : α → α → Bool) (L R : List α) (m k : α)
    (hL : ∀ x ∈ L, comp x k = true) (hm1 : comp m k = false) (hm2 : comp k m = false) :
    multiset_find comp (L ++ m :: R) k = L.length := by
  unfold multiset_find
  have hlb : multiset_lower_bound comp (L ++ m :: R) k = L.length :=
    multiset_lower_bound_append comp L (m :: R) k hL (by
      intro y hy
      simp at hy
      subst hy
      exact hm1)
  simp only [hlb]
  rw [getElem?_append_length]
  simp [hm2]

end FunctionMaxima

namespace FunctionMaxima

variable {α A V : Type}

/-! ## The domain index under `set_value` and `erase` -/

theorem splitAt_exists {ltA : A → A → Bool} (hA : StrictWeakOrder ltA)
    (pts : List (point_type A V)) (hs : pts.Pairwise (fun p q => ltA p.arg q.arg = true))
    (a : A) : ∃ L M R, SplitAt ltA pts a L M R := by
  obtain ⟨L, M, R, h1, h2, h3, h4, h5⟩ := sorted_split hA point_type.arg pts hs a
  exact ⟨L, M, R, ⟨h1, h2, h3, h4, h5⟩⟩

theorem SplitAt.mid_cases {ltA : A → A → Bool} {pts : List (point_type A V)} {a : A}
    {L M R : List (point_type A V)} (h : SplitAt ltA pts a L M R) :
    M = [] ∨ ∃ m, M = [m] := by
  have := h.len
  match M, this with
  | [], _ => exact Or.inl rfl
  | [m], _ => exact Or.inr ⟨m, rfl⟩
  | _ :: _ :: _, h2 => simp at h2

/-- Lookup of a key with argument `a` in the domain, when `a` is absent. -/
theorem find_points_absent {ltA : A → A → Bool} (hA : StrictWeakOrder ltA)
    {pts : List (point_type A V)} {a : A} {L R : List (point_type A V)}
    (h : SplitAt ltA pts a L [] R) (v : V) :
    multiset_find (points_comparator ltA) pts ⟨a, v⟩ = pts.length := by
  have e : pts = L ++ R := by simpa using h.eq
  rw [e]
  apply multiset_find_absent
  · intro x hx
    exact h.left x hx
  · intro x hx
    exact h.right x hx
  · intro x hx
    exact hA.asymm (h.right x hx)

/-- Lookup of a key with argument `a` in the domain, when `a` is present. -/
theorem find_points_present {ltA : A → A → Bool}
    {pts : List (point_type A V)} {a : A} {L R : List (point_type A V)} {m : point_type A V}
    (h : SplitAt ltA pts a L [m] R) (v : V) :
    multiset_find (points_comparator ltA) pts ⟨a, v⟩ = L.length := by
  have e : pts = L ++ m :: R := by simpa using h.eq
  rw [e]
  apply multiset_find_present
  · intro x hx
    exact h.left x hx
  · exact (h.mid m (by simp)).1
  · exact (h.mid m (by simp)).2

/-- The upper bound of a key with argument `a` in the domain. -/
theorem upper_bound_points {ltA : A → A → Bool} (hA : StrictWeakOrder ltA)
    {pts : List (point_type A V)} {a : A} {L M R : List (point_type A V)}
    (h : SplitAt ltA pts a L M R) (v : V) :
    multiset_upper_bound (points_comparator ltA) pts ⟨a, v⟩ = L.length + M.length := by
  rw [h.eq, ← List.length_append]
  apply multiset_upper_bound_append
  · intro x hx
    rcases List.mem_append.1 hx with hx | hx
    · exact hA.asymm (h.left x hx)
    · exact (h.mid x hx).2
  · intro y hy
    exact h.right y (List.mem_of_mem_head? hy)

/-- The domain index after `set_value`, whatever the maxima are. -/
theorem set_value_points_eq (ltA : A → A → Bool) (ltV : V → V → Bool)
    (s : FunctionMaxima A V) (a : A) (v : V) :
    (set_value ltA ltV s a v).points =
      if multiset_find (points_comparator ltA) s.points ⟨a, v⟩ ≠ s.points.length then
        (insert_at s.points (multiset_upper_bound (points_comparator ltA) s.points ⟨a, v⟩)
          ⟨a, v⟩).eraseIdx
          (after_insert (multiset_upper_bound (points_comparator ltA) s.points ⟨a, v⟩)
            (multiset_find (points_comparator ltA) s.points ⟨a, v⟩))
      else
        insert_at s.points (multiset_upper_bound (points_comparator ltA) s.points ⟨a, v⟩)
          ⟨a, v⟩ := by
  simp only [set_value, set_value_locals, multiset_insert, multiset_erase, decide_eq_true_eq]

/-- After `set_value(a, v)` the domain is the old domain with the point at `a`, if any,
replaced by `(a, v)`, and `(a, v)` put at its place in the order otherwise. -/
theorem set_value_points {ltA : A → A → Bool} (hA : StrictWeakOrder ltA) (ltV : V → V → Bool)
    (s : FunctionMaxima A V) (a : A) (v : V) {L M R : List (point_type A V)}
    (h : SplitAt ltA s.points a L M R) :
    (set_value ltA ltV s a v).points = L ++ ⟨a, v⟩ :: R := by
  rw [set_value_points_eq, upper_bound_points hA h v]
  rcases h.mid_cases with hM | ⟨m, hM⟩
  · subst hM
    rw [find_points_absent hA h v]
    have e : s.points = L ++ R := by simpa using h.eq
    simp only [ne_eq, not_true_eq_false, if_false, List.length_nil, Nat.add_zero]
    rw [e, insert_at_append_length]
  · subst hM
    rw [find_points_present h v]
    have e : s.points = L ++ m :: R := by simpa using h.eq
    have hne : L.length ≠ s.points.length := by
      rw [e]; simp
    rw [if_pos hne]
    have e2 : s.points = (L ++ [m]) ++ R := by simpa using h.eq
    have e3 : L.length + [m].length = (L ++ [m]).length := by simp
    rw [e3]
    conv => lhs; arg 1; rw [e2, insert_at_append_length]
    have e4 : after_insert (L ++ [m]).length L.length = L.length := by
      simp [after_insert]
    rw [e4]
    have e5 : L ++ [m] ++ ⟨a, v⟩ :: R = L ++ m :: (⟨a, v⟩ :: R) := by simp
    rw [e5, eraseIdx_append_length]

end FunctionMaxima

namespace FunctionMaxima

variable {α A V : Type}

theorem find_absent {ltA : A → A → Bool} (hA : StrictWeakOrder ltA)
    {s : FunctionMaxima A V} {a : A} {L R : List (point_type A V)}
    (h : SplitAt ltA s.points a L [] R) : find ltA s a = s.points.length := by
  unfold find
  split
  · rfl
  · rename_i p t hp
    exact find_points_absent hA h p.value

theorem find_present {ltA : A → A → Bool}
    {s : FunctionMaxima A V} {a : A} {L R : List (point_type A V)} {m : point_type A V}
    (h : SplitAt ltA s.points a L [m] R) : find ltA s a = L.length := by
  unfold find
  split
  · rename_i hp
    have := h.eq
    rw [hp] at this
    simp at this
  · rename_i p t hp
    exact find_points_present h p.value

/-- A strictly sorted domain splits around the argument of each of its points. -/
theorem splitAt_self {ltA : A → A → Bool} (hA : StrictWeakOrder ltA)
    {pts L R : List (point_type A V)} {m : point_type A V}
    (hs : pts.Pairwise (fun p q => ltA p.arg q.arg = true)) (e : pts = L ++ m :: R) :
    SplitAt ltA pts m.arg L [m] R := by
  rw [e, List.pairwise_append] at hs
  obtain ⟨_, hmR, hLm⟩ := hs
  rw [List.pairwise_cons] at hmR
  refine ⟨by simp [e], ?_, ?_, ?_, by simp⟩
  · intro x hx
    exact hLm x hx m (by simp)
  · intro x hx
    rw [List.mem_singleton] at hx
    subst hx
    exact ⟨hA.irrefl _, hA.irrefl _⟩
  · intro x hx
    exact hmR.1 x hx

/-- The domain index after `erase`, whatever the maxima are. -/
theorem erase_points_eq (ltA : A → A → Bool) (ltV : V → V → Bool)
    (s : FunctionMaxima A V) (a : A) :
    (erase ltA ltV s a).points = s.points.eraseIdx (find ltA s a) := by
  unfold erase
  simp only
  split
  · rename_i hnone
    rw [List.getElem?_eq_none_iff] at hnone
    rw [List.eraseIdx_of_length_le hnone]
  · simp only [multiset_erase]

/-- After `erase(a)` the domain is the old domain without the point at `a`. -/
theorem erase_points {ltA : A → A → Bool} (hA : StrictWeakOrder ltA) (ltV : V → V → Bool)
    (s : FunctionMaxima A V) (a : A) {L M R : List (point_type A V)}
    (h : SplitAt ltA s.points a L M R) :
    (erase ltA ltV s a).points = L ++ R := by
  rw [erase_points_eq]
  rcases h.mid_cases with hM | ⟨m, hM⟩
  · subst hM
    rw [find_absent hA h, List.eraseIdx_of_length_le (Nat.le_refl _)]
    simpa using h.eq
  · subst hM
    rw [find_present h]
    have e : s.points = L ++ m :: R := by simpa using h.eq
    rw [e, eraseIdx_append_length]

/-- Erasing an argument that `find` does not find changes nothing. -/
theorem erase_of_find_eq_end (ltA : A → A → Bool) (ltV : V → V → Bool)
    (s : FunctionMaxima A V) (a : A) (h : find ltA s a = s.points.length) :
    erase ltA ltV s a = s := by
  unfold erase
  simp only [h, List.getElem?_eq_none (Nat.le_refl _)]

theorem pairwise_of_split {ltA : A → A → Bool}
    {pts : List (point_type A V)} {a : A} {L M R : List (point_type A V)}
    (h : SplitAt ltA pts a L M R)
    (hs : pts.Pairwise (fun p q => ltA p.arg q.arg = true)) (v : V) :
    (L ++ (⟨a, v⟩ : point_type A V) :: R).Pairwise (fun p q => ltA p.arg q.arg = true) := by
  rw [h.eq, List.append_assoc, List.pairwise_append] at hs
  obtain ⟨hL, hMR, hLMR⟩ := hs
  rw [List.pairwise_append] at hMR
  rw [List.pairwise_append]
  refine ⟨hL, ?_, ?_⟩
  · rw [List.pairwise_cons]
    exact ⟨fun x hx => h.right x hx, hMR.2.1⟩
  · intro x hx y hy
    rcases List.mem_cons.1 hy with rfl | hy
    · exact h.left x hx
    · exact hLMR x hx y (List.mem_append_right _ hy)

theorem pairwise_of_split_erase {ltA : A → A → Bool}
    {pts : List (point_type A V)} {a : A} {L M R : List (point_type A V)}
    (h : SplitAt ltA pts a L M R)
    (hs : pts.Pairwise (fun p q => ltA p.arg q.arg = true)) :
    (L ++ R).Pairwise (fun p q => ltA p.arg q.arg = true) := by
  rw [h.eq] at hs
  refine hs.sublist ?_
  rw [List.append_assoc]
  exact List.Sublist.append (List.Sublist.refl L) (List.sublist_append_right M R)

end FunctionMaxima

namespace FunctionMaxima

variable {α A V : Type}

/-! ## The maxima comparator -/

theorem maxima_comparator_eq_true_iff (ltA : A → A → Bool) (ltV : V → V → Bool)
    (a b : point_type A V) :
    maxima_comparator ltA ltV a b = true ↔
      (ltV b.value a.value = true ∨
        (ltV a.value b.value = false ∧ ltV b.value a.value = false ∧
          ltA a.arg b.arg = true)) := by
  unfold maxima_comparator
  cases h1 : ltV a.value b.value <;> cases h2 : ltV b.value a.value <;> simp

theorem maxima_comparator_eq_false_iff {ltA : A → A → Bool} {ltV : V → V → Bool}
    (hV : StrictWeakOrder ltV) (a b : point_type A V) :
    maxima_comparator ltA ltV a b = false ↔
      (ltV a.value b.value = true ∨
        (ltV a.value b.value = false ∧ ltV b.value a.value = false ∧
          ltA a.arg b.arg = false)) := by
  unfold maxima_comparator
  cases h1 : ltV a.value b.value <;> cases h2 : ltV b.value a.value <;> simp
  have := hV.asymm h1
  rw [h2] at this
  exact absurd this (by decide)

theorem maxima_comparator_swo {ltA : A → A → Bool} {ltV : V → V → Bool}
    (hA : StrictWeakOrder ltA) (hV : StrictWeakOrder ltV) :
    StrictWeakOrder (maxima_comparator ltA ltV : point_type A V → point_type A V → Bool) := by
  refine ⟨?_, ?_, ?_⟩
  · intro a
    rw [maxima_comparator_eq_false_iff hV]
    exact Or.inr ⟨hV.irrefl _, hV.irrefl _, hA.irrefl _⟩
  · intro a b c hab hbc
    rw [maxima_comparator_eq_true_iff] at hab hbc ⊢
    rcases hab with hab | ⟨hab1, hab2, hab3⟩
    · rcases hbc with hbc | ⟨hbc1, hbc2, hbc3⟩
      · exact Or.inl (hV.trans _ _ _ hbc hab)
      · exact Or.inl (hV.lt_of_not_lt_of_lt hbc1 hab)
    · rcases hbc with hbc | ⟨hbc1, hbc2, hbc3⟩
      · exact Or.inl (hV.lt_of_lt_of_not_lt hbc hab1)
      · exact Or.inr ⟨hV.not_lt_trans hab1 hbc1, hV.not_lt_trans hbc2 hab2,
          hA.trans _ _ _ hab3 hbc3⟩
  · intro a b c hab hba hbc hcb
    rw [maxima_comparator_eq_false_iff hV] at hab hba hbc hcb ⊢
    have e1 : ltV a.value b.value = false ∧ ltV b.value a.value = false ∧
        ltA a.arg b.arg = false ∧ ltA b.arg a.arg = false := by
      rcases hab with hab | ⟨h1, h2, h3⟩
      · rcases hba with hba | ⟨h4, h5, h6⟩
        · have := hV.asymm hab
          rw [hba] at this
          exact absurd this (by decide)
        · rw [hab] at h5
          exact absurd h5 (by decide)
      · rcases hba with hba | ⟨h4, h5, h6⟩
        · rw [hba] at h2
          exact absurd h2 (by decide)
        · exact ⟨h1, h2, h3, h6⟩
    have e2 : ltV b.value c.value = false ∧ ltV c.value b.value = false ∧
        ltA b.arg c.arg = false ∧ ltA c.arg b.arg = false := by
      rcases hbc with hbc | ⟨h1, h2, h3⟩
      · rcases hcb with hcb | ⟨h4, h5, h6⟩
        · have := hV.asymm hbc
          rw [hcb] at this
          exact absurd this (by decide)
        · rw [hbc] at h5
          exact absurd h5 (by decide)
      · rcases hcb with hcb | ⟨h4, h5, h6⟩
        · rw [hcb] at h2
          exact absurd h2 (by decide)
        · exact ⟨h1, h2, h3, h6⟩
    exact Or.inr ⟨hV.not_lt_trans e1.1 e2.1, hV.not_lt_trans e2.2.1 e1.2.1,
      hA.not_lt_trans e1.2.2.1 e2.2.2.1⟩

/-- Two points of a strictly sorted domain with equivalent arguments are the same point. -/
theorem eq_of_equiv_arg {ltA : A → A → Bool}
    {pts : List (point_type A V)} (hs : pts.Pairwise (fun p q => ltA p.arg q.arg = true))
    {x p : point_type A V} (hx : x ∈ pts) (hp : p ∈ pts)
    (h1 : ltA x.arg p.arg = false) (h2 : ltA p.arg x.arg = false) : x = p := by
  induction pts with
  | nil => simp at hx
  | cons q t ih =>
    rw [List.pairwise_cons] at hs
    rcases List.mem_cons.1 hx with hxq | hxt
    · rcases List.mem_cons.1 hp with hpq | hpt
      · rw [hxq, hpq]
      · have := hs.1 p hpt
        rw [← hxq, h1] at this
        exact absurd this (by decide)
    · rcases List.mem_cons.1 hp with hpq | hpt
      · have := hs.1 x hxt
        rw [← hpq, h2] at this
        exact absurd this (by decide)
      · exact ih hs.2 hxt hpt

/-- Lookup in a strictly sorted sequence finds an element that is in the sequence. -/
theorem multiset_find_mem {comp : α → α → Bool} (h : StrictWeakOrder comp) (l : List α)
    (hs : l.Pairwise (fun x y => comp x y = true)) (p : α) (hp : p ∈ l) :
    l[multiset_find comp l p]? = some p := by
  obtain ⟨L, M, R, hl, hL, hM, hR, hlen⟩ := sorted_split h id l hs p
  simp only [id] at hL hM hR
  rw [hl] at hp
  rcases List.mem_append.1 hp with hp | hp
  · rcases List.mem_append.1 hp with hp | hp
    · have := hL p hp
      rw [h.irrefl] at this
      exact absurd this (by decide)
    · match M, hlen, hM, hp with
      | [m], _, hM, hp =>
        rw [List.mem_singleton] at hp
        subst hp
        have e : l = L ++ p :: R := by simpa using hl
        rw [e, multiset_find_present comp L R p p hL (h.irrefl _) (h.irrefl _)]
        exact getElem?_append_length L R p
  · have := hR p hp
    rw [h.irrefl] at this
    exact absurd this (by decide)

/-- Lookup in a strictly sorted sequence gives `end()` for a key that has no equivalent
element in the sequence. -/
theorem multiset_find_not_mem {comp : α → α → Bool} (h : StrictWeakOrder comp) (l : List α)
    (hs : l.Pairwise (fun x y => comp x y = true)) (p : α)
    (hp : ∀ x ∈ l, ¬ (comp x p = false ∧ comp p x = false)) :
    multiset_find comp l p = l.length := by
  obtain ⟨L, M, R, hl, hL, hM, hR, hlen⟩ := sorted_split h id l hs p
  simp only [id] at hL hM hR
  match M, hlen, hM, hl with
  | [], _, _, hl =>
    have e : l = L ++ R := by simpa using hl
    rw [e]
    exact multiset_find_absent comp L R p hL hR (fun x hx => h.asymm (hR x hx))
  | [m], _, hM, hl =>
    exfalso
    exact hp m (by rw [hl]; simp) (hM m (by simp))

end FunctionMaxima

namespace FunctionMaxima

variable {α A V : Type}

/-! ## Insertion and erasure keep a sequence sorted -/

theorem mem_insert_at (l : List α) (k : Nat) (x e : α) :
    e ∈ insert_at l k x ↔ e = x ∨ e ∈ l := by
  rw [(insert_at_perm l k x).mem_iff, List.mem_cons]

theorem insert_at_sorted {comp : α → α → Bool} (h : StrictWeakOrder comp) (l : List α)
    (x : α) (hs : l.Pairwise (fun p q => comp q p = false)) :
    (insert_at l (multiset_upper_bound comp l x) x).Pairwise
      (fun p q => comp q p = false) := by
  induction l with
  | nil => simp [multiset_upper_bound, insert_at]
  | cons y l ih =>
    rw [List.pairwise_cons] at hs
    simp only [multiset_upper_bound]
    cases hxy : comp x y with
    | true =>
      simp only [if_true, insert_at]
      rw [List.pairwise_cons, List.pairwise_cons]
      refine ⟨?_, hs⟩
      intro e he
      rcases List.mem_cons.1 he with rfl | he
      · exact h.asymm hxy
      · cases hex : comp e x with
        | false => rfl
        | true =>
          have := h.trans _ _ _ hex hxy
          rw [hs.1 e he] at this
          exact absurd this (by decide)
    | false =>
      simp only [insert_at]
      rw [List.pairwise_cons]
      refine ⟨?_, ih hs.2⟩
      intro e he
      rcases (mem_insert_at _ _ _ _).1 he with rfl | he
      · exact hxy
      · exact hs.1 e he

theorem eraseIdx_sorted {r : α → α → Prop} (l : List α) (k : Nat) (hs : l.Pairwise r) :
    (l.eraseIdx k).Pairwise r :=
  hs.sublist (List.eraseIdx_sublist l k)

/-! ## Bookkeeping of the iterators into `maxima` -/

section tracked

variable {ltA : A → A → Bool} {ltV : V → V → Bool}

theorem mx_insert_maxima (m : mx_state A V) (x : point_type A V) :
    (m.insert ltA ltV x).maxima =
      insert_at m.maxima (multiset_upper_bound (maxima_comparator ltA ltV) m.maxima x) x :=
  rfl

theorem mx_insert_getElem? (m : mx_state A V) (x : point_type A V) (it : Nat) :
    (m.insert ltA ltV x).maxima[after_insert
      (multiset_upper_bound (maxima_comparator ltA ltV) m.maxima x) it]? = m.maxima[it]? :=
  getElem?_insert_at_after _ _ _ _ (multiset_upper_bound_le _ _ _)

/-- An insertion into `maxima` that is made under a condition `c`. -/
theorem Tracked.insert_if (hA : StrictWeakOrder ltA) (hV : StrictWeakOrder ltV)
    {m : mx_state A V} {left old right : point_type A V} {sL sO sR : Bool}
    {W : List (point_type A V)} (h : Tracked ltA ltV m left old right sL sO sR W)
    (c : Bool) (x : point_type A V) :
    Tracked ltA ltV (if c = true then m.insert ltA ltV x else m) left old right sL sO sR
      ((if c then [x] else []) ++ W) := by
  cases c with
  | false => simpa using h
  | true =>
    simp only [if_true]
    refine ⟨?_, ?_, ?_, ?_, ?_⟩
    · rw [mx_insert_maxima]
      refine (insert_at_perm _ _ _).trans ?_
      refine ((List.Perm.cons x h.perm)).trans ?_
      simp only [List.singleton_append]
      exact List.perm_middle.symm
    · rw [mx_insert_maxima]
      exact insert_at_sorted (maxima_comparator_swo hA hV) _ _ h.sorted
    · intro hs
      exact (mx_insert_getElem? m x m.max_it_left).trans (h.it_left hs)
    · intro hs
      exact (mx_insert_getElem? m x m.max_it_old).trans (h.it_old hs)
    · intro hs
      exact (mx_insert_getElem? m x m.max_it_right).trans (h.it_right hs)

theorem ne_of_getElem?_ne {l : List α} {i j : Nat} {p q : α} (hi : l[i]? = some p)
    (hj : l[j]? = some q) (hpq : p ≠ q) : i ≠ j := by
  intro e
  subst e
  rw [hi] at hj
  exact hpq (Option.some.inj hj)

/-- The erasure of `left` from `maxima`, made under a condition `c`. -/
theorem Tracked.erase_left_if
    {m : mx_state A V} {left old right : point_type A V} {sL sO sR : Bool}
    {W : List (point_type A V)} (h : Tracked ltA ltV m left old right sL sO sR W)
    (c : Bool) (hc : c = true → sL = true) (hO : c = true → sO = true → old ≠ left)
    (hR : c = true → sR = true → right ≠ left) :
    Tracked ltA ltV (if c = true then m.erase m.max_it_left else m) left old right
      (sL && !c) sO sR W := by
  cases c with
  | false => simpa using h
  | true =>
    have hsL : sL = true := hc rfl
    subst hsL
    have hit := h.it_left rfl
    simp only [if_true, Bool.not_true, Bool.and_false]
    refine ⟨?_, ?_, ?_, ?_, ?_⟩
    · have h1 := (perm_cons_eraseIdx _ _ _ hit).symm.trans h.perm
      simp only [if_true, List.singleton_append, List.cons_append, List.nil_append] at h1
      simpa using h1.cons_inv
    · exact eraseIdx_sorted _ _ h.sorted
    · intro hs
      exact absurd hs (by decide)
    · intro hs
      have := h.it_old hs
      exact (getElem?_eraseIdx_after _ _ _ (ne_of_getElem?_ne this hit (hO rfl hs))).trans this
    · intro hs
      have := h.it_right hs
      exact (getElem?_eraseIdx_after _ _ _ (ne_of_getElem?_ne this hit (hR rfl hs))).trans this

/-- The erasure of `right` from `maxima`, made under a condition `c`. -/
theorem Tracked.erase_right_if
    {m : mx_state A V} {left old right : point_type A V} {sL sO sR : Bool}
    {W : List (point_type A V)} (h : Tracked ltA ltV m left old right sL sO sR W)
    (c : Bool) (hc : c = true → sR = true) (hL : c = true → sL = true → left ≠ right)
    (hO : c = true → sO = true → old ≠ right) :
    Tracked ltA ltV (if c = true then m.erase m.max_it_right else m) left old right
      sL sO (sR && !c) W := by
  cases c with
  | false => simpa using h
  | true =>
    have hsR : sR = true := hc rfl
    subst hsR
    have hit := h.it_right rfl
    simp only [if_true, Bool.not_true, Bool.and_false]
    refine ⟨?_, ?_, ?_, ?_, ?_⟩
    · have h1 := (perm_cons_eraseIdx _ _ _ hit).symm.trans h.perm
      have h2 : ((if sL = true then [left] else []) ++ (if sO = true then [old] else []) ++
          (if true = true then [right] else []) ++ W).Perm
          (right :: ((if sL = true then [left] else []) ++
            (if sO = true then [old] else []) ++ W)) := by
        have := @List.perm_middle _ right
          ((if sL = true then [left] else []) ++ (if sO = true then [old] else [])) W
        simpa using this
      simpa using (h1.trans h2).cons_inv
    · exact eraseIdx_sorted _ _ h.sorted
    · intro hs
      have := h.it_left hs
      exact (getElem?_eraseIdx_after _ _ _ (ne_of_getElem?_ne this hit (hL rfl hs))).trans this
    · intro hs
      have := h.it_old hs
      exact (getElem?_eraseIdx_after _ _ _ (ne_of_getElem?_ne this hit (hO rfl hs))).trans this
    · intro hs
      exact absurd hs (by decide)

/-- The erasure of the old point from `maxima`, made under a condition `c`. -/
theorem Tracked.erase_old_if
    {m : mx_state A V} {left old right : point_type A V} {sL sO sR : Bool}
    {W : List (point_type A V)} (h : Tracked ltA ltV m left old right sL sO sR W)
    (c : Bool) (hc : c = true → sO = true) (hL : c = true → sL = true → left ≠ old)
    (hR : c = true → sR = true → right ≠ old) :
    Tracked ltA ltV (if c = true then m.erase m.max_it_old else m) left old right
      sL (sO && !c) sR W := by
  cases c with
  | false => simpa using h
  | true =>
    have hsO : sO = true := hc rfl
    subst hsO
    have hit := h.it_old rfl
    simp only [if_true, Bool.not_true, Bool.and_false]
    refine ⟨?_, ?_, ?_, ?_, ?_⟩
    · have h1 := (perm_cons_eraseIdx _ _ _ hit).symm.trans h.perm
      have h2 : ((if sL = true then [left] else []) ++ (if true = true then [old] else []) ++
          (if sR = true then [right] else []) ++ W).Perm
          (old :: ((if sL = true then [left] else []) ++
            (if sR = true then [right] else []) ++ W)) := by
        simp only [if_true, List.append_assoc, List.singleton_append]
        exact List.perm_middle
      simpa using (h1.trans h2).cons_inv
    · exact eraseIdx_sorted _ _ h.sorted
    · intro hs
      have := h.it_left hs
      exact (getElem?_eraseIdx_after _ _ _ (ne_of_getElem?_ne this hit (hL rfl hs))).trans this
    · intro hs
      exact absurd hs (by decide)
    · intro hs
      have := h.it_right hs
      exact (getElem?_eraseIdx_after _ _ _ (ne_of_getElem?_ne this hit (hR rfl hs))).trans this

end tracked

end FunctionMaxima

namespace FunctionMaxima

variable {α A V : Type}

/-! ## Local maxima of a stretch of the domain -/

theorem local_maxima_between_append (ltV : V → V → Bool) (prev next : Option (point_type A V))
    (l1 l2 : List (point_type A V)) :
    local_maxima_between ltV prev (l1 ++ l2) next =
      local_maxima_between ltV prev l1 (l2.head?.or next) ++
        local_maxima_between ltV (l1.getLast?.or prev) l2 next := by
  induction l1 generalizing prev with
  | nil => simp [local_maxima_between]
  | cons p t ih =>
    have e : (p :: t) ++ l2 = p :: (t ++ l2) := rfl
    rw [e]
    simp only [local_maxima_between]
    rw [ih (some p)]
    have h1 : (t ++ l2).head?.or next = t.head?.or (l2.head?.or next) := by
      cases t <;> simp
    have h2 : (p :: t).getLast?.or prev = t.getLast?.or (some p) := by
      cases t with
      | nil => simp
      | cons q t =>
        rw [List.getLast?_cons_cons]
        obtain ⟨z, hz⟩ : ∃ z, (q :: t).getLast? = some z :=
          ⟨_, List.getLast?_eq_getLast _ (by simp)⟩
        simp [hz]
    rw [h1, h2, List.append_assoc]

theorem local_maxima_between_singleton (ltV : V → V → Bool)
    (prev next : Option (point_type A V)) (p : point_type A V) :
    local_maxima_between ltV prev [p] next =
      if not_below ltV p prev && not_below ltV p next then [p] else [] := by
  simp [local_maxima_between]

theorem local_maxima_between_sublist (ltV : V → V → Bool)
    (prev next : Option (point_type A V)) (l : List (point_type A V)) :
    (local_maxima_between ltV prev l next).Sublist l := by
  induction l generalizing prev with
  | nil => simp [local_maxima_between]
  | cons p t ih =>
    simp only [local_maxima_between]
    split
    · exact List.Sublist.cons₂ p (ih (some p))
    · exact List.Sublist.cons p (ih (some p))

/-- Membership in the local maxima of a stretch, by index. -/
theorem mem_local_maxima_between_iff (ltV : V → V → Bool)
    (prev next : Option (point_type A V)) (l : List (point_type A V)) (p : point_type A V) :
    p ∈ local_maxima_between ltV prev l next ↔
      ∃ i, l[i]? = some p ∧ not_below ltV p (if i = 0 then prev else l[i - 1]?) = true ∧
        not_below ltV p (l[i + 1]?.or next) = true := by
  induction l generalizing prev with
  | nil => simp [local_maxima_between]
  | cons q t ih =>
    simp only [local_maxima_between, List.mem_append]
    rw [ih (some q)]
    constructor
    · rintro (h | ⟨j, hj, h1, h2⟩)
      · split at h
        · rename_i hc
          rw [List.mem_singleton] at h
          subst h
          rw [Bool.and_eq_true] at hc
          refine ⟨0, by simp, by simpa using hc.1, ?_⟩
          have : (p :: t)[0 + 1]? = t.head? := by
            cases t <;> simp
          rw [this]
          exact hc.2
        · simp at h
      · refine ⟨j + 1, by simpa using hj, ?_, by simpa using h2⟩
        cases j with
        | zero => simpa using h1
        | succ j => simpa using h1
    · rintro ⟨i, hi, h1, h2⟩
      cases i with
      | zero =>
        left
        simp only [List.getElem?_cons_zero, Option.some.injEq] at hi
        subst hi
        have : (q :: t)[0 + 1]? = t.head? := by
          cases t <;> simp
        rw [this] at h2
        simp only [if_true] at h1
        simp [h1, h2]
      | succ j =>
        right
        refine ⟨j, by simpa using hi, ?_, by simpa using h2⟩
        cases j with
        | zero => simpa using h1
        | succ j => simpa using h1

/-- The local maxima of the whole domain are the points that `is_local_maximum_at`
accepts. -/
theorem mem_local_maxima_iff (ltV : V → V → Bool) (pts : List (point_type A V))
    (p : point_type A V) :
    p ∈ local_maxima_between ltV none pts none ↔
      ∃ i, pts[i]? = some p ∧ is_local_maximum_at ltV pts i = true := by
  rw [mem_local_maxima_between_iff]
  constructor
  · rintro ⟨i, hi, h1, h2⟩
    refine ⟨i, hi, ?_⟩
    simp only [is_local_maximum_at, hi, left_neighbour, right_neighbour, Bool.and_eq_true]
    exact ⟨h1, by simpa using h2⟩
  · rintro ⟨i, hi, h⟩
    refine ⟨i, hi, ?_⟩
    simp only [is_local_maximum_at, hi, left_neighbour, right_neighbour,
      Bool.and_eq_true] at h
    exact ⟨h.1, by simpa using h.2⟩

end FunctionMaxima

namespace FunctionMaxima

variable {α A V : Type}

/-- The local maxima of a domain `L ++ M ++ R` with at most one point in `M`: those of `L`
without its last point, then the last point of `L`, the point of `M` and the first point of
`R` as far as they are local maxima, then those of `R` without its first point. -/
theorem local_maxima_split (ltV : V → V → Bool) (L M R : List (point_type A V))
    (hM : M.length ≤ 1) :
    local_maxima_between ltV none (L ++ M ++ R) none =
      local_maxima_between ltV none L.dropLast L.getLast? ++
      keep_if L.getLast? (fun l => not_below ltV l L.dropLast.getLast? &&
        not_below ltV l (M.head?.or R.head?)) ++
      keep_if M.head? (fun o => not_below ltV o L.getLast? && not_below ltV o R.head?) ++
      keep_if R.head? (fun r => not_below ltV r (M.head?.or L.getLast?) &&
        not_below ltV r R.tail.head?) ++
      local_maxima_between ltV R.head? R.tail none := by
  rcases List.eq_nil_or_concat L with rfl | ⟨L', l, rfl⟩
  · match M, hM with
    | [], _ =>
      cases R with
      | nil => simp [local_maxima_between, keep_if]
      | cons r R' => simp [local_maxima_between, keep_if]
    | [o], _ =>
      cases R with
      | nil => simp [local_maxima_between, keep_if]
      | cons r R' => simp [local_maxima_between, keep_if]
  · match M, hM with
    | [], _ =>
      cases R with
      | nil =>
        simp [local_maxima_between_append, local_maxima_between, keep_if]
      | cons r R' =>
        simp [local_maxima_between_append, local_maxima_between, keep_if]
    | [o], _ =>
      cases R with
      | nil =>
        simp [local_maxima_between_append, local_maxima_between, keep_if]
      | cons r R' =>
        simp [local_maxima_between_append, local_maxima_between, keep_if]

end FunctionMaxima

namespace FunctionMaxima

variable {α A V : Type}

/-! ## Neighbours by index -/

theorem getElem?_append_add (L X : List α) (i : Nat) :
    (L ++ X)[L.length + i]? = X[i]? := by
  induction L with
  | nil => simp
  | cons y L ih =>
    have : (y :: L).length + i = (L.length + i) + 1 := by simp; omega
    rw [this]
    simpa using ih

theorem getElem?_append_lt (L X : List α) (i : Nat) (h : i < L.length) :
    (L ++ X)[i]? = L[i]? := by
  induction L generalizing i with
  | nil => simp at h
  | cons y L ih =>
    cases i with
    | zero => simp
    | succ i =>
      have : i < L.length := by simpa using h
      simpa using ih i this

theorem getElem?_pred_length (L X : List α) (h : L.length ≠ 0) :
    (L ++ X)[L.length - 1]? = L.getLast? := by
  rw [getElem?_append_lt L X _ (by omega), List.getLast?_eq_getElem?]

theorem getElem?_pred_pred_length (L X : List α) (h : L.length - 1 ≠ 0) :
    (L ++ X)[L.length - 1 - 1]? = L.dropLast.getLast? := by
  rw [getElem?_append_lt L X _ (by omega), List.getLast?_eq_getElem?]
  rw [List.length_dropLast, List.dropLast_eq_take, List.getElem?_take,
    if_pos (show L.length - 1 - 1 < L.length - 1 by omega)]

theorem dropLast_getLast?_of_length (L : List α) (h : ¬ L.length - 1 ≠ 0) :
    L.dropLast.getLast? = none := by
  rw [List.getLast?_eq_none_iff, ← List.length_eq_zero, List.length_dropLast]
  omega

theorem getLast?_isSome (L : List α) : L.getLast?.isSome = decide (L.length ≠ 0) := by
  cases L with
  | nil => simp
  | cons x L =>
    obtain ⟨z, hz⟩ : ∃ z, (x :: L).getLast? = some z :=
      ⟨_, List.getLast?_eq_getLast _ (by simp)⟩
    simp [hz]

theorem head?_eq_getElem?_zero (R : List α) : R[0]? = R.head? := by
  cases R <;> simp

theorem tail_head?_eq_getElem?_one (R : List α) : R[1]? = R.tail.head? := by
  cases R with
  | nil => simp
  | cons r R => cases R <;> simp

end FunctionMaxima

namespace FunctionMaxima

variable {α A V : Type}

/-! ## What `set_value` works out before the `try` block -/

section set_value_locals

variable {ltA : A → A → Bool} {ltV : V → V → Bool}

theorem is_maximum_eq (ltV : V → V → Bool) (l m r : point_type A V) :
    is_maximum ltV l m r = (not_below ltV m (some l) && not_below ltV m (some r)) := rfl

theorem not_below_self (hV : StrictWeakOrder ltV) (p : point_type A V) :
    not_below ltV p (some p) = true := by
  simp [not_below, hV.irrefl]

/-- The iterator `left_it` of `set_value` before it is decremented. -/
theorem locate_left (hA : StrictWeakOrder ltA) {s : FunctionMaxima A V} {a : A}
    {L M R : List (point_type A V)} (h : SplitAt ltA s.points a L M R) (v : V) :
    (if multiset_find (points_comparator ltA) s.points ⟨a, v⟩ ≠ s.points.length
      then multiset_find (points_comparator ltA) s.points ⟨a, v⟩
      else multiset_upper_bound (points_comparator ltA) s.points ⟨a, v⟩) = L.length := by
  have hub := upper_bound_points hA h v
  rcases h.mid_cases with hM | ⟨m, hM⟩
  · subst hM
    rw [find_points_absent hA h v, hub]
    simp
  · subst hM
    rw [find_points_present h v, hub]
    have : L.length ≠ s.points.length := by
      rw [h.eq]; simp
    simp [this]

theorem set_value_locals_left_none (hA : StrictWeakOrder ltA) (s : FunctionMaxima A V) (a : A)
    (v : V) {L M R : List (point_type A V)} (h : SplitAt ltA s.points a L M R)
    (hL : L.getLast? = none) :
    (set_value_locals ltA ltV s a v).exists_left = false ∧
    (set_value_locals ltA ltV s a v).is_max_left = false ∧
    (set_value_locals ltA ltV s a v).is_in_left = false := by
  have hl : L.length = 0 := by
    rw [List.getLast?_eq_none_iff] at hL
    simp [hL]
  simp only [set_value_locals, locate_left hA h v, hl]
  simp

theorem set_value_locals_left_some (hA : StrictWeakOrder ltA) (hV : StrictWeakOrder ltV)
    (s : FunctionMaxima A V) (a : A)
    (v : V) {L M R : List (point_type A V)} (h : SplitAt ltA s.points a L M R)
    {l : point_type A V} (hL : L.getLast? = some l) :
    (set_value_locals ltA ltV s a v).exists_left = true ∧
    (set_value_locals ltA ltV s a v).left = l ∧
    (set_value_locals ltA ltV s a v).is_max_left =
      (not_below ltV l L.dropLast.getLast? && not_below ltV l (some ⟨a, v⟩)) ∧
    (set_value_locals ltA ltV s a v).is_in_left =
      decide (multiset_find (maxima_comparator ltA ltV) s.maxima l ≠ s.maxima.length) ∧
    (set_value_locals ltA ltV s a v).max_it_left =
      multiset_find (maxima_comparator ltA ltV) s.maxima l := by
  have hl : L.length ≠ 0 := by
    intro h0
    rw [List.length_eq_zero] at h0
    rw [h0] at hL
    simp at hL
  have hd : deref s.points (L.length - 1) (⟨a, v⟩ : point_type A V) = l := by
    unfold deref
    rw [List.getD_eq_getElem?_getD, h.eq, List.append_assoc, getElem?_pred_length _ _ hl, hL]
    rfl
  simp only [set_value_locals, locate_left hA h v, hl, ne_eq, not_false_eq_true, if_true,
    decide_True, Bool.true_and, hd, and_self, true_and, is_maximum_eq]
  by_cases hll : L.length - 1 ≠ 0
  · have hd2 : s.points[L.length - 1 - 1]? = L.dropLast.getLast? := by
      rw [h.eq, List.append_assoc, getElem?_pred_pred_length _ _ hll]
    obtain ⟨ll, hll2⟩ : ∃ ll, L.dropLast.getLast? = some ll := by
      rw [← hd2]
      have : L.length - 1 - 1 < s.points.length := by
        rw [h.eq]; simp; omega
      exact ⟨_, List.getElem?_eq_getElem this⟩
    have hd3 : deref s.points (L.length - 1 - 1) (⟨a, v⟩ : point_type A V) = ll := by
      unfold deref
      rw [List.getD_eq_getElem?_getD, hd2, hll2]
      rfl
    simp only [hll, ne_eq, not_false_eq_true, if_true, hd3, hll2, and_self]
  · rw [dropLast_getLast?_of_length L hll]
    simp only [hll, if_false, not_below, Bool.true_and, and_true, hV.irrefl, Bool.not_false]

theorem split_length {pts : List (point_type A V)} {a : A}
    {L M R : List (point_type A V)} (h : SplitAt ltA pts a L M R) :
    pts.length = L.length + M.length + R.length := by
  rw [h.eq]; simp; omega

theorem split_getElem?_right {pts : List (point_type A V)} {a : A}
    {L M R : List (point_type A V)} (h : SplitAt ltA pts a L M R) (i : Nat) :
    pts[L.length + M.length + i]? = R[i]? := by
  rw [h.eq, ← List.length_append, getElem?_append_add]

theorem set_value_locals_right_none (hA : StrictWeakOrder ltA) (s : FunctionMaxima A V)
    (a : A) (v : V) {L M R : List (point_type A V)} (h : SplitAt ltA s.points a L M R)
    (hR : R.head? = none) :
    (set_value_locals ltA ltV s a v).exists_right = false ∧
    (set_value_locals ltA ltV s a v).is_max_right = false ∧
    (set_value_locals ltA ltV s a v).is_in_right = false := by
  have hr : R.length = 0 := by
    rw [List.head?_eq_none_iff] at hR
    simp [hR]
  have hlen : L.length + M.length = s.points.length := by
    rw [split_length h, hr]; rfl
  simp only [set_value_locals, upper_bound_points hA h v, hlen]
  simp

theorem set_value_locals_right_some (hA : StrictWeakOrder ltA) (hV : StrictWeakOrder ltV)
    (s : FunctionMaxima A V) (a : A)
    (v : V) {L M R : List (point_type A V)} (h : SplitAt ltA s.points a L M R)
    {r : point_type A V} (hR : R.head? = some r) :
    (set_value_locals ltA ltV s a v).exists_right = true ∧
    (set_value_locals ltA ltV s a v).right = r ∧
    (set_value_locals ltA ltV s a v).is_max_right =
      (not_below ltV r (some ⟨a, v⟩) && not_below ltV r R.tail.head?) ∧
    (set_value_locals ltA ltV s a v).is_in_right =
      decide (multiset_find (maxima_comparator ltA ltV) s.maxima r ≠ s.maxima.length) ∧
    (set_value_locals ltA ltV s a v).max_it_right =
      multiset_find (maxima_comparator ltA ltV) s.maxima r := by
  have hr : R.length ≠ 0 := by
    intro h0
    rw [List.length_eq_zero] at h0
    rw [h0] at hR
    simp at hR
  have hlen : L.length + M.length ≠ s.points.length := by
    rw [split_length h]; omega
  have hd : deref s.points (L.length + M.length) (⟨a, v⟩ : point_type A V) = r := by
    unfold deref
    have := split_getElem?_right h 0
    rw [Nat.add_zero, head?_eq_getElem?_zero, hR] at this
    rw [List.getD_eq_getElem?_getD, this]
    rfl
  have hd2 : s.points[L.length + M.length + 1]? = R.tail.head? := by
    rw [split_getElem?_right h 1, tail_head?_eq_getElem?_one]
  simp only [set_value_locals, upper_bound_points hA h v, hlen, ne_eq, not_false_eq_true,
    decide_True, Bool.true_and, hd, and_self, true_and, is_maximum_eq, if_true]
  by_cases hrr : L.length + M.length + 1 = s.points.length
  · have : R.tail.head? = none := by
      rw [← hd2]
      exact List.getElem?_eq_none (by omega)
    rw [this]
    simp only [hrr, not_true_eq_false, if_false, not_below, Bool.and_true, and_true,
      hV.irrefl, Bool.not_false]
  · obtain ⟨rr, hrr2⟩ : ∃ rr, R.tail.head? = some rr := by
      rw [← hd2]
      have : L.length + M.length + 1 < s.points.length := by
        rw [split_length h] at hrr ⊢; omega
      exact ⟨_, List.getElem?_eq_getElem this⟩
    have hd3 : deref s.points (L.length + M.length + 1) (⟨a, v⟩ : point_type A V) = rr := by
      unfold deref
      rw [List.getD_eq_getElem?_getD, hd2, hrr2]
      rfl
    simp only [hrr, not_false_eq_true, if_true, hd3, hrr2, and_self]

theorem set_value_locals_old_none (hA : StrictWeakOrder ltA) (s : FunctionMaxima A V)
    (a : A) (v : V) {L R : List (point_type A V)} (h : SplitAt ltA s.points a L [] R) :
    (set_value_locals ltA ltV s a v).exists_old_mid = false ∧
    (set_value_locals ltA ltV s a v).is_in_old = false := by
  simp only [set_value_locals, find_points_absent hA h v]
  simp

theorem set_value_locals_old_some (s : FunctionMaxima A V)
    (a : A) (v : V) {L R : List (point_type A V)} {o : point_type A V}
    (h : SplitAt ltA s.points a L [o] R) :
    (set_value_locals ltA ltV s a v).exists_old_mid = true ∧
    (set_value_locals ltA ltV s a v).old_mid = o ∧
    (set_value_locals ltA ltV s a v).is_in_old =
      decide (multiset_find (maxima_comparator ltA ltV) s.maxima o ≠ s.maxima.length) ∧
    (set_value_locals ltA ltV s a v).max_it_old =
      multiset_find (maxima_comparator ltA ltV) s.maxima o := by
  have hlen : L.length ≠ s.points.length := by
    rw [split_length h]; simp; omega
  have hd : deref s.points L.length (⟨a, v⟩ : point_type A V) = o := by
    unfold deref
    have e : s.points = L ++ o :: R := by simpa using h.eq
    rw [List.getD_eq_getElem?_getD, e, getElem?_append_length]
    rfl
  simp only [set_value_locals, find_points_present h v, hlen, ne_eq, not_false_eq_true,
    decide_True, Bool.true_and, hd, and_self, if_true]

theorem set_value_locals_new (hA : StrictWeakOrder ltA) (hV : StrictWeakOrder ltV)
    (s : FunctionMaxima A V) (a : A) (v : V) {L M R : List (point_type A V)}
    (h : SplitAt ltA s.points a L M R) :
    (set_value_locals ltA ltV s a v).is_max_new =
      (not_below ltV ⟨a, v⟩ L.getLast? && not_below ltV ⟨a, v⟩ R.head?) := by
  have e : (set_value_locals ltA ltV s a v).is_max_new =
      is_maximum ltV
        (if (set_value_locals ltA ltV s a v).exists_left then
          (set_value_locals ltA ltV s a v).left else ⟨a, v⟩) ⟨a, v⟩
        (if (set_value_locals ltA ltV s a v).exists_right then
          (set_value_locals ltA ltV s a v).right else ⟨a, v⟩) := rfl
  rw [e, is_maximum_eq]
  congr 1
  · cases hL : L.getLast? with
    | none =>
      rw [(set_value_locals_left_none hA s a v h hL).1]
      simp [not_below, hV.irrefl]
    | some l =>
      obtain ⟨h1, h2, _⟩ := set_value_locals_left_some hA hV s a v h hL
      rw [h1, h2]
      rfl
  · cases hR : R.head? with
    | none =>
      rw [(set_value_locals_right_none hA s a v h hR).1]
      simp [not_below, hV.irrefl]
    | some r =>
      obtain ⟨h1, h2, _⟩ := set_value_locals_right_some hA hV s a v h hR
      rw [h1, h2]
      rfl

/-- The local variables of `set_value` hold what `Located` says. -/
theorem set_value_located (hA : StrictWeakOrder ltA) (hV : StrictWeakOrder ltV)
    (s : FunctionMaxima A V) (a : A) (v : V) {L M R : List (point_type A V)}
    (h : SplitAt ltA s.points a L M R) :
    Located ltA ltV s (set_value_locals ltA ltV s a v) L M R (some ⟨a, v⟩) ⟨a, v⟩ := by
  refine ⟨?_, ?_, ?_, ?_, ?_, ?_, ?_, ?_⟩
  · exact fun hL => set_value_locals_left_none hA s a v h hL
  · exact fun l hL => set_value_locals_left_some hA hV s a v h hL
  · exact fun hR => set_value_locals_right_none hA s a v h hR
  · exact fun r hR => set_value_locals_right_some hA hV s a v h hR
  · intro hM
    subst hM
    exact set_value_locals_old_none hA s a v h
  · intro o hM
    subst hM
    exact set_value_locals_old_some s a v h
  · intro hc
    exact absurd hc (by simp)
  · intro n hn
    have := Option.some.inj hn
    subst this
    exact ⟨rfl, set_value_locals_new hA hV s a v h⟩

end set_value_locals

end FunctionMaxima

namespace FunctionMaxima

variable {α A V : Type}

/-! ## Consequences of the state invariant -/

section wellformed

variable {ltA : A → A → Bool} {ltV : V → V → Bool}

theorem points_nodup (hA : StrictWeakOrder ltA) {pts : List (point_type A V)}
    (hs : pts.Pairwise (fun p q => ltA p.arg q.arg = true)) : pts.Nodup := by
  refine hs.imp ?_
  intro p q h e
  subst e
  rw [hA.irrefl] at h
  exact absurd h (by decide)

theorem local_maxima_nodup (hA : StrictWeakOrder ltA) {pts : List (point_type A V)}
    (hs : pts.Pairwise (fun p q => ltA p.arg q.arg = true)) :
    (local_maxima_between ltV none pts none).Nodup :=
  (local_maxima_between_sublist ltV none none pts).nodup (points_nodup hA hs)

theorem maxima_nodup (hA : StrictWeakOrder ltA) (hV : StrictWeakOrder ltV)
    {mx : List (point_type A V)}
    (hs : mx.Pairwise (fun p q => maxima_comparator ltA ltV p q = true)) : mx.Nodup := by
  refine hs.imp ?_
  intro p q h e
  subst e
  rw [(maxima_comparator_swo hA hV).irrefl] at h
  exact absurd h (by decide)

theorem WellFormed.mem_maxima_iff {s : FunctionMaxima A V} (h : WellFormed ltA ltV s)
    (p : point_type A V) :
    p ∈ s.maxima ↔ p ∈ local_maxima_between ltV none s.points none := by
  rw [h.maxima_exact, mem_local_maxima_iff]

theorem WellFormed.perm (hA : StrictWeakOrder ltA) (hV : StrictWeakOrder ltV)
    {s : FunctionMaxima A V} (h : WellFormed ltA ltV s) :
    s.maxima.Perm (local_maxima_between ltV none s.points none) :=
  (List.perm_ext_iff_of_nodup (maxima_nodup hA hV h.maxima_sorted)
    (local_maxima_nodup hA h.points_sorted)).2 h.mem_maxima_iff

theorem WellFormed.sorted_weak (hA : StrictWeakOrder ltA) (hV : StrictWeakOrder ltV)
    {s : FunctionMaxima A V} (h : WellFormed ltA ltV s) :
    s.maxima.Pairwise (fun p q => maxima_comparator ltA ltV q p = false) :=
  h.maxima_sorted.imp (fun hpq => (maxima_comparator_swo hA hV).asymm hpq)

theorem WellFormed.mem_points {s : FunctionMaxima A V} (h : WellFormed ltA ltV s)
    {p : point_type A V} (hp : p ∈ s.maxima) : p ∈ s.points := by
  obtain ⟨i, hi, _⟩ := (h.maxima_exact p).1 hp
  exact List.mem_iff_getElem?.2 ⟨i, hi⟩

/-- Points that are equivalent for the maxima comparator have equivalent arguments. -/
theorem arg_equiv_of_maxima_equiv (hV : StrictWeakOrder ltV) {x p : point_type A V}
    (h1 : maxima_comparator ltA ltV x p = false)
    (h2 : maxima_comparator ltA ltV p x = false) :
    ltA x.arg p.arg = false ∧ ltA p.arg x.arg = false := by
  rw [maxima_comparator_eq_false_iff hV] at h1 h2
  rcases h1 with h1 | ⟨a1, a2, a3⟩
  · rcases h2 with h2 | ⟨b1, b2, b3⟩
    · have := hV.asymm h1
      rw [h2] at this
      exact absurd this (by decide)
    · rw [h1] at b2
      exact absurd b2 (by decide)
  · rcases h2 with h2 | ⟨b1, b2, b3⟩
    · rw [h2] at a2
      exact absurd a2 (by decide)
    · exact ⟨a3, b3⟩

/-- What `maxima.find(p)` gives for a domain point `p` in a well-formed state. -/
theorem WellFormed.find_spec (hA : StrictWeakOrder ltA) (hV : StrictWeakOrder ltV)
    {s : FunctionMaxima A V} (h : WellFormed ltA ltV s) {p : point_type A V}
    (hp : p ∈ s.points) :
    (multiset_find (maxima_comparator ltA ltV) s.maxima p ≠ s.maxima.length ↔
      p ∈ local_maxima_between ltV none s.points none) ∧
    (p ∈ local_maxima_between ltV none s.points none →
      s.maxima[multiset_find (maxima_comparator ltA ltV) s.maxima p]? = some p) := by
  have hswo := @maxima_comparator_swo A V ltA ltV hA hV
  by_cases hm : p ∈ s.maxima
  · have hf := multiset_find_mem hswo s.maxima h.maxima_sorted p hm
    have hlt : multiset_find (maxima_comparator ltA ltV) s.maxima p < s.maxima.length := by
      by_contra hge
      rw [List.getElem?_eq_none (by omega)] at hf
      exact absurd hf (by simp)
    have hm2 := (h.mem_maxima_iff p).1 hm
    exact ⟨⟨fun _ => hm2, fun _ => by omega⟩, fun _ => hf⟩
  · have hf := multiset_find_not_mem hswo s.maxima h.maxima_sorted p (by
      intro x hx hxp
      have harg := @arg_equiv_of_maxima_equiv A V ltA ltV hV _ _ hxp.1 hxp.2
      have := eq_of_equiv_arg h.points_sorted (h.mem_points hx) hp harg.1 harg.2
      rw [this] at hx
      exact hm hx)
    have hm2 : p ∉ local_maxima_between ltV none s.points none :=
      fun hc => hm ((h.mem_maxima_iff p).2 hc)
    exact ⟨⟨fun hne => absurd hf hne, fun hc => absurd hc hm2⟩, fun hc => absurd hc hm2⟩

/-- In a domain without repeated points a point is among the local maxima exactly when
`is_local_maximum_at` accepts its index. -/
theorem mem_local_maxima_at {pts : List (point_type A V)} (hnd : pts.Nodup) {i : Nat}
    {p : point_type A V} (hi : pts[i]? = some p) :
    p ∈ local_maxima_between ltV none pts none ↔ is_local_maximum_at ltV pts i = true := by
  rw [mem_local_maxima_iff]
  constructor
  · rintro ⟨j, hj, hmax⟩
    have hjl : j < pts.length := by
      by_contra hge
      rw [List.getElem?_eq_none (by omega)] at hj
      exact absurd hj (by simp)
    have : j = i := List.getElem?_inj hjl hnd (hj.trans hi.symm)
    rw [← this]
    exact hmax
  · intro hmax
    exact ⟨i, hi, hmax⟩

/-- Whether the last point of `L` is a local maximum of the domain `L ++ M ++ R`. -/
theorem local_maximum_at_left (ltV : V → V → Bool) (L M R : List (point_type A V))
    {l : point_type A V} (hL : L.getLast? = some l) :
    (L ++ M ++ R)[L.length - 1]? = some l ∧
    is_local_maximum_at ltV (L ++ M ++ R) (L.length - 1) =
      (not_below ltV l L.dropLast.getLast? && not_below ltV l (M.head?.or R.head?)) := by
  have hl : L.length ≠ 0 := by
    intro h0
    rw [List.length_eq_zero] at h0
    rw [h0] at hL
    simp at hL
  have h1 : (L ++ M ++ R)[L.length - 1]? = some l := by
    rw [List.append_assoc, getElem?_pred_length _ _ hl, hL]
  refine ⟨h1, ?_⟩
  have h2 : left_neighbour (L ++ M ++ R) (L.length - 1) = L.dropLast.getLast? := by
    unfold left_neighbour
    by_cases hll : L.length - 1 ≠ 0
    · rw [if_neg hll, List.append_assoc, getElem?_pred_pred_length _ _ hll]
    · rw [dropLast_getLast?_of_length L hll]
      simp only [ne_eq, not_not] at hll
      rw [if_pos hll]
  have h3 : right_neighbour (L ++ M ++ R) (L.length - 1) = M.head?.or R.head? := by
    unfold right_neighbour
    have e : L.length - 1 + 1 = L.length + 0 := by omega
    rw [e, List.append_assoc, getElem?_append_add, head?_eq_getElem?_zero]
    cases M <;> simp
  simp only [is_local_maximum_at, h1, h2, h3]

/-- Whether the point `o` is a local maximum of the domain `L ++ [o] ++ R`. -/
theorem local_maximum_at_mid (ltV : V → V → Bool) (L R : List (point_type A V))
    (o : point_type A V) :
    (L ++ [o] ++ R)[L.length]? = some o ∧
    is_local_maximum_at ltV (L ++ [o] ++ R) L.length =
      (not_below ltV o L.getLast? && not_below ltV o R.head?) := by
  have h1 : (L ++ [o] ++ R)[L.length]? = some o := by
    rw [List.append_assoc]
    exact getElem?_append_length L R o
  refine ⟨h1, ?_⟩
  have h2 : left_neighbour (L ++ [o] ++ R) L.length = L.getLast? := by
    unfold left_neighbour
    by_cases hl : L.length = 0
    · rw [if_pos hl]
      rw [List.length_eq_zero] at hl
      simp [hl]
    · rw [if_neg hl, List.append_assoc, getElem?_pred_length _ _ hl]
  have h3 : right_neighbour (L ++ [o] ++ R) L.length = R.head? := by
    unfold right_neighbour
    have e : L.length + 1 = (L ++ [o]).length + 0 := by simp
    rw [e, getElem?_append_add, head?_eq_getElem?_zero]
  simp only [is_local_maximum_at, h1, h2, h3]

/-- Whether the first point of `R` is a local maximum of the domain `L ++ M ++ R`. -/
theorem local_maximum_at_right (ltV : V → V → Bool) (L M R : List (point_type A V))
    (hM : M.length ≤ 1) {r : point_type A V} (hR : R.head? = some r) :
    (L ++ M ++ R)[L.length + M.length]? = some r ∧
    is_local_maximum_at ltV (L ++ M ++ R) (L.length + M.length) =
      (not_below ltV r (M.head?.or L.getLast?) && not_below ltV r R.tail.head?) := by
  have h1 : (L ++ M ++ R)[L.length + M.length]? = some r := by
    have e : L.length + M.length = (L ++ M).length + 0 := by simp
    rw [e, getElem?_append_add, head?_eq_getElem?_zero, hR]
  refine ⟨h1, ?_⟩
  have h2 : left_neighbour (L ++ M ++ R) (L.length + M.length) =
      M.head?.or L.getLast? := by
    unfold left_neighbour
    match M, hM with
    | [], _ =>
      by_cases hl : L.length = 0
      · rw [List.length_eq_zero] at hl
        simp [hl]
      · have := getElem?_pred_length L R hl
        simp [hl, this]
    | [o], _ =>
      have e : L.length + [o].length - 1 = L.length := by simp
      have e1 : ¬ (L.length + [o].length = 0) := by simp
      rw [if_neg e1, e, List.append_assoc]
      have := getElem?_append_length L R o
      simpa using this
  have h3 : right_neighbour (L ++ M ++ R) (L.length + M.length) = R.tail.head? := by
    unfold right_neighbour
    have e : L.length + M.length + 1 = (L ++ M).length + 1 := by simp
    rw [e, getElem?_append_add, tail_head?_eq_getElem?_one]
  simp only [is_local_maximum_at, h1, h2, h3]

end wellformed

end FunctionMaxima

namespace FunctionMaxima

variable {α A V : Type}

/-! ## The maxima index under `set_value` -/

/-- The points held at the end of a mutation, from the bookkeeping of its steps. -/
theorem final_perm (left old right new : α) (Z1 Z2 : List α)
    (eL mL inL eR mR inR eO inO mN : Bool)
    (hmL : mL = true → eL = true) (hinL : inL = true → eL = true)
    (hmR : mR = true → eR = true) (hinR : inR = true → eR = true)
    (hinO : inO = true → eO = true) :
    ((if (inL && !(eL && !mL && inL)) = true then [left] else []) ++
      (if (inO && !(eO && inO)) = true then [old] else []) ++
      (if (inR && !(eR && !mR && inR)) = true then [right] else []) ++
      ((if mN = true then [new] else []) ++
        ((if (eR && mR && !inR) = true then [right] else []) ++
          ((if (eL && mL && !inL) = true then [left] else []) ++ (Z1 ++ Z2))))).Perm
      (Z1 ++ (if mL = true then [left] else []) ++ (if mN = true then [new] else []) ++
        (if mR = true then [right] else []) ++ Z2) := by
  rw [← Multiset.coe_eq_coe]
  cases eL <;> cases mL <;> cases inL <;> simp at hmL hinL <;>
  cases eR <;> cases mR <;> cases inR <;> simp at hmR hinR <;>
  cases eO <;> cases inO <;> simp at hinO <;>
  cases mN <;>
  simp only [← Multiset.coe_add, ← Multiset.cons_coe, ← Multiset.singleton_add, if_true,
    if_false, Bool.and_true, Bool.and_false, Bool.not_true, Bool.not_false, Bool.true_and,
    Bool.false_and, List.nil_append, List.append_nil, List.singleton_append,
    List.cons_append, Bool.false_eq_true] <;>
  ac_rfl

section set_value_maxima

variable {ltA : A → A → Bool} {ltV : V → V → Bool}

/-- For a domain point at index `i` of a well-formed state, `maxima.find` finds it exactly
when it is a local maximum, and then gives the iterator to it. -/
theorem WellFormed.find_at (hA : StrictWeakOrder ltA) (hV : StrictWeakOrder ltV)
    {s : FunctionMaxima A V} (h : WellFormed ltA ltV s) {p : point_type A V} {i : Nat}
    (hi : s.points[i]? = some p) :
    decide (multiset_find (maxima_comparator ltA ltV) s.maxima p ≠ s.maxima.length) =
      is_local_maximum_at ltV s.points i ∧
    (is_local_maximum_at ltV s.points i = true →
      s.maxima[multiset_find (maxima_comparator ltA ltV) s.maxima p]? = some p) := by
  have hp : p ∈ s.points := List.mem_iff_getElem?.2 ⟨i, hi⟩
  obtain ⟨h1, h2⟩ := h.find_spec hA hV hp
  have h3 := @mem_local_maxima_at A V ltV _ (points_nodup hA h.points_sorted) _ _ hi
  refine ⟨?_, fun hm => h2 (h3.2 hm)⟩
  rw [Bool.eq_iff_iff, decide_eq_true_iff, h1, h3]

theorem keep_if_some (p : point_type A V) (f : point_type A V → Bool) :
    keep_if (some p) f = if f p = true then [p] else [] := rfl

theorem keep_if_none (f : point_type A V → Bool) :
    keep_if (none : Option (point_type A V)) f = [] := rfl

/-- The left neighbour in `maxima` before the mutation. -/
theorem Located.left_old (hA : StrictWeakOrder ltA) (hV : StrictWeakOrder ltV)
    {s : FunctionMaxima A V} (hwf : WellFormed ltA ltV s) {k : A}
    {L M R : List (point_type A V)} (h : SplitAt ltA s.points k L M R)
    {x : locals A V} {mid : Option (point_type A V)} {new_mid : point_type A V}
    (hx : Located ltA ltV s x L M R mid new_mid) :
    keep_if L.getLast? (fun l => not_below ltV l L.dropLast.getLast? &&
        not_below ltV l (M.head?.or R.head?)) =
      (if x.is_in_left = true then [x.left] else []) ∧
    (x.is_in_left = true → s.maxima[x.max_it_left]? = some x.left) := by
  cases hL : L.getLast? with
  | none =>
    obtain ⟨_, _, h3⟩ := hx.left_none hL
    rw [h3]
    exact ⟨rfl, fun hc => absurd hc (by decide)⟩
  | some l =>
    obtain ⟨_, h2, _, h4, h5⟩ := hx.left_some l hL
    obtain ⟨e1, e2⟩ := local_maximum_at_left ltV L M R hL
    rw [← h.eq] at e1 e2
    obtain ⟨f1, f2⟩ := hwf.find_at hA hV e1
    rw [h2, h4, h5, keep_if_some, f1, e2]
    refine ⟨rfl, ?_⟩
    intro hc
    rw [← e2] at hc
    exact f2 hc

/-- The right neighbour in `maxima` before the mutation. -/
theorem Located.right_old (hA : StrictWeakOrder ltA) (hV : StrictWeakOrder ltV)
    {s : FunctionMaxima A V} (hwf : WellFormed ltA ltV s) {k : A}
    {L M R : List (point_type A V)} (h : SplitAt ltA s.points k L M R)
    {x : locals A V} {mid : Option (point_type A V)} {new_mid : point_type A V}
    (hx : Located ltA ltV s x L M R mid new_mid) :
    keep_if R.head? (fun r => not_below ltV r (M.head?.or L.getLast?) &&
        not_below ltV r R.tail.head?) =
      (if x.is_in_right = true then [x.right] else []) ∧
    (x.is_in_right = true → s.maxima[x.max_it_right]? = some x.right) := by
  cases hR : R.head? with
  | none =>
    obtain ⟨_, _, h3⟩ := hx.right_none hR
    rw [h3]
    exact ⟨rfl, fun hc => absurd hc (by decide)⟩
  | some r =>
    obtain ⟨_, h2, _, h4, h5⟩ := hx.right_some r hR
    obtain ⟨e1, e2⟩ := local_maximum_at_right ltV L M R h.len hR
    rw [← h.eq] at e1 e2
    obtain ⟨f1, f2⟩ := hwf.find_at hA hV e1
    rw [h2, h4, h5, keep_if_some, f1, e2]
    refine ⟨rfl, ?_⟩
    intro hc
    rw [← e2] at hc
    exact f2 hc

/-- The old point in `maxima` before the mutation. -/
theorem Located.old_old (hA : StrictWeakOrder ltA) (hV : StrictWeakOrder ltV)
    {s : FunctionMaxima A V} (hwf : WellFormed ltA ltV s) {k : A}
    {L M R : List (point_type A V)} (h : SplitAt ltA s.points k L M R)
    {x : locals A V} {mid : Option (point_type A V)} {new_mid : point_type A V}
    (hx : Located ltA ltV s x L M R mid new_mid) :
    keep_if M.head? (fun o => not_below ltV o L.getLast? && not_below ltV o R.head?) =
      (if x.is_in_old = true then [x.old_mid] else []) ∧
    (x.is_in_old = true → s.maxima[x.max_it_old]? = some x.old_mid) := by
  rcases h.mid_cases with hM | ⟨o, hM⟩
  · obtain ⟨_, h2⟩ := hx.old_none hM
    subst hM
    rw [h2]
    exact ⟨rfl, fun hc => absurd hc (by decide)⟩
  · obtain ⟨_, h2, h3, h4⟩ := hx.old_some o hM
    subst hM
    obtain ⟨e1, e2⟩ := local_maximum_at_mid ltV L R o
    rw [← h.eq] at e1 e2
    obtain ⟨f1, f2⟩ := hwf.find_at hA hV e1
    rw [h2, h3, h4, List.head?_cons, keep_if_some, f1, e2]
    refine ⟨rfl, ?_⟩
    intro hc
    rw [← e2] at hc
    exact f2 hc

/-- The two neighbours and the new point among the local maxima after the mutation. -/
theorem Located.new_flags
    {s : FunctionMaxima A V}
    {L M R : List (point_type A V)}
    {x : locals A V} {mid : Option (point_type A V)} {new_mid : point_type A V}
    (hx : Located ltA ltV s x L M R mid new_mid) :
    keep_if L.getLast? (fun l => not_below ltV l L.dropLast.getLast? &&
        not_below ltV l (mid.or R.head?)) =
      (if x.is_max_left = true then [x.left] else []) ∧
    keep_if mid (fun o => not_below ltV o L.getLast? && not_below ltV o R.head?) =
      (if x.is_max_new = true then [new_mid] else []) ∧
    keep_if R.head? (fun r => not_below ltV r (mid.or L.getLast?) &&
        not_below ltV r R.tail.head?) =
      (if x.is_max_right = true then [x.right] else []) := by
  refine ⟨?_, ?_, ?_⟩
  · cases hL : L.getLast? with
    | none =>
      obtain ⟨_, h2, _⟩ := hx.left_none hL
      rw [h2]
      rfl
    | some l =>
      obtain ⟨_, h2, h3, _⟩ := hx.left_some l hL
      rw [h2, h3]
      rfl
  · cases hm : mid with
    | none =>
      rw [hx.new_none hm]
      rfl
    | some n =>
      obtain ⟨h1, h2⟩ := hx.new_some n hm
      rw [h2, h1]
      rfl
  · cases hR : R.head? with
    | none =>
      obtain ⟨_, h2, _⟩ := hx.right_none hR
      rw [h2]
      rfl
    | some r =>
      obtain ⟨_, h2, h3, _⟩ := hx.right_some r hR
      rw [h2, h3]
      rfl

end set_value_maxima

end FunctionMaxima

namespace FunctionMaxima

variable {α A V : Type}

section set_value_maxima

variable {ltA : A → A → Bool} {ltV : V → V → Bool}

theorem SplitAt.ne_left_mid {pts : List (point_type A V)} {a : A}
    {L M R : List (point_type A V)} (h : SplitAt ltA pts a L M R) {p q : point_type A V}
    (hp : p ∈ L) (hq : q ∈ M) : p ≠ q := by
  intro e
  subst e
  have := h.left p hp
  rw [(h.mid p hq).1] at this
  exact absurd this (by decide)

theorem SplitAt.ne_left_right (hA : StrictWeakOrder ltA) {pts : List (point_type A V)} {a : A}
    {L M R : List (point_type A V)} (h : SplitAt ltA pts a L M R) {p q : point_type A V}
    (hp : p ∈ L) (hq : q ∈ R) : p ≠ q := by
  intro e
  subst e
  have := hA.asymm (h.left p hp)
  rw [h.right p hq] at this
  exact absurd this (by decide)

theorem SplitAt.ne_mid_right {pts : List (point_type A V)} {a : A}
    {L M R : List (point_type A V)} (h : SplitAt ltA pts a L M R) {p q : point_type A V}
    (hp : p ∈ M) (hq : q ∈ R) : p ≠ q := by
  intro e
  subst e
  have := h.right p hq
  rw [(h.mid p hp).2] at this
  exact absurd this (by decide)

/-- Where the points that a mutation holds come from. -/
theorem Located.mem {s : FunctionMaxima A V}
    {L M R : List (point_type A V)}
    {x : locals A V} {mid : Option (point_type A V)} {new_mid : point_type A V}
    (hx : Located ltA ltV s x L M R mid new_mid) (hM : M.length ≤ 1) :
    (x.is_in_left = true → x.exists_left = true ∧ x.left ∈ L) ∧
    (x.is_max_left = true → x.exists_left = true) ∧
    (x.is_in_right = true → x.exists_right = true ∧ x.right ∈ R) ∧
    (x.is_max_right = true → x.exists_right = true) ∧
    (x.is_in_old = true → x.exists_old_mid = true ∧ x.old_mid ∈ M) := by
  refine ⟨?_, ?_, ?_, ?_, ?_⟩
  · cases hL : L.getLast? with
    | none =>
      rw [(hx.left_none hL).2.2]
      exact fun hc => absurd hc (by decide)
    | some l =>
      obtain ⟨h1, h2, _⟩ := hx.left_some l hL
      rw [h1, h2]
      exact fun _ => ⟨rfl, List.mem_of_mem_getLast? hL⟩
  · cases hL : L.getLast? with
    | none =>
      rw [(hx.left_none hL).2.1]
      exact fun hc => absurd hc (by decide)
    | some l =>
      obtain ⟨h1, _⟩ := hx.left_some l hL
      rw [h1]
      exact fun _ => rfl
  · cases hR : R.head? with
    | none =>
      rw [(hx.right_none hR).2.2]
      exact fun hc => absurd hc (by decide)
    | some r =>
      obtain ⟨h1, h2, _⟩ := hx.right_some r hR
      rw [h1, h2]
      exact fun _ => ⟨rfl, List.mem_of_mem_head? hR⟩
  · cases hR : R.head? with
    | none =>
      rw [(hx.right_none hR).2.1]
      exact fun hc => absurd hc (by decide)
    | some r =>
      obtain ⟨h1, _⟩ := hx.right_some r hR
      rw [h1]
      exact fun _ => rfl
  · match M, hM, hx with
    | [], _, hx =>
      rw [(hx.old_none rfl).2]
      exact fun hc => absurd hc (by decide)
    | [o], _, hx =>
      obtain ⟨h1, h2, _⟩ := hx.old_some o rfl
      rw [h1, h2]
      exact fun _ => ⟨rfl, by simp⟩

/-- The bookkeeping at the end of a mutation, from the bookkeeping at its start. -/
theorem Located.commit_tracked (hA : StrictWeakOrder ltA) (hV : StrictWeakOrder ltV)
    {s : FunctionMaxima A V} {k : A}
    {L M R : List (point_type A V)} (h : SplitAt ltA s.points k L M R)
    {x : locals A V} {mid : Option (point_type A V)} {new_mid : point_type A V}
    (hx : Located ltA ltV s x L M R mid new_mid) {m0 : mx_state A V}
    {Z : List (point_type A V)}
    (T0 : Tracked ltA ltV m0 x.left x.old_mid x.right x.is_in_left x.is_in_old
      x.is_in_right Z) :
    Tracked ltA ltV (commit ltA ltV x new_mid m0) x.left x.old_mid x.right
      (x.is_in_left && !(x.exists_left && !x.is_max_left && x.is_in_left))
      (x.is_in_old && !(x.exists_old_mid && x.is_in_old))
      (x.is_in_right && !(x.exists_right && !x.is_max_right && x.is_in_right))
      ((if x.is_max_new = true then [new_mid] else []) ++
        ((if (x.exists_right && x.is_max_right && !x.is_in_right) = true then [x.right]
          else []) ++
          ((if (x.exists_left && x.is_max_left && !x.is_in_left) = true then [x.left]
            else []) ++ Z))) := by
  obtain ⟨mL, _, mR, _, mO⟩ := hx.mem h.len
  have T1 := T0.insert_if hA hV (x.exists_left && x.is_max_left && !x.is_in_left) x.left
  have T2 := T1.insert_if hA hV (x.exists_right && x.is_max_right && !x.is_in_right) x.right
  have T3 := T2.insert_if hA hV x.is_max_new new_mid
  have T4 := T3.erase_left_if (x.exists_left && !x.is_max_left && x.is_in_left)
    (fun hc => ((Bool.and_eq_true _ _).mp hc).2)
    (fun hc hO e => h.ne_left_mid (mL ((Bool.and_eq_true _ _).mp hc).2).2 (mO hO).2 e.symm)
    (fun hc hR e =>
      h.ne_left_right hA (mL ((Bool.and_eq_true _ _).mp hc).2).2 (mR hR).2 e.symm)
  have T5 := T4.erase_right_if (x.exists_right && !x.is_max_right && x.is_in_right)
    (fun hc => ((Bool.and_eq_true _ _).mp hc).2)
    (fun hc hL e =>
      h.ne_left_right hA (mL ((Bool.and_eq_true _ _).mp hL).1).2
        (mR ((Bool.and_eq_true _ _).mp hc).2).2 e)
    (fun hc hO e => h.ne_mid_right (mO hO).2 (mR ((Bool.and_eq_true _ _).mp hc).2).2 e)
  exact T5.erase_old_if (x.exists_old_mid && x.is_in_old)
    (fun hc => ((Bool.and_eq_true _ _).mp hc).2)
    (fun hc hL e =>
      h.ne_left_mid (mL ((Bool.and_eq_true _ _).mp hL).1).2
        (mO ((Bool.and_eq_true _ _).mp hc).2).2 e)
    (fun hc hR e =>
      h.ne_mid_right (mO ((Bool.and_eq_true _ _).mp hc).2).2
        (mR ((Bool.and_eq_true _ _).mp hR).1).2 e.symm)

/-- After a mutation of a well-formed state, `maxima` is sorted and holds exactly the local
maxima of the new domain, each once. -/
theorem Located.commit_maxima (hA : StrictWeakOrder ltA) (hV : StrictWeakOrder ltV)
    {s : FunctionMaxima A V} (hwf : WellFormed ltA ltV s) {k : A}
    {L M R : List (point_type A V)} (h : SplitAt ltA s.points k L M R)
    {x : locals A V} {mid : Option (point_type A V)} {new_mid : point_type A V}
    (hx : Located ltA ltV s x L M R mid new_mid) :
    (commit ltA ltV x new_mid
        ⟨s.maxima, x.max_it_old, x.max_it_left, x.max_it_right⟩).maxima.Perm
      (local_maxima_between ltV none (L ++ mid.toList ++ R) none) ∧
    (commit ltA ltV x new_mid
        ⟨s.maxima, x.max_it_old, x.max_it_left, x.max_it_right⟩).maxima.Pairwise
      (fun p q => maxima_comparator ltA ltV q p = false) := by
  obtain ⟨hLo, hLit⟩ := hx.left_old hA hV hwf h
  obtain ⟨hRo, hRit⟩ := hx.right_old hA hV hwf h
  obtain ⟨hOo, hOit⟩ := hx.old_old hA hV hwf h
  obtain ⟨hLn, hNn, hRn⟩ := hx.new_flags
  obtain ⟨mL, mL2, mR, mR2, mO⟩ := hx.mem h.len
  have hD := local_maxima_split ltV L M R h.len
  rw [← h.eq, hLo, hOo, hRo] at hD
  have hD2 := local_maxima_split ltV L mid.toList R (by cases mid <;> simp)
  have e1 : mid.toList.head? = mid := by cases mid <;> rfl
  rw [e1, hLn, hNn, hRn] at hD2
  have T0 : Tracked ltA ltV
      ⟨s.maxima, x.max_it_old, x.max_it_left, x.max_it_right⟩
      x.left x.old_mid x.right x.is_in_left x.is_in_old x.is_in_right
      (local_maxima_between ltV none L.dropLast L.getLast? ++
        local_maxima_between ltV R.head? R.tail none) := by
    refine ⟨?_, hwf.sorted_weak hA hV, hLit, hOit, hRit⟩
    refine (hwf.perm hA hV).trans ?_
    rw [hD, ← Multiset.coe_eq_coe]
    simp only [← Multiset.coe_add]
    ac_rfl
  have T6 := hx.commit_tracked hA hV h T0
  refine ⟨?_, T6.sorted⟩
  rw [hD2]
  exact T6.perm.trans (final_perm _ _ _ _ _ _ _ _ _ _ _ _ _ _ _ mL2 (fun hc => (mL hc).1) mR2
    (fun hc => (mR hc).1) (fun hc => (mO hc).1))

/-- A sorted `maxima` that holds exactly the local maxima of a sorted domain, each once,
makes a well-formed state. -/
theorem wellFormed_of_perm (hA : StrictWeakOrder ltA) (hV : StrictWeakOrder ltV)
    {s : FunctionMaxima A V}
    (hp : s.points.Pairwise (fun p q => ltA p.arg q.arg = true))
    (hperm : s.maxima.Perm (local_maxima_between ltV none s.points none))
    (hs : s.maxima.Pairwise (fun p q => maxima_comparator ltA ltV q p = false)) :
    WellFormed ltA ltV s := by
  have hmem : ∀ p, p ∈ s.maxima → p ∈ s.points := fun p hp =>
    (local_maxima_between_sublist ltV none none s.points).subset (hperm.mem_iff.1 hp)
  have hnd : s.maxima.Nodup := hperm.nodup_iff.2 (local_maxima_nodup hA hp)
  refine ⟨hp, ?_, ?_⟩
  · refine (hs.and hnd).imp_of_mem ?_
    intro p q hpm hqm hpq
    cases hc : maxima_comparator ltA ltV p q with
    | true => rfl
    | false =>
      exfalso
      have harg := @arg_equiv_of_maxima_equiv A V ltA ltV hV _ _ hc hpq.1
      exact hpq.2 (eq_of_equiv_arg hp (hmem p hpm) (hmem q hqm) harg.1 harg.2)
  · intro p
    rw [hperm.mem_iff, mem_local_maxima_iff]

theorem set_value_maxima_eq (ltA : A → A → Bool) (ltV : V → V → Bool)
    (s : FunctionMaxima A V) (a : A) (v : V) :
    (set_value ltA ltV s a v).maxima =
      (commit ltA ltV (set_value_locals ltA ltV s a v) ⟨a, v⟩
        ⟨s.maxima, (set_value_locals ltA ltV s a v).max_it_old,
          (set_value_locals ltA ltV s a v).max_it_left,
          (set_value_locals ltA ltV s a v).max_it_right⟩).maxima := rfl

/-- The method `set_value` keeps the state invariant. -/
theorem set_value_wellFormed (hA : StrictWeakOrder ltA) (hV : StrictWeakOrder ltV)
    {s : FunctionMaxima A V} (hwf : WellFormed ltA ltV s) (a : A) (v : V) :
    WellFormed ltA ltV (set_value ltA ltV s a v) := by
  obtain ⟨L, M, R, h⟩ := splitAt_exists hA s.points hwf.points_sorted a
  have hpts := set_value_points hA ltV s a v h
  obtain ⟨h1, h2⟩ := (set_value_located hA hV s a v h).commit_maxima hA hV hwf h
  have e : L ++ (some (⟨a, v⟩ : point_type A V)).toList ++ R = L ++ ⟨a, v⟩ :: R := by
    simp
  rw [e, ← hpts, ← set_value_maxima_eq] at h1
  rw [← set_value_maxima_eq] at h2
  refine wellFormed_of_perm hA hV ?_ h1 h2
  rw [hpts]
  exact pairwise_of_split h hwf.points_sorted v

end set_value_maxima

end FunctionMaxima

namespace FunctionMaxima

variable {α A V : Type}

/-! ## What `erase` works out before the `try` block -/

section erase_locals

variable {ltA : A → A → Bool} {ltV : V → V → Bool}

theorem erase_upper_bound (hA : StrictWeakOrder ltA) {s : FunctionMaxima A V}
    {L R : List (point_type A V)} {m : point_type A V}
    (h : SplitAt ltA s.points m.arg L [m] R) :
    multiset_upper_bound (points_comparator ltA) s.points m = L.length + 1 :=
  upper_bound_points hA h m.value

theorem erase_locals_left_none (s : FunctionMaxima A V)
    {L R : List (point_type A V)} {m : point_type A V}
    (h : SplitAt ltA s.points m.arg L [m] R) (hL : L.getLast? = none) :
    (erase_locals ltA ltV s L.length m).exists_left = false ∧
    (erase_locals ltA ltV s L.length m).is_max_left = false ∧
    (erase_locals ltA ltV s L.length m).is_in_left = false := by
  have hl : L.length = 0 := by
    rw [List.getLast?_eq_none_iff] at hL
    simp [hL]
  have hlen : ¬ ((0 : Nat) = s.points.length) := by
    rw [split_length h]; simp; omega
  simp only [erase_locals, hl, ne_eq, hlen, not_false_eq_true, if_true]
  simp

theorem erase_locals_left_some (hA : StrictWeakOrder ltA) (hV : StrictWeakOrder ltV)
    (s : FunctionMaxima A V)
    {L R : List (point_type A V)} {m : point_type A V}
    (h : SplitAt ltA s.points m.arg L [m] R) {l : point_type A V}
    (hL : L.getLast? = some l) :
    (erase_locals ltA ltV s L.length m).exists_left = true ∧
    (erase_locals ltA ltV s L.length m).left = l ∧
    (erase_locals ltA ltV s L.length m).is_max_left =
      (not_below ltV l L.dropLast.getLast? && not_below ltV l R.head?) ∧
    (erase_locals ltA ltV s L.length m).is_in_left =
      decide (multiset_find (maxima_comparator ltA ltV) s.maxima l ≠ s.maxima.length) ∧
    (erase_locals ltA ltV s L.length m).max_it_left =
      multiset_find (maxima_comparator ltA ltV) s.maxima l := by
  have hl : L.length ≠ 0 := by
    intro h0
    rw [List.length_eq_zero] at h0
    rw [h0] at hL
    simp at hL
  have hlen : L.length ≠ s.points.length := by
    rw [split_length h]; simp; omega
  have hd : deref s.points (L.length - 1) m = l := by
    unfold deref
    rw [List.getD_eq_getElem?_getD, h.eq, List.append_assoc, getElem?_pred_length _ _ hl, hL]
    rfl
  have hright : (if (decide (L.length + 1 ≠ s.points.length)) = true then
      deref s.points (L.length + 1) m else l) = R.head?.getD l := by
    have hd0 := split_getElem?_right h 0
    rw [Nat.add_zero, head?_eq_getElem?_zero] at hd0
    have e : L.length + [m].length = L.length + 1 := rfl
    rw [e] at hd0
    cases hR : R.head? with
    | none =>
      have hr : L.length + 1 = s.points.length := by
        rw [List.head?_eq_none_iff] at hR
        rw [split_length h, hR]
        rfl
      simp [hr]
    | some r =>
      have hr : L.length + 1 ≠ s.points.length := by
        intro hc
        rw [hR, List.getElem?_eq_none (by omega)] at hd0
        exact absurd hd0 (by simp)
      simp only [hr, ne_eq, not_false_eq_true, decide_True, if_true]
      unfold deref
      rw [List.getD_eq_getElem?_getD, hd0, hR]
      rfl
  have hnb : not_below ltV l (some (R.head?.getD l)) = not_below ltV l R.head? := by
    cases R.head? with
    | none => simp [not_below, hV.irrefl]
    | some r => rfl
  simp only [erase_locals, erase_upper_bound hA h, hlen, hl, ne_eq, not_false_eq_true,
    if_true, decide_True, Bool.true_and, hd, and_self, true_and, is_maximum_eq]
  simp only [ne_eq] at hright
  rw [hright, hnb]
  by_cases hll : L.length - 1 ≠ 0
  · have hd2 : s.points[L.length - 1 - 1]? = L.dropLast.getLast? := by
      rw [h.eq, List.append_assoc, getElem?_pred_pred_length _ _ hll]
    obtain ⟨ll, hll2⟩ : ∃ ll, L.dropLast.getLast? = some ll := by
      rw [← hd2]
      have : L.length - 1 - 1 < s.points.length := by
        rw [h.eq]; simp; omega
      exact ⟨_, List.getElem?_eq_getElem this⟩
    have hd3 : deref s.points (L.length - 1 - 1) m = ll := by
      unfold deref
      rw [List.getD_eq_getElem?_getD, hd2, hll2]
      rfl
    simp only [hll, ne_eq, not_false_eq_true, if_true, hd3, hll2, and_self]
  · rw [dropLast_getLast?_of_length L hll]
    simp only [ne_eq, not_not] at hll
    simp only [hll, not_true_eq_false, if_false, not_below, Bool.true_and, and_true,
      hV.irrefl, Bool.not_false]

theorem erase_locals_right_none (hA : StrictWeakOrder ltA) (s : FunctionMaxima A V)
    {L R : List (point_type A V)} {m : point_type A V}
    (h : SplitAt ltA s.points m.arg L [m] R) (hR : R.head? = none) :
    (erase_locals ltA ltV s L.length m).exists_right = false ∧
    (erase_locals ltA ltV s L.length m).is_max_right = false ∧
    (erase_locals ltA ltV s L.length m).is_in_right = false := by
  have hr : L.length + 1 = s.points.length := by
    rw [List.head?_eq_none_iff] at hR
    rw [split_length h, hR]
    rfl
  simp only [erase_locals, erase_upper_bound hA h, hr]
  simp

theorem erase_locals_right_some (hA : StrictWeakOrder ltA) (hV : StrictWeakOrder ltV)
    (s : FunctionMaxima A V)
    {L R : List (point_type A V)} {m : point_type A V}
    (h : SplitAt ltA s.points m.arg L [m] R) {r : point_type A V}
    (hR : R.head? = some r) :
    (erase_locals ltA ltV s L.length m).exists_right = true ∧
    (erase_locals ltA ltV s L.length m).right = r ∧
    (erase_locals ltA ltV s L.length m).is_max_right =
      (not_below ltV r L.getLast? && not_below ltV r R.tail.head?) ∧
    (erase_locals ltA ltV s L.length m).is_in_right =
      decide (multiset_find (maxima_comparator ltA ltV) s.maxima r ≠ s.maxima.length) ∧
    (erase_locals ltA ltV s L.length m).max_it_right =
      multiset_find (maxima_comparator ltA ltV) s.maxima r := by
  have e : L.length + [m].length = L.length + 1 := rfl
  have hd0 := split_getElem?_right h 0
  rw [Nat.add_zero, head?_eq_getElem?_zero, e] at hd0
  have hd1 := split_getElem?_right h 1
  rw [tail_head?_eq_getElem?_one, e] at hd1
  have hlen : L.length + 1 ≠ s.points.length := by
    intro hc
    rw [hR, List.getElem?_eq_none (by omega)] at hd0
    exact absurd hd0 (by simp)
  have hmid : L.length ≠ s.points.length := by
    rw [split_length h]; simp; omega
  have hd : deref s.points (L.length + 1) m = r := by
    unfold deref
    rw [List.getD_eq_getElem?_getD, hd0, hR]
    rfl
  have hleft : (if (decide (L.length ≠ 0)) = true then
      deref s.points (if L.length ≠ 0 then L.length - 1 else L.length) m else r) =
      L.getLast?.getD r := by
    by_cases hl : L.length = 0
    · have : L.getLast? = none := by
        rw [List.length_eq_zero] at hl
        simp [hl]
      simp [hl, this]
    · simp only [hl, ne_eq, not_false_eq_true, decide_True, if_true]
      unfold deref
      rw [List.getD_eq_getElem?_getD, h.eq, List.append_assoc, getElem?_pred_length _ _ hl]
      obtain ⟨z, hz⟩ : ∃ z, L.getLast? = some z := by
        cases L with
        | nil => simp at hl
        | cons y L => exact ⟨_, List.getLast?_eq_getLast _ (by simp)⟩
      rw [hz]
      rfl
  have hnb : not_below ltV r (some (L.getLast?.getD r)) = not_below ltV r L.getLast? := by
    cases L.getLast? with
    | none => simp [not_below, hV.irrefl]
    | some l => rfl
  simp only [erase_locals, erase_upper_bound hA h, hlen, hmid, ne_eq, not_false_eq_true,
    if_true, decide_True, Bool.true_and, hd, and_self, true_and, is_maximum_eq]
  simp only [ne_eq] at hleft
  rw [hleft, hnb]
  by_cases hrr : L.length + 1 + 1 = s.points.length
  · have : R.tail.head? = none := by
      rw [← hd1]
      exact List.getElem?_eq_none (by omega)
    rw [this]
    simp only [hrr, not_true_eq_false, if_false, not_below, Bool.and_true, and_true,
      hV.irrefl, Bool.not_false]
  · obtain ⟨rr, hrr2⟩ : ∃ rr, R.tail.head? = some rr := by
      rw [← hd1]
      have : L.length + 1 + 1 < s.points.length := by
        rw [split_length h] at hrr hlen ⊢
        simp only [List.length_singleton] at hrr hlen ⊢
        omega
      exact ⟨_, List.getElem?_eq_getElem this⟩
    have hd3 : deref s.points (L.length + 1 + 1) m = rr := by
      unfold deref
      rw [List.getD_eq_getElem?_getD, hd1, hrr2]
      rfl
    simp only [hrr, not_false_eq_true, if_true, hd3, hrr2, and_self]

/-- The local variables of `erase` hold what `Located` says. -/
theorem erase_located (hA : StrictWeakOrder ltA) (hV : StrictWeakOrder ltV)
    (s : FunctionMaxima A V) {L R : List (point_type A V)} {m : point_type A V}
    (h : SplitAt ltA s.points m.arg L [m] R) :
    Located ltA ltV s (erase_locals ltA ltV s L.length m) L [m] R none m := by
  refine ⟨?_, ?_, ?_, ?_, ?_, ?_, ?_, ?_⟩
  · exact fun hL => erase_locals_left_none s h hL
  · exact fun l hL => erase_locals_left_some hA hV s h hL
  · exact fun hR => erase_locals_right_none hA s h hR
  · exact fun r hR => erase_locals_right_some hA hV s h hR
  · intro hM
    exact absurd hM (by simp)
  · intro o hM
    have : m = o := by simpa using hM
    subst this
    exact ⟨rfl, rfl, rfl, rfl⟩
  · intro _
    rfl
  · intro n hn
    exact absurd hn (by simp)

theorem erase_maxima_eq (ltA : A → A → Bool) (ltV : V → V → Bool)
    (s : FunctionMaxima A V) (a : A) {m : point_type A V}
    (hm : s.points[find ltA s a]? = some m) :
    (erase ltA ltV s a).maxima =
      (commit ltA ltV (erase_locals ltA ltV s (find ltA s a) m) m
        ⟨s.maxima, (erase_locals ltA ltV s (find ltA s a) m).max_it_old,
          (erase_locals ltA ltV s (find ltA s a) m).max_it_left,
          (erase_locals ltA ltV s (find ltA s a) m).max_it_right⟩).maxima := by
  unfold erase
  simp only [hm]
  rfl

/-- The method `erase` keeps the state invariant. -/
theorem erase_wellFormed (hA : StrictWeakOrder ltA) (hV : StrictWeakOrder ltV)
    {s : FunctionMaxima A V} (hwf : WellFormed ltA ltV s) (a : A) :
    WellFormed ltA ltV (erase ltA ltV s a) := by
  obtain ⟨L, M, R, h⟩ := splitAt_exists hA s.points hwf.points_sorted a
  rcases h.mid_cases with hM | ⟨m, hM⟩
  · subst hM
    rw [erase_of_find_eq_end ltA ltV s a (find_absent hA h)]
    exact hwf
  · subst hM
    have hpts := erase_points hA ltV s a h
    have hfind := find_present h
    have e : s.points = L ++ m :: R := by simpa using h.eq
    have hm : s.points[find ltA s a]? = some m := by
      rw [hfind, e]
      exact getElem?_append_length L R m
    have h2 := splitAt_self hA hwf.points_sorted e
    have hmx := erase_maxima_eq ltA ltV s a hm
    rw [hfind] at hmx
    obtain ⟨h3, h4⟩ := (erase_located hA hV s h2).commit_maxima hA hV hwf h2
    have e2 : L ++ (none : Option (point_type A V)).toList ++ R = L ++ R := by simp
    rw [e2, ← hpts, ← hmx] at h3
    rw [← hmx] at h4
    refine wellFormed_of_perm hA hV ?_ h3 h4
    rw [hpts]
    exact pairwise_of_split_erase h hwf.points_sorted

end erase_locals

end FunctionMaxima

namespace FunctionMaxima

variable {α A V : Type}

/-! ## Mutations of a state whose maxima are domain points -/

section maxima_in_domain

variable {ltA : A → A → Bool} {ltV : V → V → Bool}

theorem WellFormed.maximaInDomain {s : FunctionMaxima A V} (h : WellFormed ltA ltV s) :
    MaximaInDomain ltA ltV s :=
  ⟨h.points_sorted, h.maxima_sorted, fun _ hp => h.mem_points hp⟩

/-- What `maxima.find(p)` gives for a domain point `p` when the maxima are domain
points. -/
theorem MaximaInDomain.find_in_domain (hA : StrictWeakOrder ltA) (hV : StrictWeakOrder ltV)
    {s : FunctionMaxima A V} (h : MaximaInDomain ltA ltV s) {p : point_type A V}
    (hp : p ∈ s.points) :
    (multiset_find (maxima_comparator ltA ltV) s.maxima p ≠ s.maxima.length ↔
      p ∈ s.maxima) ∧
    (p ∈ s.maxima →
      s.maxima[multiset_find (maxima_comparator ltA ltV) s.maxima p]? = some p) := by
  have hswo := @maxima_comparator_swo A V ltA ltV hA hV
  by_cases hm : p ∈ s.maxima
  · have hf := multiset_find_mem hswo s.maxima h.maxima_sorted p hm
    have hlt : multiset_find (maxima_comparator ltA ltV) s.maxima p < s.maxima.length := by
      by_contra hge
      rw [List.getElem?_eq_none (by omega)] at hf
      exact absurd hf (by simp)
    exact ⟨⟨fun _ => hm, fun _ => by omega⟩, fun _ => hf⟩
  · have hf := multiset_find_not_mem hswo s.maxima h.maxima_sorted p (by
      intro x hx hxp
      have harg := @arg_equiv_of_maxima_equiv A V ltA ltV hV _ _ hxp.1 hxp.2
      have := eq_of_equiv_arg h.points_sorted (h.subset x hx) hp harg.1 harg.2
      rw [this] at hx
      exact hm hx)
    exact ⟨⟨fun hne => absurd hf hne, fun hc => absurd hc hm⟩, fun hc => absurd hc hm⟩

/-- A point that is in a sequence without repetitions can be taken out of it. -/
theorem extract_of_mem (M : List α) (hnd : M.Nodup) (b : Bool) (p : α)
    (hb : b = true → p ∈ M) :
    ∃ Z, M.Perm ((if b = true then [p] else []) ++ Z) ∧ (∀ z ∈ Z, z ∈ M) ∧
      (b = true → p ∉ Z) ∧ Z.Nodup ∧ (∀ z ∈ M, (b = true → z ≠ p) → z ∈ Z) := by
  cases b with
  | false =>
    exact ⟨M, by simp, fun _ hz => hz, fun hc => absurd hc (by decide), hnd,
      fun z hz _ => hz⟩
  | true =>
    obtain ⟨s, t, rfl⟩ := List.append_of_mem (hb rfl)
    have hnd2 : (p :: (s ++ t)).Nodup := (List.perm_middle.nodup_iff).1 hnd
    rw [List.nodup_cons] at hnd2
    refine ⟨s ++ t, ?_, ?_, fun _ => hnd2.1, hnd2.2, ?_⟩
    · simp
    · intro z hz
      rcases List.mem_append.1 hz with hz | hz
      · exact List.mem_append_left _ hz
      · exact List.mem_append_right _ (List.mem_cons_of_mem _ hz)
    · intro z hz hne
      rcases List.mem_append.1 hz with hz | hz
      · exact List.mem_append_left _ hz
      · rcases List.mem_cons.1 hz with hz | hz
        · exact absurd hz (hne rfl)
        · exact List.mem_append_right _ hz

theorem mem_cond_iff (c : Bool) (y p : α) :
    p ∈ (if c = true then [y] else []) ↔ c = true ∧ p = y := by
  cases c <;> simp

/-- The bookkeeping at the start of a mutation of a state whose maxima are domain
points. -/
theorem Located.tracked_start (hA : StrictWeakOrder ltA) (hV : StrictWeakOrder ltV)
    {s : FunctionMaxima A V} (hs : MaximaInDomain ltA ltV s) {k : A}
    {L M R : List (point_type A V)} (h : SplitAt ltA s.points k L M R)
    {x : locals A V} {mid : Option (point_type A V)} {new_mid : point_type A V}
    (hx : Located ltA ltV s x L M R mid new_mid) :
    ∃ Z, Tracked ltA ltV ⟨s.maxima, x.max_it_old, x.max_it_left, x.max_it_right⟩
        x.left x.old_mid x.right x.is_in_left x.is_in_old x.is_in_right Z ∧
      ∀ z ∈ Z, z ∈ s.maxima ∧ z ∉ M := by
  have hswo := @maxima_comparator_swo A V ltA ltV hA hV
  obtain ⟨mL, _, mR, _, mO⟩ := hx.mem h.len
  have hLpts : ∀ l ∈ L, l ∈ s.points := fun l hl => by
    rw [h.eq]; exact List.mem_append_left _ (List.mem_append_left _ hl)
  have hMpts : ∀ o ∈ M, o ∈ s.points := fun o ho => by
    rw [h.eq]; exact List.mem_append_left _ (List.mem_append_right _ ho)
  have hRpts : ∀ r ∈ R, r ∈ s.points := fun r hr => by
    rw [h.eq]; exact List.mem_append_right _ hr
  have fL : x.is_in_left = true →
      x.left ∈ s.maxima ∧ s.maxima[x.max_it_left]? = some x.left := by
    intro hc
    cases hL : L.getLast? with
    | none =>
      rw [(hx.left_none hL).2.2] at hc
      exact absurd hc (by decide)
    | some l =>
      obtain ⟨_, h2, _, h4, h5⟩ := hx.left_some l hL
      obtain ⟨f1, f2⟩ := hs.find_in_domain hA hV (hLpts l (List.mem_of_mem_getLast? hL))
      rw [h4, decide_eq_true_iff] at hc
      rw [h2, h5]
      exact ⟨f1.1 hc, f2 (f1.1 hc)⟩
  have fR : x.is_in_right = true →
      x.right ∈ s.maxima ∧ s.maxima[x.max_it_right]? = some x.right := by
    intro hc
    cases hR : R.head? with
    | none =>
      rw [(hx.right_none hR).2.2] at hc
      exact absurd hc (by decide)
    | some r =>
      obtain ⟨_, h2, _, h4, h5⟩ := hx.right_some r hR
      obtain ⟨f1, f2⟩ := hs.find_in_domain hA hV (hRpts r (List.mem_of_mem_head? hR))
      rw [h4, decide_eq_true_iff] at hc
      rw [h2, h5]
      exact ⟨f1.1 hc, f2 (f1.1 hc)⟩
  have fO : (x.is_in_old = true →
      x.old_mid ∈ s.maxima ∧ s.maxima[x.max_it_old]? = some x.old_mid) ∧
      (x.is_in_old = false → ∀ o ∈ M, o ∉ s.maxima) ∧ (∀ o ∈ M, o = x.old_mid) := by
    rcases h.mid_cases with hM | ⟨o, hM⟩
    · obtain ⟨_, h2⟩ := hx.old_none hM
      subst hM
      refine ⟨?_, ?_, ?_⟩
      · intro hc
        rw [h2] at hc
        exact absurd hc (by decide)
      · intro _ o ho
        simp at ho
      · intro o ho
        simp at ho
    · obtain ⟨_, h2, h3, h4⟩ := hx.old_some o hM
      subst hM
      obtain ⟨f1, f2⟩ := hs.find_in_domain hA hV (hMpts o (by simp))
      refine ⟨?_, ?_, ?_⟩
      · intro hc
        rw [h3, decide_eq_true_iff] at hc
        rw [h2, h4]
        exact ⟨f1.1 hc, f2 (f1.1 hc)⟩
      · intro hc o2 ho2
        rw [List.mem_singleton] at ho2
        subst ho2
        rw [h3, decide_eq_false_iff_not] at hc
        exact fun hm => hc (f1.2 hm)
      · intro o2 ho2
        rw [List.mem_singleton] at ho2
        rw [h2, ho2]
  have hnd := maxima_nodup hA hV hs.maxima_sorted
  obtain ⟨Z1, P1, S1, N1, D1, K1⟩ := extract_of_mem s.maxima hnd x.is_in_left x.left
    (fun hc => (fL hc).1)
  obtain ⟨Z2, P2, S2, N2, D2, K2⟩ := extract_of_mem Z1 D1 x.is_in_old x.old_mid
    (fun hc => K1 _ (fO.1 hc).1 (fun hl => (h.ne_left_mid (mL hl).2 (mO hc).2).symm))
  obtain ⟨Z3, P3, S3, N3, D3, K3⟩ := extract_of_mem Z2 D2 x.is_in_right x.right
    (fun hc => K2 _ (K1 _ (fR hc).1 (fun hl => (h.ne_left_right hA (mL hl).2 (mR hc).2).symm))
      (fun ho => (h.ne_mid_right (mO ho).2 (mR hc).2).symm))
  refine ⟨Z3, ⟨?_, hs.maxima_sorted.imp (fun hpq => hswo.asymm hpq),
    fun hc => (fL hc).2, fun hc => (fO.1 hc).2, fun hc => (fR hc).2⟩, ?_⟩
  · refine P1.trans ?_
    refine ((List.Perm.append_left _ P2).trans ?_)
    refine ((List.Perm.append_left _ (List.Perm.append_left _ P3)).trans ?_)
    simp only [List.append_assoc]
    exact List.Perm.refl _
  · intro z hz
    have hz2 := S3 z hz
    have hz1 := S2 z hz2
    refine ⟨S1 z hz1, ?_⟩
    intro hzM
    have hzo := fO.2.2 z hzM
    cases hO : x.is_in_old with
    | true =>
      rw [hzo] at hz2
      exact N2 hO hz2
    | false => exact fO.2.1 hO z hzM (S1 z hz1)

/-- After a mutation of a state whose maxima are domain points, every point of `maxima` is
a point of the domain to the left or to the right of the argument, or the new point. -/
theorem Located.commit_subset (hA : StrictWeakOrder ltA) (hV : StrictWeakOrder ltV)
    {s : FunctionMaxima A V} (hs : MaximaInDomain ltA ltV s) {k : A}
    {L M R : List (point_type A V)} (h : SplitAt ltA s.points k L M R)
    {x : locals A V} {mid : Option (point_type A V)} {new_mid : point_type A V}
    (hx : Located ltA ltV s x L M R mid new_mid) (p : point_type A V)
    (hp : p ∈ (commit ltA ltV x new_mid
      ⟨s.maxima, x.max_it_old, x.max_it_left, x.max_it_right⟩).maxima) :
    p ∈ L ∨ p ∈ R ∨ (x.is_max_new = true ∧ p = new_mid) := by
  obtain ⟨Z, T0, hZ⟩ := hx.tracked_start hA hV hs h
  obtain ⟨mL, mL2, mR, mR2, mO⟩ := hx.mem h.len
  have T6 := hx.commit_tracked hA hV h T0
  have hp2 := T6.perm.mem_iff.1 hp
  have hexL : x.exists_left = true → x.left ∈ L := by
    intro hc
    cases hL : L.getLast? with
    | none =>
      rw [(hx.left_none hL).1] at hc
      exact absurd hc (by decide)
    | some l =>
      rw [(hx.left_some l hL).2.1]
      exact List.mem_of_mem_getLast? hL
  have hexR : x.exists_right = true → x.right ∈ R := by
    intro hc
    cases hR : R.head? with
    | none =>
      rw [(hx.right_none hR).1] at hc
      exact absurd hc (by decide)
    | some r =>
      rw [(hx.right_some r hR).2.1]
      exact List.mem_of_mem_head? hR
  simp only [List.mem_append, mem_cond_iff] at hp2
  simp only [Bool.and_eq_true, Bool.not_eq_true'] at hp2
  rcases hp2 with ((⟨⟨hc, _⟩, rfl⟩ | ⟨⟨hc, hc2⟩, rfl⟩) | ⟨⟨hc, _⟩, rfl⟩) |
    (⟨hc, rfl⟩ | (⟨⟨⟨hc, _⟩, _⟩, rfl⟩ | (⟨⟨⟨hc, _⟩, _⟩, rfl⟩ | hz)))
  · exact Or.inl (mL hc).2
  · exfalso
    have h1 := (mO hc).1
    rw [h1, hc] at hc2
    simp at hc2
  · exact Or.inr (Or.inl (mR hc).2)
  · exact Or.inr (Or.inr ⟨hc, rfl⟩)
  · exact Or.inr (Or.inl (hexR hc))
  · exact Or.inl (hexL hc)
  · obtain ⟨hz1, hz2⟩ := hZ p hz
    have hpts := hs.subset p hz1
    rw [h.eq] at hpts
    rcases List.mem_append.1 hpts with hpts | hpts
    · rcases List.mem_append.1 hpts with hpts | hpts
      · exact Or.inl hpts
      · exact absurd hpts hz2
    · exact Or.inr (Or.inl hpts)

end maxima_in_domain

end FunctionMaxima

namespace FunctionMaxima

variable {α A V σ E : Type}

/-! ## Exceptions: what a failed mutation leaves behind -/

theorem multiset_upper_boundE_le (comp : α → α → StateT σ (Except E) Bool) (l : List α)
    (k : α) (c c1 : σ) (j : Nat) (h : multiset_upper_boundE comp l k c = .ok (j, c1)) :
    j ≤ l.length := by
  induction l generalizing c c1 j with
  | nil =>
    simp only [multiset_upper_boundE, pure, StateT.pure, Except.pure, Except.ok.injEq,
      Prod.mk.injEq] at h
    omega
  | cons x xs ih =>
    simp only [multiset_upper_boundE, bind, StateT.bind, Except.bind] at h
    cases hc : comp k x c with
    | error e =>
      rw [hc] at h
      exact absurd h (by simp)
    | ok r =>
      obtain ⟨b, c2⟩ := r
      rw [hc] at h
      cases b with
      | true =>
        simp only [if_true, pure, StateT.pure, Except.pure, Except.ok.injEq,
          Prod.mk.injEq] at h
        omega
      | false =>
        simp only [Bool.false_eq_true, if_false, StateT.bind, Except.bind] at h
        cases hr : multiset_upper_boundE comp xs k c2 with
        | error e =>
          rw [hr] at h
          simp [bind, Except.bind] at h
        | ok r2 =>
          obtain ⟨j2, c3⟩ := r2
          rw [hr] at h
          simp [bind, Except.bind, pure, StateT.pure, Except.pure] at h
          have := ih c2 c3 j2 hr
          simp only [List.length_cons]
          omega

/-- The reference container keeps the contract of `insert`. -/
theorem scan_insert_ok (alloc : StateT σ (Except E) Unit)
    (comp : α → α → StateT σ (Except E) Bool) :
    (scan_multiset alloc comp).insert_ok := by
  intro l x c c1 r h
  simp only [scan_multiset, multiset_insertE, bind, StateT.bind, Except.bind] at h
  cases hu : multiset_upper_boundE comp l x c with
  | error e =>
    rw [hu] at h
    exact absurd h (by simp)
  | ok r1 =>
    obtain ⟨k, c2⟩ := r1
    rw [hu] at h
    simp only at h
    cases ha : alloc c2 with
    | error e =>
      rw [ha] at h
      exact absurd h (by simp)
    | ok r2 =>
      obtain ⟨u, c3⟩ := r2
      rw [ha] at h
      simp only [pure, StateT.pure, Except.pure, Except.ok.injEq, Prod.mk.injEq] at h
      obtain ⟨h1, _⟩ := h
      subst h1
      exact ⟨multiset_upper_boundE_le _ _ _ _ _ _ hu, rfl⟩

/-- What a successful `maxima.insert(x)` does. -/
theorem insert_maxima_ok (ops : throwing_ops σ E A V) (hins : ops.maxima.insert_ok)
    (t t1 : try_state A V)
    (x : point_type A V) (c c1 : σ) (it : Nat)
    (h : t.insert_maxima ops x c = .ok ((t1, it), c1)) :
    it ≤ t.maxima.length ∧
    t1 = { t.relocate (after_insert it) with maxima := insert_at t.maxima it x } := by
  simp only [try_state.insert_maxima, bind, StateT.bind, Except.bind] at h
  cases hu : ops.maxima.insert t.maxima x c with
  | error e =>
    rw [hu] at h
    exact absurd h (by simp)
  | ok r =>
    obtain ⟨r1, c2⟩ := r
    rw [hu] at h
    simp only [pure, StateT.pure, Except.pure, Except.ok.injEq, Prod.mk.injEq] at h
    obtain ⟨⟨h1, h2⟩, _⟩ := h
    obtain ⟨hle, hr⟩ := hins _ _ _ _ _ hu
    subst h2
    subst h1
    rw [hr]
    exact ⟨hle, rfl⟩

/-- Erasing a kept element after an insertion is inserting after the erasure. -/
theorem eraseIdx_insert_at_after (m : List α) (i p : Nat) (z : α) (hp : p < m.length)
    (hi : i ≤ m.length) :
    (insert_at m i z).eraseIdx (after_insert i p) =
      insert_at (m.eraseIdx p) (after_erase (after_insert i p) i) z := by
  induction m generalizing i p with
  | nil => simp at hp
  | cons y m ih =>
    cases i with
    | zero => simp [insert_at, after_insert, after_erase]
    | succ i =>
      cases p with
      | zero => simp [insert_at, after_insert, after_erase]
      | succ p =>
        have hp2 : p < m.length := by simpa using hp
        have hi2 : i ≤ m.length := by simpa using hi
        have := ih i p hp2 hi2
        have e1 : after_insert (i + 1) (p + 1) = after_insert i p + 1 := by
          unfold after_insert
          by_cases h : i ≤ p
          · simp [h]
          · simp [h]
        have e2 : after_erase (after_insert i p + 1) (i + 1) =
            after_erase (after_insert i p) i + 1 := by
          unfold after_erase after_insert
          by_cases h : i ≤ p
          · have h1 : ¬ (p + 1 + 1 < i + 1) := by omega
            have h2 : ¬ (p + 1 < i) := by omega
            simp [h, h1, h2]
          · have h1 : p + 1 < i + 1 := by omega
            have h2 : p < i := by omega
            simp [h, h1, h2]
            omega
        rw [e1, e2]
        simp only [insert_at, List.eraseIdx_cons_succ]
        rw [this]

theorem after_erase_after_insert_le (m : List α) (i p : Nat) (hp : p < m.length)
    (hi : i ≤ m.length) : after_erase (after_insert i p) i ≤ (m.eraseIdx p).length := by
  rw [List.length_eraseIdx, if_pos hp]
  unfold after_erase after_insert
  by_cases h : i ≤ p
  · have h1 : ¬ (p + 1 < i) := by omega
    simp [h, h1]
    omega
  · have h2 : p < i := by omega
    simp [h, h2]
    omega

/-- Undoing two insertions: the later one is erased after the earlier one. -/
theorem eraseIdx_eraseIdx_insert_at (m : List α) (i p : Nat) (z : α) (hp : p < m.length)
    (hi : i ≤ m.length) :
    ((insert_at m i z).eraseIdx (after_insert i p)).eraseIdx
        (after_erase (after_insert i p) i) = m.eraseIdx p := by
  rw [eraseIdx_insert_at_after m i p z hp hi,
    eraseIdx_insert_at _ _ _ (after_erase_after_insert_le m i p hp hi)]

theorem after_insert_ne (k p : Nat) : after_insert k p ≠ k := by
  unfold after_insert
  by_cases h : k ≤ p
  · simp [h]; omega
  · simp [h]; omega

theorem after_insert_lt (k p n : Nat) (hp : p < n) : after_insert k p < n + 1 := by
  unfold after_insert
  by_cases h : k ≤ p
  · simp [h]; omega
  · simp [h]; omega

theorem after_insert_inj (k p q : Nat) (h : p ≠ q) : after_insert k p ≠ after_insert k q := by
  unfold after_insert
  by_cases h1 : k ≤ p <;> by_cases h2 : k ≤ q <;> simp [h1, h2] <;> omega

/-- Relocation of a kept iterator across an insertion and the erasure of another kept
element, both ways round. -/
theorem after_erase_after_insert (i p q : Nat) (hpq : p ≠ q) :
    after_erase (after_insert i p) (after_insert i q) =
      after_insert (after_erase (after_insert i p) i) (after_erase p q) := by
  unfold after_erase after_insert
  split_ifs <;> omega

end FunctionMaxima

namespace FunctionMaxima

variable {α A V σ E : Type}

/-! ## The `try` blocks and the `catch` blocks -/

theorem rollback_points (t : try_state A V) : (rollback t).points = t.points := by
  obtain ⟨pts, mx, o, i1, i2, i3, fl, il, fr, ir, fn, inn⟩ := t
  cases fl <;> cases fr <;> cases fn <;>
    simp [rollback, try_state.erase_maxima, try_state.relocate]

theorem staged_start (s : FunctionMaxima A V) (x : locals A V) :
    Staged s.maxima (try_start s x) := by
  refine ⟨?_, ?_, ?_, ?_⟩
  · simp [rollback, try_start]
  · intro h
    simp [try_start] at h
  · intro h
    simp [try_start] at h
  · intro h
    simp [try_start] at h

/-- The first statement of a `try` block keeps the bookkeeping. -/
theorem try_insert_left_ok (ops : throwing_ops σ E A V) (hins : ops.maxima.insert_ok)
    (x : locals A V)
    (t t1 : try_state A V) (c c1 : σ) (M0 : List (point_type A V))
    (hst : Staged M0 t) (hl : t.insert_max_left = false) (hr : t.insert_max_right = false)
    (hn : t.insert_max_new = false)
    (h : try_insert_left ops x t c = .ok (t1, c1)) :
    Staged M0 t1 ∧ t1.insert_max_right = false ∧ t1.insert_max_new = false ∧
      t1.points = t.points := by
  unfold try_insert_left at h
  split at h
  · simp only [bind, StateT.bind, Except.bind] at h
    cases hi : t.insert_maxima ops x.left c with
    | error e =>
      rw [hi] at h
      simp at h
    | ok r =>
      obtain ⟨⟨t2, it⟩, c2⟩ := r
      rw [hi] at h
      simp only [pure, StateT.pure, Except.pure, Except.ok.injEq, Prod.mk.injEq] at h
      obtain ⟨h1, _⟩ := h
      obtain ⟨hle, h2⟩ := insert_maxima_ok ops hins t t2 x.left c c2 it hi
      subst h1
      subst h2
      have hu := hst.undo
      simp only [rollback, hl, hr, hn, Bool.false_eq_true, if_false] at hu
      refine ⟨⟨?_, ?_, ?_, ?_⟩, ?_, ?_, ?_⟩
      · simp only [rollback, try_state.erase_maxima, try_state.relocate, multiset_erase,
          hr, hn, if_true, Bool.false_eq_true, if_false]
        rw [eraseIdx_insert_at _ _ _ hle]
        exact hu
      · intro _
        simp only [try_state.relocate, insert_at_length]
        omega
      · intro hc
        simp only [try_state.relocate, hr] at hc
        exact absurd hc (by decide)
      · intro _ hc
        simp only [try_state.relocate, hr] at hc
        exact absurd hc (by decide)
      · simp only [try_state.relocate, hr]
      · simp only [try_state.relocate, hn]
      · simp only [try_state.relocate]
  · simp only [pure, StateT.pure, Except.pure, Except.ok.injEq, Prod.mk.injEq] at h
    obtain ⟨h1, _⟩ := h
    subst h1
    exact ⟨hst, hr, hn, rfl⟩

/-- The second statement of a `try` block keeps the bookkeeping. -/
theorem try_insert_right_ok (ops : throwing_ops σ E A V) (hins : ops.maxima.insert_ok)
    (x : locals A V)
    (t t1 : try_state A V) (c c1 : σ) (M0 : List (point_type A V))
    (hst : Staged M0 t) (hr : t.insert_max_right = false)
    (hn : t.insert_max_new = false)
    (h : try_insert_right ops x t c = .ok (t1, c1)) :
    Staged M0 t1 ∧ t1.insert_max_new = false ∧ t1.points = t.points := by
  unfold try_insert_right at h
  split at h
  · simp only [bind, StateT.bind, Except.bind] at h
    cases hi : t.insert_maxima ops x.right c with
    | error e =>
      rw [hi] at h
      simp at h
    | ok r =>
      obtain ⟨⟨t2, it⟩, c2⟩ := r
      rw [hi] at h
      simp only [pure, StateT.pure, Except.pure, Except.ok.injEq, Prod.mk.injEq] at h
      obtain ⟨h1, _⟩ := h
      obtain ⟨hle, h2⟩ := insert_maxima_ok ops hins t t2 x.right c c2 it hi
      subst h1
      subst h2
      have hu := hst.undo
      cases hl : t.insert_max_left with
      | false =>
        simp only [rollback, hl, hr, hn, Bool.false_eq_true, if_false] at hu
        refine ⟨⟨?_, ?_, ?_, ?_⟩, ?_, ?_⟩
        · simp only [rollback, try_state.erase_maxima, try_state.relocate, multiset_erase,
            hl, hn, if_true, Bool.false_eq_true, if_false]
          rw [eraseIdx_insert_at _ _ _ hle]
          exact hu
        · intro hc
          simp only [try_state.relocate, hl] at hc
          exact absurd hc (by decide)
        · intro _
          simp only [try_state.relocate, insert_at_length]
          omega
        · intro hc
          simp only [try_state.relocate, hl] at hc
          exact absurd hc (by decide)
        · simp only [try_state.relocate, hn]
        · simp only [try_state.relocate]
      | true =>
        have hlt := hst.left_lt hl
        simp only [rollback, try_state.erase_maxima, try_state.relocate, multiset_erase,
          hl, hr, hn, if_true, Bool.false_eq_true, if_false] at hu
        refine ⟨⟨?_, ?_, ?_, ?_⟩, ?_, ?_⟩
        · simp only [rollback, try_state.erase_maxima, try_state.relocate, multiset_erase,
            hl, hn, if_true, Bool.false_eq_true, if_false]
          rw [eraseIdx_eraseIdx_insert_at _ _ _ _ hlt hle]
          exact hu
        · intro _
          simp only [try_state.relocate, insert_at_length]
          exact after_insert_lt _ _ _ hlt
        · intro _
          simp only [try_state.relocate, insert_at_length]
          omega
        · intro _ _
          simp only [try_state.relocate]
          exact after_insert_ne _ _
        · simp only [try_state.relocate, hn]
        · simp only [try_state.relocate]
  · simp only [pure, StateT.pure, Except.pure, Except.ok.injEq, Prod.mk.injEq] at h
    obtain ⟨h1, _⟩ := h
    subst h1
    exact ⟨hst, hn, rfl⟩

theorem after_erase_lt (p q n : Nat) (hp : p < n) (hq : q < n) (hpq : p ≠ q) :
    after_erase p q < n - 1 := by
  unfold after_erase
  split_ifs <;> omega

/-- After the third statement of the `try` block of `set_value` the `catch` block would
still bring the maxima back. -/
theorem try_insert_new_ok (ops : throwing_ops σ E A V) (hins : ops.maxima.insert_ok)
    (x : locals A V)
    (new_mid : point_type A V)
    (t t1 : try_state A V) (c c1 : σ) (M0 : List (point_type A V))
    (hst : Staged M0 t) (hn : t.insert_max_new = false)
    (h : try_insert_new ops x new_mid t c = .ok (t1, c1)) :
    (rollback t1).maxima = M0 ∧ t1.points = t.points := by
  unfold try_insert_new at h
  split at h
  · simp only [bind, StateT.bind, Except.bind] at h
    cases hi : t.insert_maxima ops new_mid c with
    | error e =>
      rw [hi] at h
      simp at h
    | ok r =>
      obtain ⟨⟨t2, it⟩, c2⟩ := r
      rw [hi] at h
      simp only [pure, StateT.pure, Except.pure, Except.ok.injEq, Prod.mk.injEq] at h
      obtain ⟨h1, _⟩ := h
      obtain ⟨hle, h2⟩ := insert_maxima_ok ops hins t t2 new_mid c c2 it hi
      subst h1
      subst h2
      have hu := hst.undo
      refine ⟨?_, by simp only [try_state.relocate]⟩
      cases hl : t.insert_max_left with
      | false =>
        cases hr : t.insert_max_right with
        | false =>
          simp only [rollback, hl, hr, hn, Bool.false_eq_true, if_false] at hu
          simp only [rollback, try_state.erase_maxima, try_state.relocate, multiset_erase,
            hl, hr, if_true, Bool.false_eq_true, if_false]
          rw [eraseIdx_insert_at _ _ _ hle]
          exact hu
        | true =>
          have hlt := hst.right_lt hr
          simp only [rollback, try_state.erase_maxima, try_state.relocate, multiset_erase,
            hl, hr, hn, if_true, Bool.false_eq_true, if_false] at hu
          simp only [rollback, try_state.erase_maxima, try_state.relocate, multiset_erase,
            hl, hr, if_true, Bool.false_eq_true, if_false]
          rw [eraseIdx_eraseIdx_insert_at _ _ _ _ hlt hle]
          exact hu
      | true =>
        have hlt := hst.left_lt hl
        cases hr : t.insert_max_right with
        | false =>
          simp only [rollback, try_state.erase_maxima, try_state.relocate, multiset_erase,
            hl, hr, hn, if_true, Bool.false_eq_true, if_false] at hu
          simp only [rollback, try_state.erase_maxima, try_state.relocate, multiset_erase,
            hl, hr, if_true, Bool.false_eq_true, if_false]
          rw [eraseIdx_eraseIdx_insert_at _ _ _ _ hlt hle]
          exact hu
        | true =>
          have hrt := hst.right_lt hr
          have hne := hst.left_right hl hr
          simp only [rollback, try_state.erase_maxima, try_state.relocate, multiset_erase,
            hl, hr, hn, if_true, Bool.false_eq_true, if_false] at hu
          simp only [rollback, try_state.erase_maxima, try_state.relocate, multiset_erase,
            hl, hr, if_true, Bool.false_eq_true, if_false]
          rw [eraseIdx_insert_at_after _ _ _ _ hlt hle,
            after_erase_after_insert _ _ _ hne]
          have hq : after_erase t.insert_max_it_left t.insert_max_it_right <
              (t.maxima.eraseIdx t.insert_max_it_left).length := by
            rw [List.length_eraseIdx, if_pos hlt]
            exact after_erase_lt _ _ _ hlt hrt hne
          rw [eraseIdx_eraseIdx_insert_at _ _ _ _ hq
            (after_erase_after_insert_le _ _ _ hlt hle)]
          exact hu
  · simp only [pure, StateT.pure, Except.pure, Except.ok.injEq, Prod.mk.injEq] at h
    obtain ⟨h1, _⟩ := h
    subst h1
    exact ⟨hst.undo, rfl⟩

/-- When the `try` block of `set_value` throws, the `catch` block leaves both indices as
they were when the method was called. -/
theorem set_value_try_throws (ops : throwing_ops σ E A V) (hins : ops.maxima.insert_ok)
    (s : FunctionMaxima A V)
    (x : locals A V) (new_mid : point_type A V) (c : σ) (e : E) (t : try_state A V)
    (h : run_try [try_insert_left ops x, try_insert_right ops x,
        try_insert_new ops x new_mid, try_insert_point ops new_mid] (try_start s x) c =
      .error (e, t)) :
    (rollback t).points = s.points ∧ (rollback t).maxima = s.maxima := by
  have h0 := staged_start s x
  simp only [run_try] at h
  cases h1 : try_insert_left ops x (try_start s x) c with
  | error e1 =>
    rw [h1] at h
    simp only [Except.error.injEq, Prod.mk.injEq] at h
    obtain ⟨_, ht⟩ := h
    subst ht
    exact ⟨rollback_points _, h0.undo⟩
  | ok r1 =>
    obtain ⟨t1, c1⟩ := r1
    rw [h1] at h
    simp only at h
    obtain ⟨hs1, hr1, hn1, hp1⟩ := try_insert_left_ok ops hins x _ t1 c c1 s.maxima h0 rfl rfl rfl h1
    cases h2 : try_insert_right ops x t1 c1 with
    | error e2 =>
      rw [h2] at h
      simp only [Except.error.injEq, Prod.mk.injEq] at h
      obtain ⟨_, ht⟩ := h
      subst ht
      exact ⟨(rollback_points _).trans hp1, hs1.undo⟩
    | ok r2 =>
      obtain ⟨t2, c2⟩ := r2
      rw [h2] at h
      simp only at h
      obtain ⟨hs2, hn2, hp2⟩ := try_insert_right_ok ops hins x t1 t2 c1 c2 s.maxima hs1 hr1 hn1 h2
      cases h3 : try_insert_new ops x new_mid t2 c2 with
      | error e3 =>
        rw [h3] at h
        simp only [Except.error.injEq, Prod.mk.injEq] at h
        obtain ⟨_, ht⟩ := h
        subst ht
        exact ⟨(rollback_points _).trans (hp2.trans hp1), hs2.undo⟩
      | ok r3 =>
        obtain ⟨t3, c3⟩ := r3
        rw [h3] at h
        simp only at h
        obtain ⟨hu3, hp3⟩ := try_insert_new_ok ops hins x new_mid t2 t3 c2 c3 s.maxima hs2 hn2 h3
        cases h4 : try_insert_point ops new_mid t3 c3 with
        | error e4 =>
          rw [h4] at h
          simp only [Except.error.injEq, Prod.mk.injEq] at h
          obtain ⟨_, ht⟩ := h
          subst ht
          exact ⟨(rollback_points _).trans (hp3.trans (hp2.trans hp1)), hu3⟩
        | ok r4 =>
          obtain ⟨t4, c4⟩ := r4
          rw [h4] at h
          simp at h

/-- When the `try` block of `erase` throws, the `catch` block leaves both indices as they
were when the method was called. -/
theorem erase_try_throws (ops : throwing_ops σ E A V) (hins : ops.maxima.insert_ok)
    (s : FunctionMaxima A V)
    (x : locals A V) (c : σ) (e : E) (t : try_state A V)
    (h : run_try [try_insert_left ops x, try_insert_right ops x] (try_start s x) c =
      .error (e, t)) :
    (rollback t).points = s.points ∧ (rollback t).maxima = s.maxima := by
  have h0 := staged_start s x
  simp only [run_try] at h
  cases h1 : try_insert_left ops x (try_start s x) c with
  | error e1 =>
    rw [h1] at h
    simp only [Except.error.injEq, Prod.mk.injEq] at h
    obtain ⟨_, ht⟩ := h
    subst ht
    exact ⟨rollback_points _, h0.undo⟩
  | ok r1 =>
    obtain ⟨t1, c1⟩ := r1
    rw [h1] at h
    simp only at h
    obtain ⟨hs1, hr1, hn1, hp1⟩ := try_insert_left_ok ops hins x _ t1 c c1 s.maxima h0 rfl rfl rfl h1
    cases h2 : try_insert_right ops x t1 c1 with
    | error e2 =>
      rw [h2] at h
      simp only [Except.error.injEq, Prod.mk.injEq] at h
      obtain ⟨_, ht⟩ := h
      subst ht
      exact ⟨(rollback_points _).trans hp1, hs1.undo⟩
    | ok r2 =>
      obtain ⟨t2, c2⟩ := r2
      rw [h2] at h
      simp at h

end FunctionMaxima

namespace FunctionMaxima

variable {α A V σ E : Type}

/-! ## Reachable states and concrete scenarios -/

theorem empty_wellFormed (ltA : A → A → Bool) (ltV : V → V → Bool) :
    WellFormed ltA ltV (empty : FunctionMaxima A V) := by
  refine ⟨by simp [empty], by simp [empty], ?_⟩
  intro p
  simp [empty]

/-- Every reachable state satisfies the state invariant. -/
theorem reachable_wellFormed {ltA : A → A → Bool} {ltV : V → V → Bool}
    (hA : StrictWeakOrder ltA) (hV : StrictWeakOrder ltV) {s : FunctionMaxima A V}
    (h : Reachable ltA ltV s) : WellFormed ltA ltV s := by
  induction h with
  | empty => exact empty_wellFormed ltA ltV
  | set_value s a v _ ih => exact set_value_wellFormed hA hV ih a v
  | erase s a _ ih => exact erase_wellFormed hA hV ih a

theorem nat_lt_swo : StrictWeakOrder nat_lt := by
  refine ⟨?_, ?_, ?_⟩
  · intro a
    simp [nat_lt]
  · intro a b c h1 h2
    simp only [nat_lt, decide_eq_true_eq] at h1 h2 ⊢
    omega
  · intro a b c h1 h2 h3 h4
    simp only [nat_lt, decide_eq_false_iff_not] at h1 h2 h3 h4 ⊢
    omega

theorem scenario_three_reachable : Reachable nat_lt nat_lt scenario_three :=
  Reachable.set_value _ 3 10 (Reachable.set_value _ 2 5
    (Reachable.set_value _ 1 10 Reachable.empty))

theorem scenario_A_reachable : Reachable nat_lt nat_lt scenario_A :=
  Reachable.set_value _ 4 1 scenario_three_reachable

theorem scenario_three_wellFormed : WellFormed nat_lt nat_lt scenario_three :=
  reachable_wellFormed nat_lt_swo nat_lt_swo scenario_three_reachable

theorem scenario_A_wellFormed : WellFormed nat_lt nat_lt scenario_A :=
  reachable_wellFormed nat_lt_swo nat_lt_swo scenario_A_reachable

/-- In a well-formed state a domain point is in `maxima` exactly when it is a local
maximum. -/
theorem WellFormed.mem_maxima_at {ltA : A → A → Bool} {ltV : V → V → Bool}
    (hA : StrictWeakOrder ltA) {s : FunctionMaxima A V} (h : WellFormed ltA ltV s)
    {i : Nat} {p : point_type A V} (hp : s.points[i]? = some p) :
    p ∈ s.maxima ↔ is_local_maximum_at ltV s.points i = true := by
  rw [h.mem_maxima_iff]
  exact mem_local_maxima_at (points_nodup hA h.points_sorted) hp

/-- An argument that is in the domain is the argument of the middle part of the split. -/
theorem SplitAt.mid_of_mem {ltA : A → A → Bool}
    {pts : List (point_type A V)} {a : A} {L M R : List (point_type A V)}
    (h : SplitAt ltA pts a L M R) {p : point_type A V} (hp : p ∈ pts)
    (h1 : ltA p.arg a = false) (h2 : ltA a p.arg = false) : M = [p] := by
  rw [h.eq] at hp
  rcases List.mem_append.1 hp with hp | hp
  · rcases List.mem_append.1 hp with hp | hp
    · have := h.left p hp
      rw [h1] at this
      exact absurd this (by decide)
    · rcases h.mid_cases with hM | ⟨m, hM⟩
      · rw [hM] at hp
        simp at hp
      · rw [hM] at hp ⊢
        simp at hp
        rw [hp]
  · have := h.right p hp
    rw [h2] at this
    exact absurd this (by decide)

theorem SplitAt.not_equiv_of_nil {ltA : A → A → Bool}
    {pts : List (point_type A V)} {a : A} {L R : List (point_type A V)}
    (h : SplitAt ltA pts a L [] R) {p : point_type A V} (hp : p ∈ pts) :
    ¬ (ltA p.arg a = false ∧ ltA a p.arg = false) := by
  intro hc
  have := h.mid_of_mem hp hc.1 hc.2
  simp at this

/-- What the lower bound points to is not less than the key. -/
theorem multiset_lower_bound_spec (comp : α → α → Bool) (l : List α) (k x : α)
    (h : l[multiset_lower_bound comp l k]? = some x) : comp x k = false ∧ x ∈ l := by
  induction l with
  | nil => simp at h
  | cons y ys ih =>
    simp only [multiset_lower_bound] at h
    cases hc : comp y k with
    | true =>
      rw [hc] at h
      simp only [if_true, List.getElem?_cons_succ] at h
      obtain ⟨h1, h2⟩ := ih h
      exact ⟨h1, List.mem_cons_of_mem _ h2⟩
    | false =>
      rw [hc] at h
      simp only [Bool.false_eq_true, if_false, List.getElem?_cons_zero,
        Option.some.injEq] at h
      subst h
      exact ⟨hc, by simp⟩

/-- Lookup of a key that has no equivalent element gives `end()`, in any sequence. -/
theorem multiset_find_of_no_equiv (comp : α → α → Bool) (l : List α) (k : α)
    (h : ∀ x ∈ l, ¬ (comp x k = false ∧ comp k x = false)) :
    multiset_find comp l k = l.length := by
  unfold multiset_find
  simp only
  split
  · rfl
  · rename_i x hx
    obtain ⟨h1, h2⟩ := multiset_lower_bound_spec comp l k x hx
    cases hc : comp k x with
    | true => simp
    | false => exact absurd ⟨h1, hc⟩ (h x h2)

end FunctionMaxima

namespace FunctionMaxima

variable {α A V σ E : Type}

/-! ## Operations that never throw -/

theorem multiset_lower_boundE_pure (comp : α → α → Bool) (l : List α) (k : α) (c : σ) :
    multiset_lower_boundE (fun a b => (pure (comp a b) : StateT σ (Except E) Bool)) l k c =
      .ok (multiset_lower_bound comp l k, c) := by
  induction l with
  | nil => rfl
  | cons x xs ih =>
    simp only [multiset_lower_boundE, multiset_lower_bound, bind, StateT.bind, Except.bind,
      pure, StateT.pure, Except.pure] at ih ⊢
    cases comp x k with
    | true => simp only [if_true, StateT.bind, bind, Except.bind, ih, StateT.pure, pure,
        Except.pure]
    | false => simp only [Bool.false_eq_true, if_false, StateT.pure, pure, Except.pure]

theorem multiset_upper_boundE_pure (comp : α → α → Bool) (l : List α) (k : α) (c : σ) :
    multiset_upper_boundE (fun a b => (pure (comp a b) : StateT σ (Except E) Bool)) l k c =
      .ok (multiset_upper_bound comp l k, c) := by
  induction l with
  | nil => rfl
  | cons x xs ih =>
    simp only [multiset_upper_boundE, multiset_upper_bound, bind, StateT.bind, Except.bind,
      pure, StateT.pure, Except.pure] at ih ⊢
    cases comp k x with
    | true => simp only [if_true, StateT.pure, pure, Except.pure]
    | false => simp only [Bool.false_eq_true, if_false, StateT.bind, bind, Except.bind, ih,
        StateT.pure, pure, Except.pure]

theorem multiset_findE_pure (comp : α → α → Bool) (l : List α) (k : α) (c : σ) :
    multiset_findE (fun a b => (pure (comp a b) : StateT σ (Except E) Bool)) l k c =
      .ok (multiset_find comp l k, c) := by
  simp only [multiset_findE, multiset_find, bind, StateT.bind, Except.bind,
    multiset_lower_boundE_pure]
  cases l[multiset_lower_bound comp l k]? with
  | none => rfl
  | some x =>
    simp only [pure, StateT.pure, Except.pure]
    cases comp k x <;> rfl

theorem multiset_insertE_pure (comp : α → α → Bool) (l : List α) (x : α) (c : σ) :
    multiset_insertE (pure () : StateT σ (Except E) Unit)
      (fun a b => (pure (comp a b) : StateT σ (Except E) Bool)) l x c =
      .ok (multiset_insert comp l x, c) := by
  simp only [multiset_insertE, multiset_insert, bind, StateT.bind, Except.bind,
    multiset_upper_boundE_pure]
  rfl

theorem points_comparatorE_pure (ltA : A → A → Bool) (ltV : V → V → Bool) :
    points_comparatorE
      ({ ltA := fun a b => pure (ltA a b), ltV := fun a b => pure (ltV a b),
         alloc := pure () } : comparison_ops σ E A V) =
      fun a b => (pure (points_comparator ltA a b) : StateT σ (Except E) Bool) := rfl

theorem maxima_comparatorE_pure (ltA : A → A → Bool) (ltV : V → V → Bool) :
    maxima_comparatorE
      ({ ltA := fun a b => pure (ltA a b), ltV := fun a b => pure (ltV a b),
         alloc := pure () } : comparison_ops σ E A V) =
      fun a b => (pure (maxima_comparator ltA ltV a b) : StateT σ (Except E) Bool) := by
  funext a b c
  simp only [maxima_comparatorE, maxima_comparator, bind, StateT.bind,
    Except.bind, pure, StateT.pure, Except.pure]
  cases ltV a.value b.value <;> cases ltV b.value a.value <;> rfl

theorem pure_ops_points_find (ltA : A → A → Bool) (ltV : V → V → Bool)
    (l : List (point_type A V)) (k : point_type A V) (c : σ) :
    (pure_ops ltA ltV : throwing_ops σ E A V).points.find l k c =
      .ok (multiset_find (points_comparator ltA) l k, c) := by
  simp only [pure_ops, with_scan, scan_multiset, points_comparatorE_pure]
  exact multiset_findE_pure _ _ _ _

theorem pure_ops_points_upper_bound (ltA : A → A → Bool) (ltV : V → V → Bool)
    (l : List (point_type A V)) (k : point_type A V) (c : σ) :
    (pure_ops ltA ltV : throwing_ops σ E A V).points.upper_bound l k c =
      .ok (multiset_upper_bound (points_comparator ltA) l k, c) := by
  simp only [pure_ops, with_scan, scan_multiset, points_comparatorE_pure]
  exact multiset_upper_boundE_pure _ _ _ _

theorem pure_ops_points_insert (ltA : A → A → Bool) (ltV : V → V → Bool)
    (l : List (point_type A V)) (x : point_type A V) (c : σ) :
    (pure_ops ltA ltV : throwing_ops σ E A V).points.insert l x c =
      .ok (multiset_insert (points_comparator ltA) l x, c) := by
  simp only [pure_ops, with_scan, scan_multiset, points_comparatorE_pure]
  exact multiset_insertE_pure _ _ _ _

theorem pure_ops_maxima_find (ltA : A → A → Bool) (ltV : V → V → Bool)
    (l : List (point_type A V)) (k : point_type A V) (c : σ) :
    (pure_ops ltA ltV : throwing_ops σ E A V).maxima.find l k c =
      .ok (multiset_find (maxima_comparator ltA ltV) l k, c) := by
  simp only [pure_ops, with_scan, scan_multiset, maxima_comparatorE_pure]
  exact multiset_findE_pure _ _ _ _

theorem pure_ops_maxima_insert (ltA : A → A → Bool) (ltV : V → V → Bool)
    (l : List (point_type A V)) (x : point_type A V) (c : σ) :
    (pure_ops ltA ltV : throwing_ops σ E A V).maxima.insert l x c =
      .ok (multiset_insert (maxima_comparator ltA ltV) l x, c) := by
  simp only [pure_ops, with_scan, scan_multiset, maxima_comparatorE_pure]
  exact multiset_insertE_pure _ _ _ _

theorem is_maximumE_pure (ltA : A → A → Bool) (ltV : V → V → Bool)
    (l m r : point_type A V) (c : σ) :
    is_maximumE (pure_ops ltA ltV : throwing_ops σ E A V) l m r c =
      .ok (is_maximum ltV l m r, c) := by
  simp only [is_maximumE, is_maximum, pure_ops, with_scan, bind, StateT.bind, Except.bind,
    pure, StateT.pure, Except.pure]
  cases ltV m.value l.value <;> rfl

theorem point_typeE_pure (ltA : A → A → Bool) (ltV : V → V → Bool) (a : A) (v : V) (c : σ) :
    point_typeE (pure_ops ltA ltV : throwing_ops σ E A V) a v c = .ok (⟨a, v⟩, c) := rfl

theorem findE_pure (ltA : A → A → Bool) (ltV : V → V → Bool) (s : FunctionMaxima A V)
    (a : A) (c : σ) :
    findE (pure_ops ltA ltV : throwing_ops σ E A V) s a c = .ok (find ltA s a, c) := by
  obtain ⟨pts, mx⟩ := s
  cases pts with
  | nil => rfl
  | cons p t =>
    simp only [findE, find, bind, StateT.bind, Except.bind, point_typeE_pure]
    exact pure_ops_points_find _ _ _ _ _

end FunctionMaxima

namespace FunctionMaxima

variable {α A V σ E : Type}

theorem pure_ops_alloc (ltA : A → A → Bool) (ltV : V → V → Bool) (c : σ) :
    (pure_ops ltA ltV : throwing_ops σ E A V).alloc c = .ok ((), c) := rfl

theorem ite_stateT_run {β : Type} (b : Bool) (x y : StateT σ (Except E) β) (c : σ) :
    (if b = true then x else y) c = if b = true then x c else y c := by
  cases b <;> rfl

/-- Without exceptions the part of `set_value` before the `try` block gives the local
variables of the method that does not throw. -/
theorem set_value_localsE_pure (ltA : A → A → Bool) (ltV : V → V → Bool)
    (s : FunctionMaxima A V) (a : A) (v : V) (c : σ) :
    set_value_localsE (pure_ops ltA ltV : throwing_ops σ E A V) s a v c =
      .ok (set_value_locals ltA ltV s a v, c) := by
  simp only [set_value_localsE, set_value_locals, bind, StateT.bind, Except.bind,
    pure_ops_alloc, point_typeE_pure, pure_ops_points_find, pure_ops_points_upper_bound,
    pure_ops_maxima_find, ite_stateT_run, is_maximumE_pure]
  generalize multiset_find (points_comparator ltA) s.points ⟨a, v⟩ = o
  generalize multiset_upper_bound (points_comparator ltA) s.points ⟨a, v⟩ = r
  generalize (if o ≠ s.points.length then o else r) = l0
  by_cases h1 : o = s.points.length <;> by_cases h2 : l0 = 0 <;>
    by_cases h3 : r = s.points.length <;>
    simp only [h1, h2, h3, ne_eq, not_true_eq_false, not_false_eq_true, decide_True,
      decide_False, if_true, if_false, Bool.false_eq_true, pure, StateT.pure, Except.pure,
      Bool.true_and, Bool.false_and, pure_ops_maxima_find, is_maximumE_pure]

/-- Without exceptions the part of `erase` before the `try` block gives the local
variables of the method that does not throw. -/
theorem erase_localsE_pure (ltA : A → A → Bool) (ltV : V → V → Bool)
    (s : FunctionMaxima A V) (mid_it : Nat) (mid : point_type A V) (c : σ) :
    erase_localsE (pure_ops ltA ltV : throwing_ops σ E A V) s mid_it mid c =
      .ok (erase_locals ltA ltV s mid_it mid, c) := by
  simp only [erase_localsE, erase_locals, bind, StateT.bind, Except.bind,
    pure_ops_alloc, pure_ops_points_find, pure_ops_points_upper_bound,
    pure_ops_maxima_find, ite_stateT_run, is_maximumE_pure]
  generalize multiset_upper_bound (points_comparator ltA) s.points mid = r
  generalize (if mid_it ≠ s.points.length then mid_it else r) = l0
  by_cases h2 : l0 = 0 <;> by_cases h3 : r = s.points.length <;>
    simp only [h2, h3, ne_eq, not_true_eq_false, not_false_eq_true, decide_True,
      decide_False, if_true, if_false, Bool.false_eq_true, pure, StateT.pure, Except.pure,
      Bool.true_and, Bool.false_and, pure_ops_maxima_find, is_maximumE_pure]

theorem insert_maxima_pure (ltA : A → A → Bool) (ltV : V → V → Bool) (t : try_state A V)
    (x : point_type A V) (c : σ) :
    ∃ t1 it, t.insert_maxima (pure_ops ltA ltV : throwing_ops σ E A V) x c =
        .ok ((t1, it), c) ∧
      t1.mx = t.mx.insert ltA ltV x ∧ t1.points = t.points ∧
      t1.old_mid_it = t.old_mid_it := by
  refine ⟨{ t.relocate (after_insert
      (multiset_upper_bound (maxima_comparator ltA ltV) t.maxima x)) with
      maxima := insert_at t.maxima
        (multiset_upper_bound (maxima_comparator ltA ltV) t.maxima x) x },
    multiset_upper_bound (maxima_comparator ltA ltV) t.maxima x, ?_, ?_, ?_, ?_⟩
  · simp only [try_state.insert_maxima, bind, StateT.bind, Except.bind,
      pure_ops_maxima_insert]
    rfl
  · rfl
  · rfl
  · rfl

theorem erase_maxima_mx (t : try_state A V) (it : Nat) :
    (t.erase_maxima it).mx = t.mx.erase it ∧ (t.erase_maxima it).points = t.points ∧
      (t.erase_maxima it).old_mid_it = t.old_mid_it :=
  ⟨rfl, rfl, rfl⟩

theorem try_insert_left_pure (ltA : A → A → Bool) (ltV : V → V → Bool) (x : locals A V)
    (t : try_state A V) (c : σ) :
    ∃ t1, try_insert_left (pure_ops ltA ltV : throwing_ops σ E A V) x t c = .ok (t1, c) ∧
      t1.mx = (if x.exists_left && x.is_max_left && !x.is_in_left then
        t.mx.insert ltA ltV x.left else t.mx) ∧
      t1.points = t.points ∧ t1.old_mid_it = t.old_mid_it := by
  unfold try_insert_left
  split
  · obtain ⟨t1, it, h1, h2, h3, h4⟩ := @insert_maxima_pure A V σ E ltA ltV t x.left c
    refine ⟨{ t1 with insert_max_it_left := it, insert_max_left := true }, ?_, ?_, ?_, ?_⟩
    · simp only [bind, StateT.bind, Except.bind, h1]
      rfl
    · exact h2
    · exact h3
    · exact h4
  · exact ⟨t, rfl, rfl, rfl, rfl⟩

theorem try_insert_right_pure (ltA : A → A → Bool) (ltV : V → V → Bool) (x : locals A V)
    (t : try_state A V) (c : σ) :
    ∃ t1, try_insert_right (pure_ops ltA ltV : throwing_ops σ E A V) x t c = .ok (t1, c) ∧
      t1.mx = (if x.exists_right && x.is_max_right && !x.is_in_right then
        t.mx.insert ltA ltV x.right else t.mx) ∧
      t1.points = t.points ∧ t1.old_mid_it = t.old_mid_it := by
  unfold try_insert_right
  split
  · obtain ⟨t1, it, h1, h2, h3, h4⟩ :=
      @insert_maxima_pure A V σ E ltA ltV t x.right c
    refine ⟨{ t1 with insert_max_it_right := it, insert_max_right := true }, ?_, ?_, ?_, ?_⟩
    · simp only [bind, StateT.bind, Except.bind, h1]
      rfl
    · exact h2
    · exact h3
    · exact h4
  · exact ⟨t, rfl, rfl, rfl, rfl⟩

theorem try_insert_new_pure (ltA : A → A → Bool) (ltV : V → V → Bool) (x : locals A V)
    (new_mid : point_type A V) (t : try_state A V) (c : σ) :
    ∃ t1, try_insert_new (pure_ops ltA ltV : throwing_ops σ E A V) x new_mid t c =
        .ok (t1, c) ∧
      t1.mx = (if x.is_max_new then t.mx.insert ltA ltV new_mid else t.mx) ∧
      t1.points = t.points ∧ t1.old_mid_it = t.old_mid_it := by
  unfold try_insert_new
  split
  · obtain ⟨t1, it, h1, h2, h3, h4⟩ :=
      @insert_maxima_pure A V σ E ltA ltV t new_mid c
    refine ⟨{ t1 with insert_max_it_new := it, insert_max_new := true }, ?_, ?_, ?_, ?_⟩
    · simp only [bind, StateT.bind, Except.bind, h1]
      rfl
    · exact h2
    · exact h3
    · exact h4
  · exact ⟨t, rfl, rfl, rfl, rfl⟩

theorem try_insert_point_pure (ltA : A → A → Bool) (ltV : V → V → Bool)
    (new_mid : point_type A V) (t : try_state A V) (c : σ) :
    ∃ t1, try_insert_point (pure_ops ltA ltV : throwing_ops σ E A V) new_mid t c =
        .ok (t1, c) ∧
      t1.mx = t.mx ∧
      t1.points = (multiset_insert (points_comparator ltA) t.points new_mid).1 ∧
      t1.old_mid_it =
        after_insert (multiset_insert (points_comparator ltA) t.points new_mid).2
          t.old_mid_it := by
  refine ⟨{ t with
      points := (multiset_insert (points_comparator ltA) t.points new_mid).1
      old_mid_it :=
        after_insert (multiset_insert (points_comparator ltA) t.points new_mid).2
          t.old_mid_it }, ?_, ?_, ?_, ?_⟩
  · simp only [try_insert_point, bind, StateT.bind, Except.bind, pure_ops_points_insert]
    rfl
  · rfl
  · rfl
  · rfl

/-- The removals of `set_value` after a `try` block whose four statements have made their
insertions give the state of the method that does not throw. -/
theorem set_value_removals_eq (ltA : A → A → Bool) (ltV : V → V → Bool)
    (s : FunctionMaxima A V) (a : A) (v : V) (t1 t2 t3 t4 : try_state A V)
    (m1 : t1.mx = (if (set_value_locals ltA ltV s a v).exists_left &&
        (set_value_locals ltA ltV s a v).is_max_left &&
        !(set_value_locals ltA ltV s a v).is_in_left then
      (try_start s (set_value_locals ltA ltV s a v)).mx.insert ltA ltV
        (set_value_locals ltA ltV s a v).left
      else (try_start s (set_value_locals ltA ltV s a v)).mx))
    (p1 : t1.points = (try_start s (set_value_locals ltA ltV s a v)).points)
    (o1 : t1.old_mid_it = (try_start s (set_value_locals ltA ltV s a v)).old_mid_it)
    (m2 : t2.mx = (if (set_value_locals ltA ltV s a v).exists_right &&
        (set_value_locals ltA ltV s a v).is_max_right &&
        !(set_value_locals ltA ltV s a v).is_in_right then
      t1.mx.insert ltA ltV (set_value_locals ltA ltV s a v).right else t1.mx))
    (p2 : t2.points = t1.points) (o2 : t2.old_mid_it = t1.old_mid_it)
    (m3 : t3.mx = (if (set_value_locals ltA ltV s a v).is_max_new then
      t2.mx.insert ltA ltV ⟨a, v⟩ else t2.mx))
    (p3 : t3.points = t2.points) (o3 : t3.old_mid_it = t2.old_mid_it)
    (m4 : t4.mx = t3.mx)
    (p4 : t4.points = (multiset_insert (points_comparator ltA) t3.points ⟨a, v⟩).1)
    (o4 : t4.old_mid_it =
      after_insert (multiset_insert (points_comparator ltA) t3.points ⟨a, v⟩).2
        t3.old_mid_it) :
    set_value_removals (set_value_locals ltA ltV s a v) t4 = set_value ltA ltV s a v := by
  rw [m3, m2, m1] at m4
  rw [p3, p2, p1] at p4
  rw [p3, p2, p1, o3, o2, o1] at o4
  have e0 : (try_start s (set_value_locals ltA ltV s a v)).mx =
      ⟨s.maxima, (set_value_locals ltA ltV s a v).max_it_old,
        (set_value_locals ltA ltV s a v).max_it_left,
        (set_value_locals ltA ltV s a v).max_it_right⟩ := rfl
  rw [e0] at m4
  unfold set_value set_value_removals
  simp only
  generalize hc1 : ((set_value_locals ltA ltV s a v).exists_left &&
    !(set_value_locals ltA ltV s a v).is_max_left &&
    (set_value_locals ltA ltV s a v).is_in_left) = c1
  generalize hc2 : ((set_value_locals ltA ltV s a v).exists_right &&
    !(set_value_locals ltA ltV s a v).is_max_right &&
    (set_value_locals ltA ltV s a v).is_in_right) = c2
  generalize hc3 : (set_value_locals ltA ltV s a v).exists_old_mid = c3
  generalize hc4 : (set_value_locals ltA ltV s a v).is_in_old = c4
  rw [← m4]
  have e1 : (try_start s (set_value_locals ltA ltV s a v)).points = s.points := rfl
  have e2 : (try_start s (set_value_locals ltA ltV s a v)).old_mid_it =
      (set_value_locals ltA ltV s a v).old_mid_it := rfl
  rw [e1] at p4
  rw [e1, e2] at o4
  rw [← p4, ← o4]
  cases c1 <;> cases c2 <;> cases c3 <;> cases c4 <;> rfl

/-- The removals of `erase` after a `try` block whose two statements have made their
insertions give the state of the method that does not throw. -/
theorem erase_removals_eq (ltA : A → A → Bool) (ltV : V → V → Bool)
    (s : FunctionMaxima A V) (a : A) (mid : point_type A V)
    (hm : s.points[find ltA s a]? = some mid) (t1 t2 : try_state A V)
    (m1 : t1.mx = (if (erase_locals ltA ltV s (find ltA s a) mid).exists_left &&
        (erase_locals ltA ltV s (find ltA s a) mid).is_max_left &&
        !(erase_locals ltA ltV s (find ltA s a) mid).is_in_left then
      (try_start s (erase_locals ltA ltV s (find ltA s a) mid)).mx.insert ltA ltV
        (erase_locals ltA ltV s (find ltA s a) mid).left
      else (try_start s (erase_locals ltA ltV s (find ltA s a) mid)).mx))
    (p1 : t1.points = (try_start s (erase_locals ltA ltV s (find ltA s a) mid)).points)
    (o1 : t1.old_mid_it =
      (try_start s (erase_locals ltA ltV s (find ltA s a) mid)).old_mid_it)
    (m2 : t2.mx = (if (erase_locals ltA ltV s (find ltA s a) mid).exists_right &&
        (erase_locals ltA ltV s (find ltA s a) mid).is_max_right &&
        !(erase_locals ltA ltV s (find ltA s a) mid).is_in_right then
      t1.mx.insert ltA ltV (erase_locals ltA ltV s (find ltA s a) mid).right else t1.mx))
    (p2 : t2.points = t1.points) (o2 : t2.old_mid_it = t1.old_mid_it) :
    erase_removals (erase_locals ltA ltV s (find ltA s a) mid) t2 = erase ltA ltV s a := by
  unfold erase
  simp only [hm]
  rw [m1] at m2
  rw [p1] at p2
  rw [o1] at o2
  have e0 : (try_start s (erase_locals ltA ltV s (find ltA s a) mid)).mx =
      ⟨s.maxima, (erase_locals ltA ltV s (find ltA s a) mid).max_it_old,
        (erase_locals ltA ltV s (find ltA s a) mid).max_it_left,
        (erase_locals ltA ltV s (find ltA s a) mid).max_it_right⟩ := rfl
  have e1 : (try_start s (erase_locals ltA ltV s (find ltA s a) mid)).points =
      s.points := rfl
  have e2 : (try_start s (erase_locals ltA ltV s (find ltA s a) mid)).old_mid_it =
      find ltA s a := rfl
  rw [e0] at m2
  rw [e1] at p2
  rw [e2] at o2
  unfold erase_removals
  simp only
  generalize hc1 : ((erase_locals ltA ltV s (find ltA s a) mid).exists_left &&
    !(erase_locals ltA ltV s (find ltA s a) mid).is_max_left &&
    (erase_locals ltA ltV s (find ltA s a) mid).is_in_left) = c1
  generalize hc2 : ((erase_locals ltA ltV s (find ltA s a) mid).exists_right &&
    !(erase_locals ltA ltV s (find ltA s a) mid).is_max_right &&
    (erase_locals ltA ltV s (find ltA s a) mid).is_in_right) = c2
  generalize hc4 : (erase_locals ltA ltV s (find ltA s a) mid).is_in_old = c4
  rw [← m2, ← p2, ← o2]
  cases c1 <;> cases c2 <;> cases c4 <;> rfl

/-- Without exceptions `set_value` returns, with the state that the method that does not
throw gives. -/
theorem set_valueE_pure (ltA : A → A → Bool) (ltV : V → V → Bool)
    (s : FunctionMaxima A V) (a : A) (v : V) (c : σ) :
    set_valueE (pure_ops ltA ltV : throwing_ops σ E A V) s a v c =
      .returned (set_value ltA ltV s a v) c := by
  obtain ⟨t1, h1, m1, p1, o1⟩ := @try_insert_left_pure A V σ E ltA ltV
    (set_value_locals ltA ltV s a v) (try_start s (set_value_locals ltA ltV s a v)) c
  obtain ⟨t2, h2, m2, p2, o2⟩ := @try_insert_right_pure A V σ E ltA ltV
    (set_value_locals ltA ltV s a v) t1 c
  obtain ⟨t3, h3, m3, p3, o3⟩ := @try_insert_new_pure A V σ E ltA ltV
    (set_value_locals ltA ltV s a v) ⟨a, v⟩ t2 c
  obtain ⟨t4, h4, m4, p4, o4⟩ := @try_insert_point_pure A V σ E ltA ltV ⟨a, v⟩ t3 c
  simp only [set_valueE, set_value_localsE_pure, run_try, h1, h2, h3, h4]
  rw [set_value_removals_eq ltA ltV s a v t1 t2 t3 t4 m1 p1 o1 m2 p2 o2 m3 p3 o3 m4 p4 o4]

/-- Without exceptions `erase` returns, with the state that the method that does not throw
gives. -/
theorem eraseE_pure (ltA : A → A → Bool) (ltV : V → V → Bool)
    (s : FunctionMaxima A V) (a : A) (c : σ) :
    eraseE (pure_ops ltA ltV : throwing_ops σ E A V) s a c =
      .returned (erase ltA ltV s a) c := by
  unfold eraseE
  simp only [findE_pure]
  cases hm : s.points[find ltA s a]? with
  | none =>
    unfold erase
    simp only [hm]
  | some mid =>
    simp only
    obtain ⟨t1, h1, m1, p1, o1⟩ := @try_insert_left_pure A V σ E ltA ltV
      (erase_locals ltA ltV s (find ltA s a) mid)
      (try_start s (erase_locals ltA ltV s (find ltA s a) mid)) c
    obtain ⟨t2, h2, m2, p2, o2⟩ := @try_insert_right_pure A V σ E ltA ltV
      (erase_locals ltA ltV s (find ltA s a) mid) t1 c
    simp only [erase_localsE_pure, run_try, h1, h2]
    rw [erase_removals_eq ltA ltV s a mid hm t1 t2 m1 p1 o1 m2 p2 o2]

end FunctionMaxima

namespace FunctionMaxima

variable {α A V : Type}

/-! ## Well-formed states are determined by their domain -/

section determined

variable {ltA : A → A → Bool} {ltV : V → V → Bool}

/-- Two sequences with the same elements, both strictly increasing for a strict weak
order, are the same sequence. -/
theorem eq_of_perm_of_increasing {comp : α → α → Bool} (h : StrictWeakOrder comp)
    {l1 l2 : List α} (hp : l1.Perm l2)
    (h1 : l1.Pairwise (fun p q => comp p q = true))
    (h2 : l2.Pairwise (fun p q => comp p q = true)) : l1 = l2 := by
  haveI : IsAntisymm α (fun p q => comp p q = true) :=
    ⟨fun a b hab hba => by
      have := h.asymm hab
      rw [hba] at this
      exact absurd this (by decide)⟩
  exact List.eq_of_perm_of_sorted hp h1 h2

/-- A well-formed state is determined by its domain. -/
theorem WellFormed.eq_of_points (hA : StrictWeakOrder ltA) (hV : StrictWeakOrder ltV)
    {s t : FunctionMaxima A V} (hs : WellFormed ltA ltV s) (ht : WellFormed ltA ltV t)
    (e : s.points = t.points) : s = t := by
  have hm : s.maxima = t.maxima := by
    apply eq_of_perm_of_increasing (maxima_comparator_swo hA hV) _ hs.maxima_sorted
      ht.maxima_sorted
    refine (hs.perm hA hV).trans ?_
    rw [e]
    exact (ht.perm hA hV).symm
  cases s
  cases t
  simp only at e hm
  rw [e, hm]

/-- A non-empty domain has a point whose value is not less than any value. -/
theorem exists_greatest (hV : StrictWeakOrder ltV) (pts : List (point_type A V))
    (hne : pts ≠ []) : ∃ p ∈ pts, ∀ q ∈ pts, ltV p.value q.value = false := by
  induction pts with
  | nil => exact absurd rfl hne
  | cons x rest ih =>
    by_cases hr : rest = []
    · subst hr
      refine ⟨x, by simp, ?_⟩
      intro q hq
      rw [List.mem_singleton] at hq
      subst hq
      exact hV.irrefl _
    · obtain ⟨p, hp, hmax⟩ := ih hr
      cases hxp : ltV p.value x.value with
      | false =>
        refine ⟨p, List.mem_cons_of_mem _ hp, ?_⟩
        intro q hq
        rcases List.mem_cons.1 hq with rfl | hq
        · exact hxp
        · exact hmax q hq
      | true =>
        refine ⟨x, by simp, ?_⟩
        intro q hq
        rcases List.mem_cons.1 hq with rfl | hq
        · exact hV.irrefl _
        · exact hV.not_lt_trans (hV.asymm hxp) (hmax q hq)

/-- A point that no value exceeds is a local maximum. -/
theorem mem_local_maxima_of_greatest (pts : List (point_type A V)) (p : point_type A V)
    (hp : p ∈ pts) (hmax : ∀ q ∈ pts, ltV p.value q.value = false) :
    p ∈ local_maxima_between ltV none pts none := by
  rw [mem_local_maxima_iff]
  obtain ⟨i, hi⟩ := List.mem_iff_getElem?.1 hp
  refine ⟨i, hi, ?_⟩
  have hnb : ∀ n : Option (point_type A V), (∀ q, n = some q → q ∈ pts) →
      not_below ltV p n = true := by
    intro n hn
    cases n with
    | none => rfl
    | some q =>
      simp only [not_below, Bool.not_eq_true']
      exact hmax q (hn q rfl)
  unfold is_local_maximum_at
  rw [hi]
  simp only [Bool.and_eq_true]
  constructor
  · apply hnb
    intro q hq
    unfold left_neighbour at hq
    split at hq
    · exact absurd hq (by simp)
    · exact List.mem_iff_getElem?.2 ⟨_, hq⟩
  · apply hnb
    intro q hq
    exact List.mem_iff_getElem?.2 ⟨_, hq⟩

end determined

end FunctionMaxima

namespace FunctionMaxima

variable {α A V : Type}

/-! ## Entries at an argument; a mutation followed by another -/

section entries

variable {ltA : A → A → Bool} {ltV : V → V → Bool}

theorem entries_at_append (pts qts : List (point_type A V)) (a : A) :
    entries_at ltA (pts ++ qts) a = entries_at ltA pts a ++ entries_at ltA qts a := by
  simp [entries_at]

theorem entries_at_eq_nil (pts : List (point_type A V)) (a : A)
    (h : ∀ x ∈ pts, ltA x.arg a = true ∨ ltA a x.arg = true) : entries_at ltA pts a = [] := by
  unfold entries_at
  rw [List.filter_eq_nil_iff]
  intro x hx
  rcases h x hx with h1 | h1 <;> simp [h1]

theorem entries_at_eq_self (pts : List (point_type A V)) (a : A)
    (h : ∀ x ∈ pts, ltA x.arg a = false ∧ ltA a x.arg = false) :
    entries_at ltA pts a = pts := by
  unfold entries_at
  rw [List.filter_eq_self]
  intro x hx
  simp [(h x hx).1, (h x hx).2]

/-- The entries of a sorted domain at `a` are the middle part of its split around `a`. -/
theorem entries_at_split {pts : List (point_type A V)} {a : A}
    {L M R : List (point_type A V)} (h : SplitAt ltA pts a L M R) :
    entries_at ltA pts a = M := by
  rw [h.eq, entries_at_append, entries_at_append,
    entries_at_eq_nil L a (fun x hx => Or.inl (h.left x hx)),
    entries_at_eq_nil R a (fun x hx => Or.inr (h.right x hx)),
    entries_at_eq_self M a h.mid]
  simp

/-- The split of the domain after `set_value(a, v)`. -/
theorem splitAt_set_value (hA : StrictWeakOrder ltA) (ltV : V → V → Bool)
    (s : FunctionMaxima A V) (a : A) (v : V) {L M R : List (point_type A V)}
    (h : SplitAt ltA s.points a L M R) :
    SplitAt ltA (set_value ltA ltV s a v).points a L [⟨a, v⟩] R := by
  refine ⟨by simp [set_value_points hA ltV s a v h], h.left, ?_, h.right, by simp⟩
  intro x hx
  rw [List.mem_singleton] at hx
  subst hx
  exact ⟨hA.irrefl a, hA.irrefl a⟩

/-- A split around an argument that no domain point has is a split in two. -/
theorem SplitAt.mid_nil {pts : List (point_type A V)} {a : A}
    {L M R : List (point_type A V)} (h : SplitAt ltA pts a L M R)
    (ha : ∀ p ∈ pts, ¬ (ltA p.arg a = false ∧ ltA a p.arg = false)) : M = [] := by
  rcases h.mid_cases with hM | ⟨m, hM⟩
  · exact hM
  · subst hM
    have hm : m ∈ pts := by
      rw [h.eq]
      simp
    exact absurd (h.mid m (by simp)) (ha m hm)

/-- In a well-formed state `maxima` has at most as many entries at `a` as the domain. -/
theorem WellFormed.entries_at_le (hA : StrictWeakOrder ltA) (hV : StrictWeakOrder ltV)
    {s : FunctionMaxima A V} (h : WellFormed ltA ltV s) (a : A) :
    (entries_at ltA s.maxima a).length ≤ (entries_at ltA s.points a).length := by
  have hsub := local_maxima_between_sublist ltV none none s.points
  have hperm := h.perm hA hV
  unfold entries_at
  rw [(hperm.filter _).length_eq]
  exact (hsub.filter _).length_le

end entries

end FunctionMaxima

namespace FunctionMaxima

variable {α A V : Type}

/-! ## Lookup in the domain as a search for the equivalent argument -/

theorem findIdx_split (P : α → Bool) (L R : List α) (m : α)
    (hL : ∀ x ∈ L, P x = false) (hm : P m = true) :
    (L ++ m :: R).findIdx P = L.length := by
  rw [List.findIdx_append, List.findIdx_eq_length.2 hL, List.findIdx_cons, hm]
  simp

/-- The first index at which `P` holds in `L ++ X ++ R`, when `P` fails throughout `X`,
and the element there. -/
theorem findIdx_three (P : α → Bool) (L X R : List α) (hX : ∀ x ∈ X, P x = false) :
    (L ++ X ++ R).findIdx P =
      (if L.findIdx P < L.length then L.findIdx P
        else L.length + X.length + R.findIdx P) ∧
    (L ++ X ++ R)[(L ++ X ++ R).findIdx P]? =
      (if L.findIdx P < L.length then L[L.findIdx P]? else R[R.findIdx P]?) := by
  have h1 : (L ++ X).findIdx P =
      if L.findIdx P < L.length then L.findIdx P else L.length + X.length := by
    rw [List.findIdx_append, List.findIdx_eq_length.2 hX]
    split <;> omega
  have h2 : (L ++ X ++ R).findIdx P =
      (if L.findIdx P < L.length then L.findIdx P
        else L.length + X.length + R.findIdx P) := by
    rw [List.findIdx_append, h1, List.length_append]
    split_ifs <;> omega
  refine ⟨h2, ?_⟩
  rw [h2]
  by_cases hi : L.findIdx P < L.length
  · rw [if_pos hi, if_pos hi, List.append_assoc]
    exact getElem?_append_lt L (X ++ R) _ hi
  · rw [if_neg hi, if_neg hi]
    have e : L.length + X.length = (L ++ X).length := by simp
    rw [e]
    exact getElem?_append_add (L ++ X) R _

section lookup

variable {ltA : A → A → Bool}

/-- In a sorted domain `find(b)` is the first index with an argument equivalent to `b`,
or `end()`. -/
theorem find_eq_findIdx (hA : StrictWeakOrder ltA) {s : FunctionMaxima A V}
    (hs : s.points.Pairwise (fun p q => ltA p.arg q.arg = true)) (b : A) :
    find ltA s b = s.points.findIdx (fun p => !(ltA p.arg b) && !(ltA b p.arg)) := by
  obtain ⟨L, M, R, h⟩ := splitAt_exists hA s.points hs b
  have hL : ∀ x ∈ L, (!(ltA x.arg b) && !(ltA b x.arg)) = false := by
    intro x hx
    simp [h.left x hx]
  have hR : ∀ x ∈ R, (!(ltA x.arg b) && !(ltA b x.arg)) = false := by
    intro x hx
    simp [h.right x hx]
  rcases h.mid_cases with hM | ⟨m, hM⟩
  · subst hM
    rw [find_absent hA h]
    symm
    rw [List.findIdx_eq_length]
    intro x hx
    rw [h.eq] at hx
    simp only [List.append_nil, List.mem_append] at hx
    rcases hx with hx | hx
    · exact hL x hx
    · exact hR x hx
  · subst hM
    rw [find_present h]
    have e : s.points = L ++ m :: R := by simpa using h.eq
    rw [e]
    symm
    apply findIdx_split _ L R m hL
    have := h.mid m (by simp)
    simp [this.1, this.2]

/-- The iterator that `find(b)` gives in a sorted domain `L ++ X ++ R` whose part `X` has
no argument equivalent to `b`, and the point it points to. -/
theorem find_three (hA : StrictWeakOrder ltA) {s : FunctionMaxima A V}
    (hs : s.points.Pairwise (fun p q => ltA p.arg q.arg = true)) (b : A)
    {L X R : List (point_type A V)} (e : s.points = L ++ X ++ R)
    (hX : ∀ x ∈ X, ¬ (ltA x.arg b = false ∧ ltA b x.arg = false)) :
    find ltA s b =
      (if L.findIdx (fun p => !(ltA p.arg b) && !(ltA b p.arg)) < L.length
        then L.findIdx (fun p => !(ltA p.arg b) && !(ltA b p.arg))
        else L.length + X.length +
          R.findIdx (fun p => !(ltA p.arg b) && !(ltA b p.arg))) ∧
    s.points[find ltA s b]? =
      (if L.findIdx (fun p => !(ltA p.arg b) && !(ltA b p.arg)) < L.length
        then L[L.findIdx (fun p => !(ltA p.arg b) && !(ltA b p.arg))]?
        else R[R.findIdx (fun p => !(ltA p.arg b) && !(ltA b p.arg))]?) := by
  have hX2 : ∀ x ∈ X, (!(ltA x.arg b) && !(ltA b x.arg)) = false := by
    intro x hx
    have := hX x hx
    cases h1 : ltA x.arg b <;> cases h2 : ltA b x.arg <;> simp_all
  have h3 := findIdx_three (fun p : point_type A V => !(ltA p.arg b) && !(ltA b p.arg))
    L X R hX2
  rw [find_eq_findIdx hA hs b, e]
  exact h3

/-- An argument equivalent to `a` is not equivalent to `b` when `a` is not. -/
theorem not_equiv_of_equiv (hA : StrictWeakOrder ltA) {a b c : A}
    (hac : ltA c a = false ∧ ltA a c = false)
    (hab : ¬ (ltA a b = false ∧ ltA b a = false)) :
    ¬ (ltA c b = false ∧ ltA b c = false) := by
  intro hc
  apply hab
  exact ⟨hA.equiv_trans a c b hac.2 hac.1 hc.1 hc.2,
    hA.equiv_trans b c a hc.2 hc.1 hac.1 hac.2⟩

end lookup

end FunctionMaxima

namespace FunctionMaxima

variable {α A V : Type}

/-! ## What a mutation leaves alone in `maxima` -/

/-- When `find` does not give `end()`, it gives the iterator to an element equivalent to
the key; the sequence need not be sorted for that. -/
theorem multiset_find_ne_end (comp : α → α → Bool) (l : List α) (k : α)
    (h : multiset_find comp l k ≠ l.length) :
    ∃ y, l[multiset_find comp l k]? = some y ∧ comp y k = false ∧ comp k y = false := by
  unfold multiset_find at h ⊢
  simp only at h ⊢
  cases hj : l[multiset_lower_bound comp l k]? with
  | none =>
    rw [hj] at h
    exact absurd rfl h
  | some y =>
    rw [hj] at h
    simp only at h ⊢
    cases hc : comp k y with
    | true =>
      rw [hc] at h
      exact absurd rfl h
    | false =>
      simp only [Bool.false_eq_true, if_false]
      exact ⟨y, hj, (multiset_lower_bound_spec comp l k y hj).1, hc⟩

theorem mem_eraseIdx_of_ne (l : List α) (k : Nat) (y p : α) (h : l[k]? = some y)
    (hne : p ≠ y) : p ∈ l.eraseIdx k ↔ p ∈ l := by
  have hperm := perm_cons_eraseIdx l k y h
  rw [hperm.mem_iff, List.mem_cons]
  constructor
  · exact fun hp => Or.inr hp
  · rintro (hp | hp)
    · exact absurd hp hne
    · exact hp

section untouched

variable {ltA : A → A → Bool} {ltV : V → V → Bool}

theorem SplitAt.lt_left_mid (hA : StrictWeakOrder ltA) {pts : List (point_type A V)} {a : A}
    {L M R : List (point_type A V)} (h : SplitAt ltA pts a L M R) {p q : point_type A V}
    (hp : p ∈ L) (hq : q ∈ M) : ltA p.arg q.arg = true :=
  hA.lt_of_lt_of_not_lt (h.left p hp) (h.mid q hq).1

theorem SplitAt.lt_left_right (hA : StrictWeakOrder ltA) {pts : List (point_type A V)}
    {a : A} {L M R : List (point_type A V)} (h : SplitAt ltA pts a L M R)
    {p q : point_type A V} (hp : p ∈ L) (hq : q ∈ R) : ltA p.arg q.arg = true :=
  hA.trans _ _ _ (h.left p hp) (h.right q hq)

theorem SplitAt.lt_mid_right (hA : StrictWeakOrder ltA) {pts : List (point_type A V)}
    {a : A} {L M R : List (point_type A V)} (h : SplitAt ltA pts a L M R)
    {p q : point_type A V} (hp : p ∈ M) (hq : q ∈ R) : ltA p.arg q.arg = true :=
  hA.lt_of_not_lt_of_lt (h.mid p hp).2 (h.right q hq)

/-- Two arguments of which one is less than the other are not both equivalent to a
third. -/
theorem not_both_equiv (hA : StrictWeakOrder ltA) {a b y : A} (hab : ltA a b = true)
    (h1 : ltA y a = false ∧ ltA a y = false) (h2 : ltA y b = false ∧ ltA b y = false) :
    False := by
  have := hA.equiv_trans a y b h1.2 h1.1 h2.1 h2.2
  rw [hab] at this
  exact absurd this (by decide)

theorem Untouched.keep_insert (ltV : V → V → Bool) {m : mx_state A V}
    {M0 : List (point_type A V)} {p left old right : point_type A V} {sL sO sR : Bool}
    (h : Untouched ltA m M0 p left old right sL sO sR) (c : Bool) (x : point_type A V)
    (hx : c = true → p ≠ x) :
    Untouched ltA (if c = true then m.insert ltA ltV x else m) M0 p left old right
      sL sO sR := by
  cases c with
  | false => exact h
  | true =>
    simp only [if_true]
    refine ⟨?_, ?_, ?_, ?_⟩
    · rw [mx_insert_maxima, mem_insert_at, ← h.mem]
      constructor
      · rintro (e | e)
        · exact absurd e (hx rfl)
        · exact e
      · exact fun e => Or.inr e
    · intro hs
      obtain ⟨y, hy, hy2⟩ := h.it_left hs
      exact ⟨y, (mx_insert_getElem? m x m.max_it_left).trans hy, hy2⟩
    · intro hs
      obtain ⟨y, hy, hy2⟩ := h.it_old hs
      exact ⟨y, (mx_insert_getElem? m x m.max_it_old).trans hy, hy2⟩
    · intro hs
      obtain ⟨y, hy, hy2⟩ := h.it_right hs
      exact ⟨y, (mx_insert_getElem? m x m.max_it_right).trans hy, hy2⟩

theorem Untouched.keep_erase_left (hA : StrictWeakOrder ltA) {m : mx_state A V}
    {M0 : List (point_type A V)} {p left old right : point_type A V} {sL sO sR : Bool}
    (h : Untouched ltA m M0 p left old right sL sO sR) (c : Bool)
    (hc : c = true → sL = true)
    (hp : c = true → ¬ (ltA p.arg left.arg = false ∧ ltA left.arg p.arg = false))
    (hO : c = true → sO = true → ltA left.arg old.arg = true)
    (hR : c = true → sR = true → ltA left.arg right.arg = true) :
    Untouched ltA (if c = true then m.erase m.max_it_left else m) M0 p left old right
      (sL && !c) sO sR := by
  cases c with
  | false => simpa using h
  | true =>
    simp only [if_true, Bool.not_true, Bool.and_false]
    obtain ⟨y, hy, hy2⟩ := h.it_left (hc rfl)
    refine ⟨?_, fun hs => absurd hs (by decide), ?_, ?_⟩
    · rw [← h.mem]
      apply mem_eraseIdx_of_ne m.maxima m.max_it_left y p hy
      intro e
      rw [e] at hp
      exact hp rfl hy2
    · intro hs
      obtain ⟨z, hz, hz2⟩ := h.it_old hs
      refine ⟨z, ?_, hz2⟩
      refine (getElem?_eraseIdx_after m.maxima m.max_it_left m.max_it_old ?_).trans hz
      intro e
      rw [e, hy] at hz
      cases hz
      exact not_both_equiv hA (hO rfl hs) hy2 hz2
    · intro hs
      obtain ⟨z, hz, hz2⟩ := h.it_right hs
      refine ⟨z, ?_, hz2⟩
      refine (getElem?_eraseIdx_after m.maxima m.max_it_left m.max_it_right ?_).trans hz
      intro e
      rw [e, hy] at hz
      cases hz
      exact not_both_equiv hA (hR rfl hs) hy2 hz2

theorem Untouched.keep_erase_right (hA : StrictWeakOrder ltA) {m : mx_state A V}
    {M0 : List (point_type A V)} {p left old right : point_type A V} {sL sO sR : Bool}
    (h : Untouched ltA m M0 p left old right sL sO sR) (c : Bool)
    (hc : c = true → sR = true)
    (hp : c = true → ¬ (ltA p.arg right.arg = false ∧ ltA right.arg p.arg = false))
    (hL : c = true → sL = true → ltA left.arg right.arg = true)
    (hO : c = true → sO = true → ltA old.arg right.arg = true) :
    Untouched ltA (if c = true then m.erase m.max_it_right else m) M0 p left old right
      sL sO (sR && !c) := by
  cases c with
  | false => simpa using h
  | true =>
    simp only [if_true, Bool.not_true, Bool.and_false]
    obtain ⟨y, hy, hy2⟩ := h.it_right (hc rfl)
    refine ⟨?_, ?_, ?_, fun hs => absurd hs (by decide)⟩
    · rw [← h.mem]
      apply mem_eraseIdx_of_ne m.maxima m.max_it_right y p hy
      intro e
      rw [e] at hp
      exact hp rfl hy2
    · intro hs
      obtain ⟨z, hz, hz2⟩ := h.it_left hs
      refine ⟨z, ?_, hz2⟩
      refine (getElem?_eraseIdx_after m.maxima m.max_it_right m.max_it_left ?_).trans hz
      intro e
      rw [e, hy] at hz
      cases hz
      exact not_both_equiv hA (hL rfl hs) hz2 hy2
    · intro hs
      obtain ⟨z, hz, hz2⟩ := h.it_old hs
      refine ⟨z, ?_, hz2⟩
      refine (getElem?_eraseIdx_after m.maxima m.max_it_right m.max_it_old ?_).trans hz
      intro e
      rw [e, hy] at hz
      cases hz
      exact not_both_equiv hA (hO rfl hs) hz2 hy2

theorem Untouched.keep_erase_old (hA : StrictWeakOrder ltA) {m : mx_state A V}
    {M0 : List (point_type A V)} {p left old right : point_type A V} {sL sO sR : Bool}
    (h : Untouched ltA m M0 p left old right sL sO sR) (c : Bool)
    (hc : c = true → sO = true)
    (hp : c = true → ¬ (ltA p.arg old.arg = false ∧ ltA old.arg p.arg = false))
    (hL : c = true → sL = true → ltA left.arg old.arg = true)
    (hR : c = true → sR = true → ltA old.arg right.arg = true) :
    Untouched ltA (if c = true then m.erase m.max_it_old else m) M0 p left old right
      sL (sO && !c) sR := by
  cases c with
  | false => simpa using h
  | true =>
    simp only [if_true, Bool.not_true, Bool.and_false]
    obtain ⟨y, hy, hy2⟩ := h.it_old (hc rfl)
    refine ⟨?_, ?_, fun hs => absurd hs (by decide), ?_⟩
    · rw [← h.mem]
      apply mem_eraseIdx_of_ne m.maxima m.max_it_old y p hy
      intro e
      rw [e] at hp
      exact hp rfl hy2
    · intro hs
      obtain ⟨z, hz, hz2⟩ := h.it_left hs
      refine ⟨z, ?_, hz2⟩
      refine (getElem?_eraseIdx_after m.maxima m.max_it_old m.max_it_left ?_).trans hz
      intro e
      rw [e, hy] at hz
      cases hz
      exact not_both_equiv hA (hL rfl hs) hz2 hy2
    · intro hs
      obtain ⟨z, hz, hz2⟩ := h.it_right hs
      refine ⟨z, ?_, hz2⟩
      refine (getElem?_eraseIdx_after m.maxima m.max_it_old m.max_it_right ?_).trans hz
      intro e
      rw [e, hy] at hz
      cases hz
      exact not_both_equiv hA (hR rfl hs) hy2 hz2

end untouched

end FunctionMaxima

namespace FunctionMaxima

variable {α A V : Type}

section untouched_commit

variable {ltA : A → A → Bool} {ltV : V → V → Bool}

/-- At the start of a mutation the iterators found for the neighbours and for the old
point point to entries with their arguments, whatever `maxima` holds. -/
theorem Located.untouched_start (hV : StrictWeakOrder ltV) {s : FunctionMaxima A V}
    {L M R : List (point_type A V)}
    {x : locals A V} {mid : Option (point_type A V)} {new_mid : point_type A V}
    (hx : Located ltA ltV s x L M R mid new_mid) (hM : M.length ≤ 1)
    (p : point_type A V) :
    Untouched ltA ⟨s.maxima, x.max_it_old, x.max_it_left, x.max_it_right⟩ s.maxima p
      x.left x.old_mid x.right x.is_in_left x.is_in_old x.is_in_right := by
  have key : ∀ q : point_type A V,
      decide (multiset_find (maxima_comparator ltA ltV) s.maxima q ≠ s.maxima.length) = true →
      ∃ y, s.maxima[multiset_find (maxima_comparator ltA ltV) s.maxima q]? = some y ∧
        ltA y.arg q.arg = false ∧ ltA q.arg y.arg = false := by
    intro q hq
    obtain ⟨y, hy, h1, h2⟩ := multiset_find_ne_end (maxima_comparator ltA ltV) s.maxima q
      (of_decide_eq_true hq)
    exact ⟨y, hy, @arg_equiv_of_maxima_equiv A V ltA ltV hV _ _ h1 h2⟩
  refine ⟨Iff.rfl, ?_, ?_, ?_⟩
  · intro hs
    cases hL : L.getLast? with
    | none =>
      rw [(hx.left_none hL).2.2] at hs
      exact absurd hs (by decide)
    | some l =>
      obtain ⟨_, h2, _, h4, h5⟩ := hx.left_some l hL
      rw [h4] at hs
      simp only
      rw [h5, h2]
      exact key l hs
  · intro hs
    match M, hM, hx with
    | [], _, hx =>
      rw [(hx.old_none rfl).2] at hs
      exact absurd hs (by decide)
    | [o], _, hx =>
      obtain ⟨_, h2, h3, h4⟩ := hx.old_some o rfl
      rw [h3] at hs
      simp only
      rw [h4, h2]
      exact key o hs
  · intro hs
    cases hR : R.head? with
    | none =>
      rw [(hx.right_none hR).2.2] at hs
      exact absurd hs (by decide)
    | some r =>
      obtain ⟨_, h2, _, h4, h5⟩ := hx.right_some r hR
      rw [h4] at hs
      simp only
      rw [h5, h2]
      exact key r hs

/-- A point whose argument is equivalent neither to the argument of the mutation nor to
the argument of a neighbour is in `maxima` after the mutation exactly when it was before,
whatever `maxima` holds. -/
theorem Located.commit_mem (hA : StrictWeakOrder ltA) (hV : StrictWeakOrder ltV)
    {s : FunctionMaxima A V} {k : A}
    {L M R : List (point_type A V)} (h : SplitAt ltA s.points k L M R)
    {x : locals A V} {mid : Option (point_type A V)} {new_mid : point_type A V}
    (hx : Located ltA ltV s x L M R mid new_mid) (p : point_type A V)
    (hpL : ∀ l, L.getLast? = some l → ¬ (ltA p.arg l.arg = false ∧ ltA l.arg p.arg = false))
    (hpR : ∀ r, R.head? = some r → ¬ (ltA p.arg r.arg = false ∧ ltA r.arg p.arg = false))
    (hpM : ∀ o ∈ M, ¬ (ltA p.arg o.arg = false ∧ ltA o.arg p.arg = false))
    (hpN : x.is_max_new = true → p ≠ new_mid) :
    p ∈ (commit ltA ltV x new_mid
      ⟨s.maxima, x.max_it_old, x.max_it_left, x.max_it_right⟩).maxima ↔ p ∈ s.maxima := by
  obtain ⟨mL, mL2, mR, mR2, mO⟩ := hx.mem h.len
  have eL : x.exists_left = true → ¬ (ltA p.arg x.left.arg = false ∧
      ltA x.left.arg p.arg = false) := by
    intro he
    cases hL : L.getLast? with
    | none =>
      rw [(hx.left_none hL).1] at he
      exact absurd he (by decide)
    | some l =>
      rw [(hx.left_some l hL).2.1]
      exact hpL l hL
  have eR : x.exists_right = true → ¬ (ltA p.arg x.right.arg = false ∧
      ltA x.right.arg p.arg = false) := by
    intro he
    cases hR : R.head? with
    | none =>
      rw [(hx.right_none hR).1] at he
      exact absurd he (by decide)
    | some r =>
      rw [(hx.right_some r hR).2.1]
      exact hpR r hR
  have eO : x.is_in_old = true → ¬ (ltA p.arg x.old_mid.arg = false ∧
      ltA x.old_mid.arg p.arg = false) := fun hi => hpM _ (mO hi).2
  have ne_of : ∀ q : point_type A V,
      ¬ (ltA p.arg q.arg = false ∧ ltA q.arg p.arg = false) → p ≠ q := by
    intro q hq e
    rw [e] at hq
    exact hq ⟨hA.irrefl _, hA.irrefl _⟩
  have U0 := hx.untouched_start hV h.len p
  have U1 := U0.keep_insert ltV (x.exists_left && x.is_max_left && !x.is_in_left) x.left
    (fun hc => ne_of _ (eL (by
      simp only [Bool.and_eq_true] at hc
      exact hc.1.1)))
  have U2 := U1.keep_insert ltV (x.exists_right && x.is_max_right && !x.is_in_right) x.right
    (fun hc => ne_of _ (eR (by
      simp only [Bool.and_eq_true] at hc
      exact hc.1.1)))
  have U3 := U2.keep_insert ltV x.is_max_new new_mid hpN
  have U4 := U3.keep_erase_left hA (x.exists_left && !x.is_max_left && x.is_in_left)
    (fun hc => ((Bool.and_eq_true _ _).mp hc).2)
    (fun hc => eL (by
      simp only [Bool.and_eq_true] at hc
      exact hc.1.1))
    (fun hc hO => h.lt_left_mid hA (mL ((Bool.and_eq_true _ _).mp hc).2).2 (mO hO).2)
    (fun hc hR => h.lt_left_right hA (mL ((Bool.and_eq_true _ _).mp hc).2).2 (mR hR).2)
  have U5 := U4.keep_erase_right hA (x.exists_right && !x.is_max_right && x.is_in_right)
    (fun hc => ((Bool.and_eq_true _ _).mp hc).2)
    (fun hc => eR (by
      simp only [Bool.and_eq_true] at hc
      exact hc.1.1))
    (fun hc hL => h.lt_left_right hA (mL ((Bool.and_eq_true _ _).mp hL).1).2
      (mR ((Bool.and_eq_true _ _).mp hc).2).2)
    (fun hc hO => h.lt_mid_right hA (mO hO).2 (mR ((Bool.and_eq_true _ _).mp hc).2).2)
  have U6 := U5.keep_erase_old hA (x.exists_old_mid && x.is_in_old)
    (fun hc => ((Bool.and_eq_true _ _).mp hc).2)
    (fun hc => eO ((Bool.and_eq_true _ _).mp hc).2)
    (fun hc hL => h.lt_left_mid hA (mL ((Bool.and_eq_true _ _).mp hL).1).2
      (mO ((Bool.and_eq_true _ _).mp hc).2).2)
    (fun hc hR => h.lt_mid_right hA (mO ((Bool.and_eq_true _ _).mp hc).2).2
      (mR ((Bool.and_eq_true _ _).mp hR).1).2)
  exact U6.mem

/-- A domain point that another domain point separates from the argument `a` has an
argument equivalent neither to `a` nor to the argument of a neighbour of `a`. -/
theorem SplitAt.separated (hA : StrictWeakOrder ltA) {pts : List (point_type A V)} {a : A}
    {L M R : List (point_type A V)} (h : SplitAt ltA pts a L M R)
    (hs : pts.Pairwise (fun p q => ltA p.arg q.arg = true)) {p : point_type A V}
    (hfar : (∃ q ∈ pts, ltA p.arg q.arg = true ∧ ltA q.arg a = true) ∨
      (∃ q ∈ pts, ltA a q.arg = true ∧ ltA q.arg p.arg = true)) :
    (∀ l, L.getLast? = some l → ¬ (ltA p.arg l.arg = false ∧ ltA l.arg p.arg = false)) ∧
    (∀ r, R.head? = some r → ¬ (ltA p.arg r.arg = false ∧ ltA r.arg p.arg = false)) ∧
    (∀ o ∈ M, ¬ (ltA p.arg o.arg = false ∧ ltA o.arg p.arg = false)) ∧
    ¬ (ltA p.arg a = false ∧ ltA a p.arg = false) := by
  have lt1 : ∀ x y : A, ltA x y = true → ¬ (ltA x y = false ∧ ltA y x = false) := by
    intro x y hxy hc
    rw [hxy] at hc
    exact absurd hc.1 (by decide)
  have lt2 : ∀ x y : A, ltA y x = true → ¬ (ltA x y = false ∧ ltA y x = false) := by
    intro x y hxy hc
    rw [hxy] at hc
    exact absurd hc.2 (by decide)
  have hsL : ∀ q ∈ pts, ltA q.arg a = true → q ∈ L := by
    intro q hq hqa
    rw [h.eq] at hq
    simp only [List.mem_append] at hq
    rcases hq with (hq | hq) | hq
    · exact hq
    · rw [(h.mid q hq).1] at hqa
      exact absurd hqa (by decide)
    · rw [hA.asymm (h.right q hq)] at hqa
      exact absurd hqa (by decide)
  have hsR : ∀ q ∈ pts, ltA a q.arg = true → q ∈ R := by
    intro q hq hqa
    rw [h.eq] at hq
    simp only [List.mem_append] at hq
    rcases hq with (hq | hq) | hq
    · rw [hA.asymm (h.left q hq)] at hqa
      exact absurd hqa (by decide)
    · rw [(h.mid q hq).2] at hqa
      exact absurd hqa (by decide)
    · exact hq
  have hsorted : (L ++ M ++ R).Pairwise (fun p q => ltA p.arg q.arg = true) := by
    rw [← h.eq]
    exact hs
  have hLs : L.Pairwise (fun p q => ltA p.arg q.arg = true) :=
    (List.pairwise_append.1 (List.pairwise_append.1 hsorted).1).1
  have hRs : R.Pairwise (fun p q => ltA p.arg q.arg = true) :=
    (List.pairwise_append.1 hsorted).2.1
  rcases hfar with ⟨q, hq, hpq, hqa⟩ | ⟨q, hq, haq, hqp⟩
  · have hpa : ltA p.arg a = true := hA.trans _ _ _ hpq hqa
    have hqL := hsL q hq hqa
    refine ⟨?_, ?_, ?_, lt1 _ _ hpa⟩
    · intro l hl
      apply lt1
      have e := List.dropLast_append_getLast? l hl
      rw [← e] at hqL hLs
      rcases List.mem_append.1 hqL with hq1 | hq1
      · exact hA.trans _ _ _ hpq ((List.pairwise_append.1 hLs).2.2 q hq1 l (by simp))
      · rw [List.mem_singleton] at hq1
        rw [← hq1]
        exact hpq
    · intro r hr
      exact lt1 _ _ (hA.trans _ _ _ hpa (h.right r (List.mem_of_mem_head? hr)))
    · intro o ho
      exact lt1 _ _ (hA.lt_of_lt_of_not_lt hpa (h.mid o ho).1)
  · have hap : ltA a p.arg = true := hA.trans _ _ _ haq hqp
    have hqR := hsR q hq haq
    refine ⟨?_, ?_, ?_, lt2 _ _ hap⟩
    · intro l hl
      exact lt2 _ _ (hA.trans _ _ _ (h.left l (List.mem_of_mem_getLast? hl)) hap)
    · intro r hr
      apply lt2
      cases R with
      | nil => exact absurd hqR (by simp)
      | cons r0 R0 =>
        simp only [List.head?_cons, Option.some.injEq] at hr
        subst hr
        rcases List.mem_cons.1 hqR with hq1 | hq1
        · rw [← hq1]
          exact hqp
        · exact hA.trans _ _ _ ((List.pairwise_cons.1 hRs).1 q hq1) hqp
    · intro o ho
      exact lt2 _ _ (hA.lt_of_not_lt_of_lt (h.mid o ho).2 hap)

end untouched_commit

end FunctionMaxima

namespace FunctionMaxima

variable {α A V σ E : Type}

/-! ## The `catch` blocks make the mutations atomic -/

theorem threw_rollback (s : FunctionMaxima A V) (t : try_state A V) (e : E)
    (h : (rollback t).points = s.points ∧ (rollback t).maxima = s.maxima) :
    (outcome.threw e ⟨(rollback t).points, (rollback t).maxima⟩ : outcome σ E A V) =
      .threw e s := by
  rw [h.1, h.2]

/-- The statements of the `try` block of `set_value` in sequence, followed by statements
`k` that do not throw: they throw what the `try` block throws, and otherwise give what `k`
gives for the state after the `try` block. -/
theorem set_value_try_eq {β : Type} (ops : throwing_ops σ E A V) (s : FunctionMaxima A V)
    (x : locals A V) (new_mid : point_type A V) (k : try_state A V → β) (c : σ) :
    (do
      let t1 ← try_insert_left ops x (try_start s x)
      let t2 ← try_insert_right ops x t1
      let t3 ← try_insert_new ops x new_mid t2
      let t4 ← try_insert_point ops new_mid t3
      pure (k t4) : StateT σ (Except E) β) c =
    (match run_try [try_insert_left ops x, try_insert_right ops x,
        try_insert_new ops x new_mid, try_insert_point ops new_mid] (try_start s x) c with
      | .error (e, _) => .error e
      | .ok (t, c2) => .ok (k t, c2)) := by
  simp only [run_try, bind, StateT.bind, Except.bind]
  cases h1 : try_insert_left ops x (try_start s x) c with
  | error e1 => rfl
  | ok r1 =>
    obtain ⟨t1, c1⟩ := r1
    simp only
    cases h2 : try_insert_right ops x t1 c1 with
    | error e2 => rfl
    | ok r2 =>
      obtain ⟨t2, c2⟩ := r2
      simp only
      cases h3 : try_insert_new ops x new_mid t2 c2 with
      | error e3 => rfl
      | ok r3 =>
        obtain ⟨t3, c3⟩ := r3
        simp only
        cases h4 : try_insert_point ops new_mid t3 c3 with
        | error e4 => rfl
        | ok r4 => rfl

/-- The statements of the `try` block of `erase` in sequence, followed by statements `k`
that do not throw. -/
theorem erase_try_eq {β : Type} (ops : throwing_ops σ E A V) (s : FunctionMaxima A V)
    (x : locals A V) (k : try_state A V → β) (c : σ) :
    (do
      let t1 ← try_insert_left ops x (try_start s x)
      let t2 ← try_insert_right ops x t1
      pure (k t2) : StateT σ (Except E) β) c =
    (match run_try [try_insert_left ops x, try_insert_right ops x] (try_start s x) c with
      | .error (e, _) => .error e
      | .ok (t, c2) => .ok (k t, c2)) := by
  simp only [run_try, bind, StateT.bind, Except.bind]
  cases h1 : try_insert_left ops x (try_start s x) c with
  | error e1 => rfl
  | ok r1 =>
    obtain ⟨t1, c1⟩ := r1
    simp only
    cases h2 : try_insert_right ops x t1 c1 with
    | error e2 => rfl
    | ok r2 => rfl

/-- The method `set_value` is atomic: its outcome is that of its statements in sequence,
with the structure as it was found when they throw. -/
theorem set_valueE_eq_atomic (ops : throwing_ops σ E A V) (hins : ops.maxima.insert_ok)
    (s : FunctionMaxima A V) (a : A) (v : V) (c : σ) :
    set_valueE ops s a v c = atomic_outcome s (set_value_uncaught ops s a v c) := by
  have e1 : set_value_uncaught ops s a v c =
      (match set_value_localsE ops s a v c with
        | .error e => .error e
        | .ok (x, c1) =>
          (do
            let t1 ← try_insert_left ops x (try_start s x)
            let t2 ← try_insert_right ops x t1
            let t3 ← try_insert_new ops x ⟨a, v⟩ t2
            let t4 ← try_insert_point ops ⟨a, v⟩ t3
            pure (set_value_removals x t4) : StateT σ (Except E) (FunctionMaxima A V))
            c1) := by
    unfold set_value_uncaught
    simp only [bind, StateT.bind, Except.bind]
    cases set_value_localsE ops s a v c <;> rfl
  rw [e1]
  unfold set_valueE
  cases hl : set_value_localsE ops s a v c with
  | error e => rfl
  | ok r =>
    obtain ⟨x, c1⟩ := r
    simp only
    rw [set_value_try_eq ops s x ⟨a, v⟩ (set_value_removals x) c1]
    cases hr : run_try [try_insert_left ops x, try_insert_right ops x,
        try_insert_new ops x ⟨a, v⟩, try_insert_point ops ⟨a, v⟩] (try_start s x) c1 with
    | error et =>
      obtain ⟨e, t⟩ := et
      exact threw_rollback s t e (set_value_try_throws ops hins s x ⟨a, v⟩ c1 e t hr)
    | ok r2 => rfl

/-- The method `erase` is atomic: its outcome is that of its statements in sequence, with
the structure as it was found when they throw. -/
theorem eraseE_eq_atomic (ops : throwing_ops σ E A V) (hins : ops.maxima.insert_ok)
    (s : FunctionMaxima A V) (a : A) (c : σ) :
    eraseE ops s a c = atomic_outcome s (erase_uncaught ops s a c) := by
  have e1 : erase_uncaught ops s a c =
      (match findE ops s a c with
        | .error e => .error e
        | .ok (mid_it, c0) =>
          match s.points[mid_it]? with
          | none => .ok (s, c0)
          | some mid =>
            match erase_localsE ops s mid_it mid c0 with
            | .error e => .error e
            | .ok (x, c1) =>
              (do
                let t1 ← try_insert_left ops x (try_start s x)
                let t2 ← try_insert_right ops x t1
                pure (erase_removals x t2) : StateT σ (Except E) (FunctionMaxima A V))
                c1) := by
    unfold erase_uncaught
    simp only [bind, StateT.bind, Except.bind]
    cases findE ops s a c with
    | error e => rfl
    | ok r =>
      obtain ⟨mid_it, c0⟩ := r
      simp only
      cases s.points[mid_it]? with
      | none => rfl
      | some mid =>
        simp only [bind, StateT.bind, Except.bind]
        cases erase_localsE ops s mid_it mid c0 <;> rfl
  rw [e1]
  unfold eraseE
  cases hf : findE ops s a c with
  | error e => rfl
  | ok r =>
    obtain ⟨mid_it, c0⟩ := r
    simp only
    cases hm : s.points[mid_it]? with
    | none => rfl
    | some mid =>
      simp only
      cases hl : erase_localsE ops s mid_it mid c0 with
      | error e => rfl
      | ok r1 =>
        obtain ⟨x, c1⟩ := r1
        simp only
        rw [erase_try_eq ops s x (erase_removals x) c1]
        cases hr : run_try [try_insert_left ops x, try_insert_right ops x]
            (try_start s x) c1 with
        | error et =>
          obtain ⟨e, t⟩ := et
          exact threw_rollback s t e (erase_try_throws ops hins s x c1 e t hr)
        | ok r2 => rfl

end FunctionMaxima

namespace FunctionMaxima

variable {α β γ A V σ E : Type}

/-! ## Failure at the n-th operation -/

theorem runs_pure (e : E) (r : β) : runs e (pure r : StateT Nat (Except E) β) r :=
  ⟨0, fun n => ⟨fun h => absurd h (Nat.not_lt_zero n), fun _ => rfl⟩⟩

theorem runs_bind {e : E} {m : StateT Nat (Except E) β} {f : β → StateT Nat (Except E) γ}
    {r : β} {r1 : γ} (h1 : runs e m r) (h2 : runs e (f r) r1) : runs e (m >>= f) r1 := by
  obtain ⟨k, hk⟩ := h1
  obtain ⟨k1, hk1⟩ := h2
  refine ⟨k + k1, fun n => ⟨?_, ?_⟩⟩
  · intro hn
    simp only [bind, StateT.bind, Except.bind]
    by_cases h : n < k
    · rw [(hk n).1 h]
    · rw [(hk n).2 (by omega)]
      simp only
      exact (hk1 (n - k)).1 (by omega)
  · intro hn
    simp only [bind, StateT.bind, Except.bind]
    rw [(hk n).2 (by omega)]
    simp only
    rw [(hk1 (n - k)).2 (by omega)]
    have : n - k - k1 = n - (k + k1) := by omega
    rw [this]

theorem runs_of_eq {e : E} {m : StateT Nat (Except E) β} {r r1 : β} (h : runs e m r)
    (hr : r = r1) : runs e m r1 := hr ▸ h

theorem runs_ltA (e : E) (ltA : A → A → Bool) (ltV : V → V → Bool) (a b : A) :
    runs e ((countdown_ops e ltA ltV).ltA a b) (ltA a b) := by
  refine ⟨1, fun n => ⟨?_, ?_⟩⟩
  · intro hn
    have : n = 0 := by omega
    subst this
    rfl
  · intro hn
    obtain ⟨m, rfl⟩ : ∃ m, n = m + 1 := ⟨n - 1, by omega⟩
    rfl

theorem runs_ltV (e : E) (ltA : A → A → Bool) (ltV : V → V → Bool) (a b : V) :
    runs e ((countdown_ops e ltA ltV).ltV a b) (ltV a b) := by
  refine ⟨1, fun n => ⟨?_, ?_⟩⟩
  · intro hn
    have : n = 0 := by omega
    subst this
    rfl
  · intro hn
    obtain ⟨m, rfl⟩ : ∃ m, n = m + 1 := ⟨n - 1, by omega⟩
    rfl

theorem runs_alloc (e : E) (ltA : A → A → Bool) (ltV : V → V → Bool) :
    runs e ((countdown_ops e ltA ltV).alloc) () := by
  refine ⟨1, fun n => ⟨?_, ?_⟩⟩
  · intro hn
    have : n = 0 := by omega
    subst this
    rfl
  · intro hn
    obtain ⟨m, rfl⟩ : ∃ m, n = m + 1 := ⟨n - 1, by omega⟩
    rfl

theorem runs_lower_bound {e : E} {comp : α → α → StateT Nat (Except E) Bool}
    {cp : α → α → Bool} (hc : ∀ x y, runs e (comp x y) (cp x y)) (l : List α) (k : α) :
    runs e (multiset_lower_boundE comp l k) (multiset_lower_bound cp l k) := by
  induction l with
  | nil => exact runs_pure e 0
  | cons x xs ih =>
    unfold multiset_lower_boundE multiset_lower_bound
    refine runs_bind (hc x k) ?_
    cases cp x k with
    | true => exact runs_bind ih (runs_pure e _)
    | false => exact runs_pure e 0

theorem runs_upper_bound {e : E} {comp : α → α → StateT Nat (Except E) Bool}
    {cp : α → α → Bool} (hc : ∀ x y, runs e (comp x y) (cp x y)) (l : List α) (k : α) :
    runs e (multiset_upper_boundE comp l k) (multiset_upper_bound cp l k) := by
  induction l with
  | nil => exact runs_pure e 0
  | cons x xs ih =>
    unfold multiset_upper_boundE multiset_upper_bound
    refine runs_bind (hc k x) ?_
    cases cp k x with
    | true => exact runs_pure e 0
    | false => exact runs_bind ih (runs_pure e _)

theorem runs_find {e : E} {comp : α → α → StateT Nat (Except E) Bool}
    {cp : α → α → Bool} (hc : ∀ x y, runs e (comp x y) (cp x y)) (l : List α) (k : α) :
    runs e (multiset_findE comp l k) (multiset_find cp l k) := by
  unfold multiset_findE multiset_find
  refine runs_bind (runs_lower_bound hc l k) ?_
  simp only
  cases l[multiset_lower_bound cp l k]? with
  | none => exact runs_pure e _
  | some x =>
    simp only
    refine runs_bind (hc k x) ?_
    cases cp k x with
    | true => exact runs_pure e _
    | false => exact runs_pure e _

theorem runs_insert {e : E} {alloc : StateT Nat (Except E) Unit}
    {comp : α → α → StateT Nat (Except E) Bool}
    {cp : α → α → Bool} (ha : runs e alloc ()) (hc : ∀ x y, runs e (comp x y) (cp x y))
    (l : List α) (x : α) :
    runs e (multiset_insertE alloc comp l x) (multiset_insert cp l x) := by
  unfold multiset_insertE multiset_insert
  exact runs_bind (runs_upper_bound hc l x) (runs_bind ha (runs_pure e _))

section countdown

variable (e : E) (ltA : A → A → Bool) (ltV : V → V → Bool)

theorem runs_points_comparator (a b : point_type A V) :
    runs e (points_comparatorE (countdown_ops e ltA ltV).tocomparison_ops a b)
      (points_comparator ltA a b) :=
  runs_ltA e ltA ltV a.arg b.arg

theorem runs_maxima_comparator (a b : point_type A V) :
    runs e (maxima_comparatorE (countdown_ops e ltA ltV).tocomparison_ops a b)
      (maxima_comparator ltA ltV a b) := by
  unfold maxima_comparatorE maxima_comparator
  have h1 := runs_ltV e ltA ltV a.value b.value
  have h2 := runs_ltV e ltA ltV b.value a.value
  have h3 := runs_ltA e ltA ltV a.arg b.arg
  refine runs_bind h1 ?_
  cases hab : ltV a.value b.value with
  | true =>
    refine runs_bind (runs_pure e false) ?_
    simpa using h2
  | false =>
    cases hba : ltV b.value a.value with
    | true =>
      have h4 := h2
      rw [hba] at h4
      refine runs_bind h4 (runs_bind (runs_pure e _) ?_)
      simpa [hba] using h2
    | false =>
      rw [hba] at h2
      refine runs_bind h2 (runs_bind (runs_pure e _) ?_)
      simpa using h3

theorem runs_points_find (l : List (point_type A V)) (k : point_type A V) :
    runs e ((countdown_ops e ltA ltV).points.find l k)
      (multiset_find (points_comparator ltA) l k) :=
  runs_find (runs_points_comparator e ltA ltV) l k

theorem runs_points_upper_bound (l : List (point_type A V)) (k : point_type A V) :
    runs e ((countdown_ops e ltA ltV).points.upper_bound l k)
      (multiset_upper_bound (points_comparator ltA) l k) :=
  runs_upper_bound (runs_points_comparator e ltA ltV) l k

theorem runs_points_insert (l : List (point_type A V)) (x : point_type A V) :
    runs e ((countdown_ops e ltA ltV).points.insert l x)
      (multiset_insert (points_comparator ltA) l x) :=
  runs_insert (runs_alloc e ltA ltV) (runs_points_comparator e ltA ltV) l x

theorem runs_maxima_find (l : List (point_type A V)) (k : point_type A V) :
    runs e ((countdown_ops e ltA ltV).maxima.find l k)
      (multiset_find (maxima_comparator ltA ltV) l k) :=
  runs_find (runs_maxima_comparator e ltA ltV) l k

theorem runs_maxima_insert (l : List (point_type A V)) (x : point_type A V) :
    runs e ((countdown_ops e ltA ltV).maxima.insert l x)
      (multiset_insert (maxima_comparator ltA ltV) l x) :=
  runs_insert (runs_alloc e ltA ltV) (runs_maxima_comparator e ltA ltV) l x

theorem runs_is_maximum (l m r : point_type A V) :
    runs e (is_maximumE (countdown_ops e ltA ltV) l m r) (is_maximum ltV l m r) := by
  unfold is_maximumE is_maximum
  have h1 := runs_ltV e ltA ltV m.value l.value
  have h2 := runs_ltV e ltA ltV m.value r.value
  refine runs_bind h1 ?_
  cases ltV m.value l.value with
  | true => exact runs_pure e false
  | false => exact runs_bind h2 (runs_pure e _)

theorem runs_point_type (a : A) (v : V) :
    runs e (point_typeE (countdown_ops e ltA ltV) a v) ⟨a, v⟩ :=
  runs_bind (runs_alloc e ltA ltV) (runs_bind (runs_alloc e ltA ltV) (runs_pure e _))

theorem runs_findE (s : FunctionMaxima A V) (a : A) :
    runs e (findE (countdown_ops e ltA ltV) s a) (find ltA s a) := by
  obtain ⟨pts, mx⟩ := s
  cases pts with
  | nil => exact runs_pure e _
  | cons p t =>
    exact runs_bind (runs_alloc e ltA ltV)
      (runs_bind (runs_point_type e ltA ltV a p.value) (runs_points_find e ltA ltV _ _))

end countdown

end FunctionMaxima

namespace FunctionMaxima

variable {α β γ A V σ E : Type}

/-! ## The mutations when the n-th operation fails -/

section countdown_runs

variable (e : E) (ltA : A → A → Bool) (ltV : V → V → Bool)

/-- Over a countdown the part of `set_value` before the `try` block runs with the local
variables of the method that does not throw. -/
theorem runs_set_value_locals (s : FunctionMaxima A V) (a : A) (v : V) :
    runs e (set_value_localsE (countdown_ops e ltA ltV) s a v)
      (set_value_locals ltA ltV s a v) := by
  unfold set_value_localsE set_value_locals
  refine runs_bind (runs_point_type e ltA ltV a v) ?_
  refine runs_bind (runs_points_find e ltA ltV _ _) ?_
  refine runs_bind (runs_points_upper_bound e ltA ltV _ _) ?_
  simp only []
  generalize multiset_find (points_comparator ltA) s.points ⟨a, v⟩ = o
  generalize multiset_upper_bound (points_comparator ltA) s.points ⟨a, v⟩ = r
  generalize (if o ≠ s.points.length then o else r) = l0
  by_cases h1 : o = s.points.length <;> by_cases h2 : l0 = 0 <;>
    by_cases h3 : r = s.points.length <;>
    simp only [h1, h2, h3, ne_eq, not_true_eq_false, not_false_eq_true, decide_True,
      decide_False, if_true, if_false, Bool.false_eq_true,
      Bool.true_and, Bool.false_and] <;>
    repeat (first
      | exact runs_pure e _
      | refine runs_bind (runs_pure e _) ?_
      | refine runs_bind (runs_maxima_find e ltA ltV _ _) ?_
      | refine runs_bind (runs_is_maximum e ltA ltV _ _ _) ?_)

/-- Over a countdown the part of `erase` before the `try` block runs with the local
variables of the method that does not throw. -/
theorem runs_erase_locals (s : FunctionMaxima A V) (mid_it : Nat) (mid : point_type A V) :
    runs e (erase_localsE (countdown_ops e ltA ltV) s mid_it mid)
      (erase_locals ltA ltV s mid_it mid) := by
  unfold erase_localsE erase_locals
  refine runs_bind (runs_points_upper_bound e ltA ltV _ _) ?_
  simp only []
  generalize multiset_upper_bound (points_comparator ltA) s.points mid = r
  generalize (if mid_it ≠ s.points.length then mid_it else r) = l0
  by_cases h2 : l0 = 0 <;> by_cases h3 : r = s.points.length <;>
    simp only [h2, h3, ne_eq, not_true_eq_false, not_false_eq_true, decide_True,
      decide_False, if_true, if_false, Bool.false_eq_true,
      Bool.true_and, Bool.false_and] <;>
    repeat (first
      | exact runs_pure e _
      | refine runs_bind (runs_pure e _) ?_
      | refine runs_bind (runs_maxima_find e ltA ltV _ _) ?_
      | refine runs_bind (runs_is_maximum e ltA ltV _ _ _) ?_)

theorem runs_insert_maxima (t : try_state A V) (x : point_type A V) :
    ∃ t1 it, runs e (t.insert_maxima (countdown_ops e ltA ltV) x) (t1, it) ∧
      t1.mx = t.mx.insert ltA ltV x ∧ t1.points = t.points ∧
      t1.old_mid_it = t.old_mid_it := by
  refine ⟨{ t.relocate (after_insert
      (multiset_upper_bound (maxima_comparator ltA ltV) t.maxima x)) with
      maxima := insert_at t.maxima
        (multiset_upper_bound (maxima_comparator ltA ltV) t.maxima x) x },
    multiset_upper_bound (maxima_comparator ltA ltV) t.maxima x, ?_, rfl, rfl, rfl⟩
  unfold try_state.insert_maxima
  exact runs_bind (runs_maxima_insert e ltA ltV t.maxima x) (runs_pure e _)

theorem runs_try_insert_left (x : locals A V) (t : try_state A V) :
    ∃ t1, runs e (try_insert_left (countdown_ops e ltA ltV) x t) t1 ∧
      t1.mx = (if x.exists_left && x.is_max_left && !x.is_in_left then
        t.mx.insert ltA ltV x.left else t.mx) ∧
      t1.points = t.points ∧ t1.old_mid_it = t.old_mid_it := by
  unfold try_insert_left
  split
  · obtain ⟨t1, it, h1, h2, h3, h4⟩ := runs_insert_maxima e ltA ltV t x.left
    exact ⟨{ t1 with insert_max_it_left := it, insert_max_left := true },
      runs_bind h1 (runs_pure e _), h2, h3, h4⟩
  · exact ⟨t, runs_pure e t, rfl, rfl, rfl⟩

theorem runs_try_insert_right (x : locals A V) (t : try_state A V) :
    ∃ t1, runs e (try_insert_right (countdown_ops e ltA ltV) x t) t1 ∧
      t1.mx = (if x.exists_right && x.is_max_right && !x.is_in_right then
        t.mx.insert ltA ltV x.right else t.mx) ∧
      t1.points = t.points ∧ t1.old_mid_it = t.old_mid_it := by
  unfold try_insert_right
  split
  · obtain ⟨t1, it, h1, h2, h3, h4⟩ := runs_insert_maxima e ltA ltV t x.right
    exact ⟨{ t1 with insert_max_it_right := it, insert_max_right := true },
      runs_bind h1 (runs_pure e _), h2, h3, h4⟩
  · exact ⟨t, runs_pure e t, rfl, rfl, rfl⟩

theorem runs_try_insert_new (x : locals A V) (new_mid : point_type A V)
    (t : try_state A V) :
    ∃ t1, runs e (try_insert_new (countdown_ops e ltA ltV) x new_mid t) t1 ∧
      t1.mx = (if x.is_max_new then t.mx.insert ltA ltV new_mid else t.mx) ∧
      t1.points = t.points ∧ t1.old_mid_it = t.old_mid_it := by
  unfold try_insert_new
  split
  · obtain ⟨t1, it, h1, h2, h3, h4⟩ := runs_insert_maxima e ltA ltV t new_mid
    exact ⟨{ t1 with insert_max_it_new := it, insert_max_new := true },
      runs_bind h1 (runs_pure e _), h2, h3, h4⟩
  · exact ⟨t, runs_pure e t, rfl, rfl, rfl⟩

theorem runs_try_insert_point (new_mid : point_type A V) (t : try_state A V) :
    ∃ t1, runs e (try_insert_point (countdown_ops e ltA ltV) new_mid t) t1 ∧
      t1.mx = t.mx ∧
      t1.points = (multiset_insert (points_comparator ltA) t.points new_mid).1 ∧
      t1.old_mid_it =
        after_insert (multiset_insert (points_comparator ltA) t.points new_mid).2
          t.old_mid_it := by
  refine ⟨{ t with
      points := (multiset_insert (points_comparator ltA) t.points new_mid).1
      old_mid_it :=
        after_insert (multiset_insert (points_comparator ltA) t.points new_mid).2
          t.old_mid_it }, ?_, rfl, rfl, rfl⟩
  unfold try_insert_point
  exact runs_bind (runs_points_insert e ltA ltV t.points new_mid) (runs_pure e _)

/-- Over a countdown the statements of `set_value` run with the state that the method
that does not throw gives. -/
theorem runs_set_value_uncaught (s : FunctionMaxima A V) (a : A) (v : V) :
    runs e (set_value_uncaught (countdown_ops e ltA ltV) s a v)
      (set_value ltA ltV s a v) := by
  obtain ⟨t1, h1, m1, p1, o1⟩ := runs_try_insert_left e ltA ltV
    (set_value_locals ltA ltV s a v) (try_start s (set_value_locals ltA ltV s a v))
  obtain ⟨t2, h2, m2, p2, o2⟩ := runs_try_insert_right e ltA ltV
    (set_value_locals ltA ltV s a v) t1
  obtain ⟨t3, h3, m3, p3, o3⟩ := runs_try_insert_new e ltA ltV
    (set_value_locals ltA ltV s a v) ⟨a, v⟩ t2
  obtain ⟨t4, h4, m4, p4, o4⟩ := runs_try_insert_point e ltA ltV ⟨a, v⟩ t3
  unfold set_value_uncaught
  refine runs_bind (runs_set_value_locals e ltA ltV s a v) ?_
  refine runs_bind h1 (runs_bind h2 (runs_bind h3 (runs_bind h4 ?_)))
  exact runs_of_eq (runs_pure e _)
    (set_value_removals_eq ltA ltV s a v t1 t2 t3 t4 m1 p1 o1 m2 p2 o2 m3 p3 o3 m4 p4 o4)

/-- Over a countdown the statements of `erase` run with the state that the method that
does not throw gives. -/
theorem runs_erase_uncaught (s : FunctionMaxima A V) (a : A) :
    runs e (erase_uncaught (countdown_ops e ltA ltV) s a) (erase ltA ltV s a) := by
  unfold erase_uncaught
  refine runs_bind (runs_findE e ltA ltV s a) ?_
  cases hm : s.points[find ltA s a]? with
  | none =>
    simp only [hm]
    refine runs_of_eq (runs_pure e s) ?_
    unfold erase
    simp only [hm]
  | some mid =>
    simp only [hm]
    obtain ⟨t1, h1, m1, p1, o1⟩ := runs_try_insert_left e ltA ltV
      (erase_locals ltA ltV s (find ltA s a) mid)
      (try_start s (erase_locals ltA ltV s (find ltA s a) mid))
    obtain ⟨t2, h2, m2, p2, o2⟩ := runs_try_insert_right e ltA ltV
      (erase_locals ltA ltV s (find ltA s a) mid) t1
    refine runs_bind (runs_erase_locals e ltA ltV s (find ltA s a) mid) ?_
    refine runs_bind h1 (runs_bind h2 ?_)
    exact runs_of_eq (runs_pure e _)
      (erase_removals_eq ltA ltV s a mid hm t1 t2 m1 p1 o1 m2 p2 o2)

end countdown_runs

end FunctionMaxima

namespace FunctionMaxima

variable {α A V σ E : Type}

/-! ## The claims -/

/-- C1: `set_value` keeps the Maxima Index exactly correct.  For strict weak orders on `A`
and on `V` and a state whose domain is strictly increasing in the argument and whose
maxima are (sorted, each once) exactly the local maxima, after `set_value(a, v)` the point
`p` at any index `i` of the updated domain is in the Maxima Index if and only if its value
is not less than the values of its left and right neighbours in the updated domain, a
missing neighbour satisfying its side. -/
theorem set_value_maxima_correct {ltA : A → A → Bool} {ltV : V → V → Bool}
    (hA : StrictWeakOrder ltA) (hV : StrictWeakOrder ltV) (s : FunctionMaxima A V)
    (hwf : WellFormed ltA ltV s) (a : A) (v : V) (i : Nat) (p : point_type A V)
    (hp : (set_value ltA ltV s a v).points[i]? = some p) :
    p ∈ (set_value ltA ltV s a v).maxima ↔
      is_local_maximum_at ltV (set_value ltA ltV s a v).points i = true :=
  (set_value_wellFormed hA hV hwf a v).mem_maxima_at hA hp

/-- Scenario A: inserting (1,10), (2,5), (3,10), (4,1) in this order gives the maxima
(1,10), (3,10); the point (3,10) at index 2 is in the maxima as the theorem says. -/
theorem set_value_maxima_correct_witness :
    WellFormed nat_lt nat_lt scenario_three ∧
    (set_value nat_lt nat_lt scenario_three 4 1).maxima = [⟨1, 10⟩, ⟨3, 10⟩] ∧
    (set_value nat_lt nat_lt scenario_three 4 1).points =
      [⟨1, 10⟩, ⟨2, 5⟩, ⟨3, 10⟩, ⟨4, 1⟩] ∧
    ((⟨3, 10⟩ : point_type Nat Nat) ∈ (set_value nat_lt nat_lt scenario_three 4 1).maxima ↔
      is_local_maximum_at nat_lt (set_value nat_lt nat_lt scenario_three 4 1).points 2 =
        true) :=
  ⟨scenario_three_wellFormed, by decide, by decide,
    set_value_maxima_correct nat_lt_swo nat_lt_swo scenario_three scenario_three_wellFormed
      4 1 2 ⟨3, 10⟩ (by decide)⟩

/-- C2: `erase` keeps the Maxima Index exactly correct.  For strict weak orders on `A` and
on `V`, a well-formed state and an argument `a` that is in the domain, the domain is
`L ++ m :: R` with `m` the point at `a`, the domain after `erase(a)` is `L ++ R`, and the
point `p` at any index `i` of `L ++ R` is in the Maxima Index if and only if it is a local
maximum of `L ++ R`, where the former neighbours of `m` are adjacent. -/
theorem erase_maxima_correct {ltA : A → A → Bool} {ltV : V → V → Bool}
    (hA : StrictWeakOrder ltA) (hV : StrictWeakOrder ltV) (s : FunctionMaxima A V)
    (hwf : WellFormed ltA ltV s) (a : A)
    (ha : ∃ m ∈ s.points, ltA m.arg a = false ∧ ltA a m.arg = false) :
    ∃ L m R, s.points = L ++ m :: R ∧ ltA m.arg a = false ∧ ltA a m.arg = false ∧
      (erase ltA ltV s a).points = L ++ R ∧
      ∀ i p, (L ++ R)[i]? = some p →
        (p ∈ (erase ltA ltV s a).maxima ↔ is_local_maximum_at ltV (L ++ R) i = true) := by
  obtain ⟨L, M, R, h⟩ := splitAt_exists hA s.points hwf.points_sorted a
  obtain ⟨m, hm, h1, h2⟩ := ha
  have hM := h.mid_of_mem hm h1 h2
  subst hM
  have hpts := erase_points hA ltV s a h
  refine ⟨L, m, R, by simpa using h.eq, h1, h2, hpts, ?_⟩
  intro i p hp
  rw [← hpts] at hp ⊢
  exact (erase_wellFormed hA hV hwf a).mem_maxima_at hA hp

/-- Scenario C: from the state of Scenario A, `erase(3)` leaves the domain (1,10), (2,5),
(4,1) and the maxima (1,10). -/
theorem erase_maxima_correct_witness :
    WellFormed nat_lt nat_lt scenario_A ∧
    (erase nat_lt nat_lt scenario_A 3).maxima = [⟨1, 10⟩] ∧
    (erase nat_lt nat_lt scenario_A 3).points = [⟨1, 10⟩, ⟨2, 5⟩, ⟨4, 1⟩] ∧
    ∃ L m R, scenario_A.points = L ++ m :: R ∧ nat_lt m.arg 3 = false ∧
      nat_lt 3 m.arg = false ∧
      (erase nat_lt nat_lt scenario_A 3).points = L ++ R ∧
      ∀ i p, (L ++ R)[i]? = some p →
        (p ∈ (erase nat_lt nat_lt scenario_A 3).maxima ↔
          is_local_maximum_at nat_lt (L ++ R) i = true) :=
  ⟨scenario_A_wellFormed, by decide, by decide,
    erase_maxima_correct nat_lt_swo nat_lt_swo scenario_A scenario_A_wellFormed 3
      ⟨⟨3, 10⟩, by decide, by decide, by decide⟩⟩

/-- C5: round trip.  For a strict weak order on `A` and a state whose domain is strictly
increasing in the argument, `value_at(a)` after `set_value(a, v)` succeeds and gives `v`,
whether or not `a` was in the domain before and whatever its old value was. -/
theorem value_at_set_value {ltA : A → A → Bool} (hA : StrictWeakOrder ltA)
    (ltV : V → V → Bool) (s : FunctionMaxima A V)
    (hs : s.points.Pairwise (fun p q => ltA p.arg q.arg = true)) (a : A) (v : V) :
    value_at ltA (set_value ltA ltV s a v) a = .ok v := by
  obtain ⟨L, M, R, h⟩ := splitAt_exists hA s.points hs a
  have hpts := set_value_points hA ltV s a v h
  have h2 : SplitAt ltA (set_value ltA ltV s a v).points a L [⟨a, v⟩] R := by
    refine ⟨by simp [hpts], h.left, ?_, h.right, by simp⟩
    intro x hx
    rw [List.mem_singleton] at hx
    subst hx
    exact ⟨hA.irrefl a, hA.irrefl a⟩
  unfold value_at
  simp only [find_present h2, hpts, getElem?_append_length]

/-- Overwriting the value 5 at the argument 2 of Scenario A by the order-equivalent value
5 and by the different value 7, and adding the new argument 9. -/
theorem value_at_set_value_witness :
    scenario_A.points.Pairwise (fun p q => nat_lt p.arg q.arg = true) ∧
    value_at nat_lt (set_value nat_lt nat_lt scenario_A 2 7) 2 = .ok 7 ∧
    value_at nat_lt (set_value nat_lt nat_lt scenario_A 2 5) 2 = .ok 5 ∧
    value_at nat_lt (set_value nat_lt nat_lt scenario_A 9 4) 9 = .ok 4 :=
  ⟨by decide, value_at_set_value nat_lt_swo nat_lt scenario_A (by decide) 2 7, rfl, rfl⟩

/-- C6: `value_at` fails exactly on absent arguments.  For a strict weak order on `A` and
a state whose domain is strictly increasing in the argument, `value_at(a)` fails with
`InvalidArg` if and only if no domain point has an argument equivalent to `a`; when a
domain point has one, `value_at(a)` gives the value of that point; and in the empty domain
it fails. -/
theorem value_at_fails_iff_absent {ltA : A → A → Bool} (hA : StrictWeakOrder ltA)
    (s : FunctionMaxima A V)
    (hs : s.points.Pairwise (fun p q => ltA p.arg q.arg = true)) (a : A) :
    (value_at ltA s a = .error InvalidArg.invalid_argument_value ↔
      ∀ p ∈ s.points, ¬ (ltA p.arg a = false ∧ ltA a p.arg = false)) ∧
    (∀ p ∈ s.points, ltA p.arg a = false → ltA a p.arg = false →
      value_at ltA s a = .ok p.value) ∧
    (s.points = [] → value_at ltA s a = .error InvalidArg.invalid_argument_value) := by
  obtain ⟨L, M, R, h⟩ := splitAt_exists hA s.points hs a
  rcases h.mid_cases with hM | ⟨m, hM⟩
  · subst hM
    have hv : value_at ltA s a = .error InvalidArg.invalid_argument_value := by
      unfold value_at
      simp only [find_absent hA h, List.getElem?_eq_none (Nat.le_refl _)]
    refine ⟨⟨fun _ p hp => h.not_equiv_of_nil hp, fun _ => hv⟩, ?_, fun _ => hv⟩
    intro p hp h1 h2
    exact absurd ⟨h1, h2⟩ (h.not_equiv_of_nil hp)
  · subst hM
    have e : s.points = L ++ m :: R := by simpa using h.eq
    have hv : value_at ltA s a = .ok m.value := by
      unfold value_at
      simp only [find_present h, e, getElem?_append_length]
    refine ⟨⟨?_, ?_⟩, ?_, ?_⟩
    · intro hc
      rw [hv] at hc
      exact absurd hc (by simp)
    · intro hc
      exact absurd (h.mid m (by simp)) (hc m (by rw [e]; simp))
    · intro p hp h1 h2
      have := h.mid_of_mem hp h1 h2
      simp only [List.cons.injEq, and_true] at this
      rw [← this]
      exact hv
    · intro hc
      rw [e] at hc
      simp at hc

/-- In Scenario A the argument 7 is absent and `value_at(7)` fails; the argument 3 is
present and `value_at(3)` gives 10. -/
theorem value_at_fails_iff_absent_witness :
    scenario_A.points.Pairwise (fun p q => nat_lt p.arg q.arg = true) ∧
    value_at nat_lt scenario_A 7 = .error InvalidArg.invalid_argument_value ∧
    value_at nat_lt scenario_A 3 = .ok 10 ∧
    ((value_at nat_lt scenario_A 7 = .error InvalidArg.invalid_argument_value ↔
      ∀ p ∈ scenario_A.points, ¬ (nat_lt p.arg 7 = false ∧ nat_lt 7 p.arg = false)) ∧
    (∀ p ∈ scenario_A.points, nat_lt p.arg 7 = false → nat_lt 7 p.arg = false →
      value_at nat_lt scenario_A 7 = .ok p.value) ∧
    (scenario_A.points = [] →
      value_at nat_lt scenario_A 7 = .error InvalidArg.invalid_argument_value)) :=
  ⟨by decide, rfl, rfl, value_at_fails_iff_absent nat_lt_swo scenario_A (by decide) 7⟩

end FunctionMaxima

namespace FunctionMaxima

variable {α A V σ E : Type}

/-- C3: `set_value` is atomic on failure.  The comparisons on `A` and on `V`, the
allocations, and the lookups and insertions of the two multisets are operations that may
throw, in any way that depends on their operands and on a hidden state; of the multisets
it is only assumed that `maxima.insert`, when it returns, has put the new element where
the iterator it returns points.  Then the outcome of `set_value(a, v)` is that of its
statements run in sequence: whichever operation is the first to throw, the call throws
that exception `e` and both indices are what they were before the call, every insertion
into the Maxima Index made so far being undone; and when no operation throws, the call
returns.  With the operations that throw `e` at the n-th operation: for a number `k`, the
operations the call makes, the call throws `e` and leaves the state as it was for every
`n` below `k`, and returns the state of the method that does not throw from `k` on. -/
theorem set_value_atomic (ops : throwing_ops σ E A V) (hins : ops.maxima.insert_ok)
    (s : FunctionMaxima A V) (a : A) (v : V) (c : σ) :
    set_valueE ops s a v c = atomic_outcome s (set_value_uncaught ops s a v c) ∧
    (∀ e, set_value_uncaught ops s a v c = .error e →
      set_valueE ops s a v c = .threw e s) ∧
    (∀ e s1, set_valueE ops s a v c = .threw e s1 →
      s1 = s ∧ set_value_uncaught ops s a v c = .error e) ∧
    (∀ (e : E) (ltA : A → A → Bool) (ltV : V → V → Bool), ∃ k, ∀ n,
      (n < k → set_valueE (countdown_ops e ltA ltV) s a v n = .threw e s) ∧
      (k ≤ n → set_valueE (countdown_ops e ltA ltV) s a v n =
        .returned (set_value ltA ltV s a v) (n - k))) := by
  have h := set_valueE_eq_atomic ops hins s a v c
  refine ⟨h, ?_, ?_, ?_⟩
  · intro e he
    rw [h, he]
    rfl
  · intro e s1 hs1
    rw [h] at hs1
    cases hu : set_value_uncaught ops s a v c with
    | error e2 =>
      rw [hu] at hs1
      simp only [atomic_outcome, outcome.threw.injEq] at hs1
      rw [hs1.1]
      exact ⟨hs1.2.symm, rfl⟩
    | ok r =>
      rw [hu] at hs1
      simp [atomic_outcome] at hs1
  · intro e ltA ltV
    obtain ⟨k, hk⟩ := runs_set_value_uncaught e ltA ltV s a v
    refine ⟨k, fun n => ⟨?_, ?_⟩⟩
    · intro hn
      rw [set_valueE_eq_atomic (countdown_ops e ltA ltV) (scan_insert_ok _ _) s a v n,
        (hk n).1 hn]
      rfl
    · intro hn
      rw [set_valueE_eq_atomic (countdown_ops e ltA ltV) (scan_insert_ok _ _) s a v n,
        (hk n).2 hn]
      rfl

/-- In the state (1,5), (2,10), (3,5) with the maximum (2,10), `set_value(2, 5)` makes all
three points maxima.  When the first operation, the 21st or the 51st throws 7, the call
throws 7 and the state is as it was; when none of the first 1000 operations throws, the
call returns the state of the method that does not throw. -/
theorem set_value_atomic_witness :
    (countdown_ops 7 nat_lt nat_lt).maxima.insert_ok ∧
    scenario_peak = ⟨[⟨1, 5⟩, ⟨2, 10⟩, ⟨3, 5⟩], [⟨2, 10⟩]⟩ ∧
    set_value nat_lt nat_lt scenario_peak 2 5 =
      ⟨[⟨1, 5⟩, ⟨2, 5⟩, ⟨3, 5⟩], [⟨1, 5⟩, ⟨2, 5⟩, ⟨3, 5⟩]⟩ ∧
    set_valueE (countdown_ops 7 nat_lt nat_lt) scenario_peak 2 5 0 =
      .threw 7 scenario_peak ∧
    set_valueE (countdown_ops 7 nat_lt nat_lt) scenario_peak 2 5 20 =
      .threw 7 scenario_peak ∧
    set_valueE (countdown_ops 7 nat_lt nat_lt) scenario_peak 2 5 50 =
      .threw 7 scenario_peak ∧
    (∃ c1, set_valueE (countdown_ops 7 nat_lt nat_lt) scenario_peak 2 5 1000 =
      .returned (set_value nat_lt nat_lt scenario_peak 2 5) c1) ∧
    (set_valueE (countdown_ops 7 nat_lt nat_lt) scenario_peak 2 5 50 =
        atomic_outcome scenario_peak
          (set_value_uncaught (countdown_ops 7 nat_lt nat_lt) scenario_peak 2 5 50) ∧
      (∀ e, set_value_uncaught (countdown_ops 7 nat_lt nat_lt) scenario_peak 2 5 50 =
          .error e →
        set_valueE (countdown_ops 7 nat_lt nat_lt) scenario_peak 2 5 50 =
          .threw e scenario_peak) ∧
      (∀ e s1, set_valueE (countdown_ops 7 nat_lt nat_lt) scenario_peak 2 5 50 =
          .threw e s1 →
        s1 = scenario_peak ∧
          set_value_uncaught (countdown_ops 7 nat_lt nat_lt) scenario_peak 2 5 50 =
            .error e) ∧
      (∀ (e : Nat) (ltA : Nat → Nat → Bool) (ltV : Nat → Nat → Bool), ∃ k, ∀ n,
        (n < k → set_valueE (countdown_ops e ltA ltV) scenario_peak 2 5 n =
          .threw e scenario_peak) ∧
        (k ≤ n → set_valueE (countdown_ops e ltA ltV) scenario_peak 2 5 n =
          .returned (set_value ltA ltV scenario_peak 2 5) (n - k)))) :=
  ⟨scan_insert_ok _ _, by decide, by decide, by decide, by decide, by decide,
    ⟨946, by decide⟩,
    set_value_atomic (countdown_ops 7 nat_lt nat_lt) (scan_insert_ok _ _) scenario_peak 2 5
      50⟩

/-- C4: `erase` is atomic on failure.  The comparisons on `A` and on `V`, the allocations,
and the lookups and insertions of the two multisets are operations that may throw, in any
way that depends on their operands and on a hidden state; of the multisets it is only
assumed that `maxima.insert`, when it returns, has put the new element where the iterator
it returns points.  Then the outcome of `erase(a)` is that of its statements run in
sequence: whichever operation is the first to throw, the call throws that exception `e`
and both indices are what they were before the call, so that `find(a)` and `value_at(a)`
give what they gave; and when no operation throws, the call returns.  With the operations
that throw `e` at the n-th operation: for a number `k`, the operations the call makes, the
call throws `e` and leaves the state as it was for every `n` below `k`, and returns the
state of the method that does not throw from `k` on. -/
theorem erase_atomic (ops : throwing_ops σ E A V) (hins : ops.maxima.insert_ok)
    (s : FunctionMaxima A V) (a : A) (c : σ) :
    eraseE ops s a c = atomic_outcome s (erase_uncaught ops s a c) ∧
    (∀ e, erase_uncaught ops s a c = .error e → eraseE ops s a c = .threw e s) ∧
    (∀ e s1, eraseE ops s a c = .threw e s1 →
      s1 = s ∧ erase_uncaught ops s a c = .error e ∧
      ∀ lt : A → A → Bool, find lt s1 a = find lt s a ∧ value_at lt s1 a = value_at lt s a) ∧
    (∀ (e : E) (ltA : A → A → Bool) (ltV : V → V → Bool), ∃ k, ∀ n,
      (n < k → eraseE (countdown_ops e ltA ltV) s a n = .threw e s) ∧
      (k ≤ n → eraseE (countdown_ops e ltA ltV) s a n =
        .returned (erase ltA ltV s a) (n - k))) := by
  have h := eraseE_eq_atomic ops hins s a c
  refine ⟨h, ?_, ?_, ?_⟩
  · intro e he
    rw [h, he]
    rfl
  · intro e s1 hs1
    rw [h] at hs1
    cases hu : erase_uncaught ops s a c with
    | error e2 =>
      rw [hu] at hs1
      simp only [atomic_outcome, outcome.threw.injEq] at hs1
      rw [hs1.1, ← hs1.2]
      exact ⟨rfl, rfl, fun _ => ⟨rfl, rfl⟩⟩
    | ok r =>
      rw [hu] at hs1
      simp [atomic_outcome] at hs1
  · intro e ltA ltV
    obtain ⟨k, hk⟩ := runs_erase_uncaught e ltA ltV s a
    refine ⟨k, fun n => ⟨?_, ?_⟩⟩
    · intro hn
      rw [eraseE_eq_atomic (countdown_ops e ltA ltV) (scan_insert_ok _ _) s a n,
        (hk n).1 hn]
      rfl
    · intro hn
      rw [eraseE_eq_atomic (countdown_ops e ltA ltV) (scan_insert_ok _ _) s a n,
        (hk n).2 hn]
      rfl

/-- In the state (1,5), (2,10), (3,5) with the maximum (2,10), `erase(2)` makes the two
points that remain maxima.  When the first operation, the 11th or the 31st throws 7, the
call throws 7, the state is as it was and `value_at(2)` still gives 10; when none of the
first 1000 operations throws, the call returns the state of the method that does not
throw. -/
theorem erase_atomic_witness :
    (countdown_ops 7 nat_lt nat_lt).maxima.insert_ok ∧
    erase nat_lt nat_lt scenario_peak 2 = ⟨[⟨1, 5⟩, ⟨3, 5⟩], [⟨1, 5⟩, ⟨3, 5⟩]⟩ ∧
    eraseE (countdown_ops 7 nat_lt nat_lt) scenario_peak 2 0 = .threw 7 scenario_peak ∧
    eraseE (countdown_ops 7 nat_lt nat_lt) scenario_peak 2 10 = .threw 7 scenario_peak ∧
    eraseE (countdown_ops 7 nat_lt nat_lt) scenario_peak 2 30 = .threw 7 scenario_peak ∧
    value_at nat_lt scenario_peak 2 = .ok 10 ∧
    (∃ c1, eraseE (countdown_ops 7 nat_lt nat_lt) scenario_peak 2 1000 =
      .returned (erase nat_lt nat_lt scenario_peak 2) c1) ∧
    (eraseE (countdown_ops 7 nat_lt nat_lt) scenario_peak 2 30 =
        atomic_outcome scenario_peak
          (erase_uncaught (countdown_ops 7 nat_lt nat_lt) scenario_peak 2 30) ∧
      (∀ e, erase_uncaught (countdown_ops 7 nat_lt nat_lt) scenario_peak 2 30 = .error e →
        eraseE (countdown_ops 7 nat_lt nat_lt) scenario_peak 2 30 =
          .threw e scenario_peak) ∧
      (∀ e s1, eraseE (countdown_ops 7 nat_lt nat_lt) scenario_peak 2 30 = .threw e s1 →
        s1 = scenario_peak ∧
        erase_uncaught (countdown_ops 7 nat_lt nat_lt) scenario_peak 2 30 = .error e ∧
        ∀ lt : Nat → Nat → Bool, find lt s1 2 = find lt scenario_peak 2 ∧
          value_at lt s1 2 = value_at lt scenario_peak 2) ∧
      (∀ (e : Nat) (ltA : Nat → Nat → Bool) (ltV : Nat → Nat → Bool), ∃ k, ∀ n,
        (n < k → eraseE (countdown_ops e ltA ltV) scenario_peak 2 n =
          .threw e scenario_peak) ∧
        (k ≤ n → eraseE (countdown_ops e ltA ltV) scenario_peak 2 n =
          .returned (erase ltA ltV scenario_peak 2) (n - k)))) :=
  ⟨scan_insert_ok _ _, by decide, by decide, by decide, by decide, rfl,
    ⟨960, by decide⟩,
    erase_atomic (countdown_ops 7 nat_lt nat_lt) (scan_insert_ok _ _) scenario_peak 2 30⟩

/-- C7: deletion.  For strict weak orders on `A` and on `V` and every state of the
structure, that is every state reachable from the empty structure by `set_value` and
`erase`: the domain has unique arguments in strictly increasing order, after `erase(a)`
the call `find(a)` gives `end()`, and no entry of the Maxima Index has an argument
equivalent to `a`. -/
theorem erase_then_find {ltA : A → A → Bool} {ltV : V → V → Bool}
    (hA : StrictWeakOrder ltA) (hV : StrictWeakOrder ltV) (s : FunctionMaxima A V)
    (hr : Reachable ltA ltV s) (a : A) :
    s.points.Pairwise (fun p q => ltA p.arg q.arg = true) ∧
    find ltA (erase ltA ltV s a) a = (erase ltA ltV s a).points.length ∧
    ∀ p ∈ (erase ltA ltV s a).maxima,
      ¬ (ltA p.arg a = false ∧ ltA a p.arg = false) := by
  have hwf := reachable_wellFormed hA hV hr
  have hs := hwf.points_sorted
  have hmd := hwf.maximaInDomain
  obtain ⟨L, M, R, h⟩ := splitAt_exists hA s.points hs a
  have hpts := erase_points hA ltV s a h
  have h2 : SplitAt ltA (erase ltA ltV s a).points a L [] R :=
    ⟨by simp [hpts], h.left, by simp, h.right, by simp⟩
  refine ⟨hs, find_absent hA h2, ?_⟩
  intro p hp
  have hLR : p ∈ L ∨ p ∈ R := by
    rcases h.mid_cases with hM | ⟨m, hM⟩
    · subst hM
      rw [erase_of_find_eq_end ltA ltV s a (find_absent hA h)] at hp
      have := hmd.subset p hp
      rw [h.eq] at this
      simpa using this
    · subst hM
      have e : s.points = L ++ m :: R := by simpa using h.eq
      have hm : s.points[find ltA s a]? = some m := by
        rw [find_present h, e]
        exact getElem?_append_length L R m
      have h3 := splitAt_self hA hs e
      have hmx := erase_maxima_eq ltA ltV s a hm
      rw [find_present h] at hmx
      rw [hmx] at hp
      rcases (erase_located hA hV s h3).commit_subset hA hV hmd h3 p hp with hl | hr | hn
      · exact Or.inl hl
      · exact Or.inr hr
      · exact absurd hn.1 (by simp [erase_locals])
  intro hc
  rcases hLR with hl | hr
  · have := h.left p hl
    rw [hc.1] at this
    exact absurd this (by decide)
  · have := h.right p hr
    rw [hc.2] at this
    exact absurd this (by decide)

/-- In Scenario A, after `erase(3)` the call `find(3)` gives `end()`, which is 3, and the
maximum (3,10) is gone from the Maxima Index. -/
theorem erase_then_find_witness :
    Reachable nat_lt nat_lt scenario_A ∧
    scenario_A.maxima = [⟨1, 10⟩, ⟨3, 10⟩] ∧
    find nat_lt (erase nat_lt nat_lt scenario_A 3) 3 = 3 ∧
    (erase nat_lt nat_lt scenario_A 3).maxima = [⟨1, 10⟩] ∧
    (scenario_A.points.Pairwise (fun p q => nat_lt p.arg q.arg = true) ∧
      find nat_lt (erase nat_lt nat_lt scenario_A 3) 3 =
        (erase nat_lt nat_lt scenario_A 3).points.length ∧
      ∀ p ∈ (erase nat_lt nat_lt scenario_A 3).maxima,
        ¬ (nat_lt p.arg 3 = false ∧ nat_lt 3 p.arg = false)) :=
  ⟨scenario_A_reachable, by decide, by decide, by decide,
    erase_then_find nat_lt_swo nat_lt_swo scenario_A scenario_A_reachable 3⟩

/-- C8: erasing an absent argument is a successful no-op.  For every state and every `a`
such that no domain point has an argument equivalent to `a` (as in the empty domain),
`erase(a)` leaves the Domain Index and the Maxima Index as they were; and with operations
that do not throw it returns, without an exception. -/
theorem erase_absent (ltA : A → A → Bool) (ltV : V → V → Bool) (s : FunctionMaxima A V)
    (a : A) (ha : ∀ p ∈ s.points, ¬ (ltA p.arg a = false ∧ ltA a p.arg = false)) :
    erase ltA ltV s a = s ∧
    ∀ (σ E : Type) (c : σ),
      eraseE (pure_ops ltA ltV : throwing_ops σ E A V) s a c = .returned s c := by
  have h : erase ltA ltV s a = s := by
    apply erase_of_find_eq_end
    unfold find
    split
    · rfl
    · rename_i p t hp
      exact multiset_find_of_no_equiv (points_comparator ltA) s.points ⟨a, p.value⟩ ha
  refine ⟨h, ?_⟩
  intro σ E c
  rw [eraseE_pure, h]

/-- In Scenario A the argument 7 is absent and `erase(7)` changes nothing; on the
empty function `erase(7)` changes nothing as well. -/
theorem erase_absent_witness :
    (∀ p ∈ scenario_A.points, ¬ (nat_lt p.arg 7 = false ∧ nat_lt 7 p.arg = false)) ∧
    erase nat_lt nat_lt (empty : FunctionMaxima Nat Nat) 7 = empty ∧
    (erase nat_lt nat_lt scenario_A 7 = scenario_A ∧
      ∀ (σ E : Type) (c : σ),
        eraseE (pure_ops nat_lt nat_lt : throwing_ops σ E Nat Nat) scenario_A 7 c =
          .returned scenario_A c) :=
  ⟨by decide, by decide, erase_absent nat_lt nat_lt scenario_A 7 (by decide)⟩

/-- C9: the maxima are a subset of the domain.  For strict weak orders on `A` and on `V`,
in every state reachable from the empty structure by `set_value` and `erase`, every point
of the Maxima Index is a point of the Domain Index, with the same argument and the same
value; and after a further `set_value(a, v)` the only entry of the Maxima Index with an
argument equivalent to `a` is `(a, v)`, so no entry carries a superseded value. -/
theorem reachable_maxima_subset {ltA : A → A → Bool} {ltV : V → V → Bool}
    (hA : StrictWeakOrder ltA) (hV : StrictWeakOrder ltV) (s : FunctionMaxima A V)
    (h : Reachable ltA ltV s) :
    (∀ p ∈ s.maxima, p ∈ s.points) ∧
    ∀ (a : A) (v : V), ∀ p ∈ (set_value ltA ltV s a v).maxima,
      ltA p.arg a = false → ltA a p.arg = false → p = ⟨a, v⟩ := by
  have hwf := reachable_wellFormed hA hV h
  refine ⟨fun p hp => hwf.mem_points hp, ?_⟩
  intro a v p hp h1 h2
  obtain ⟨L, M, R, hsp⟩ := splitAt_exists hA s.points hwf.points_sorted a
  have hpts := set_value_points hA ltV s a v hsp
  have hsp2 : SplitAt ltA (set_value ltA ltV s a v).points a L [⟨a, v⟩] R := by
    refine ⟨by simp [hpts], hsp.left, ?_, hsp.right, by simp⟩
    intro x hx
    rw [List.mem_singleton] at hx
    subst hx
    exact ⟨hA.irrefl a, hA.irrefl a⟩
  have := hsp2.mid_of_mem ((set_value_wellFormed hA hV hwf a v).mem_points hp) h1 h2
  simp only [List.cons.injEq, and_true] at this
  exact this.symm

/-- In Scenario A the two maxima are domain points, and overwriting the maximum (3,10)
by (3,0) leaves (1,10) and the new maximum (4,1) in the Maxima Index, and no (3,10). -/
theorem reachable_maxima_subset_witness :
    Reachable nat_lt nat_lt scenario_A ∧
    scenario_A.maxima = [⟨1, 10⟩, ⟨3, 10⟩] ∧
    (set_value nat_lt nat_lt scenario_A 3 0).maxima = [⟨1, 10⟩, ⟨4, 1⟩] ∧
    ((∀ p ∈ scenario_A.maxima, p ∈ scenario_A.points) ∧
      ∀ (a v : Nat), ∀ p ∈ (set_value nat_lt nat_lt scenario_A a v).maxima,
        nat_lt p.arg a = false → nat_lt a p.arg = false → p = ⟨a, v⟩) :=
  ⟨scenario_A_reachable, by decide, by decide,
    reachable_maxima_subset nat_lt_swo nat_lt_swo scenario_A scenario_A_reachable⟩

/-- C10: domain order and uniqueness.  For a strict weak order on `A`, in every state
reachable from the empty structure by `set_value` and `erase`, the arguments of the Domain
Index from `begin()` to `end()` are strictly increasing, so that no two domain points have
equivalent arguments. -/
theorem reachable_points_sorted {ltA : A → A → Bool} (ltV : V → V → Bool)
    (hA : StrictWeakOrder ltA) (s : FunctionMaxima A V) (h : Reachable ltA ltV s) :
    s.points.Pairwise (fun p q => ltA p.arg q.arg = true ∧
      ¬ (ltA p.arg q.arg = false ∧ ltA q.arg p.arg = false)) := by
  have hs : s.points.Pairwise (fun p q => ltA p.arg q.arg = true) := by
    induction h with
    | empty => simp [empty]
    | set_value s a v _ ih =>
      obtain ⟨L, M, R, hsp⟩ := splitAt_exists hA s.points ih a
      rw [set_value_points hA ltV s a v hsp]
      exact pairwise_of_split hsp ih v
    | erase s a _ ih =>
      obtain ⟨L, M, R, hsp⟩ := splitAt_exists hA s.points ih a
      rw [erase_points hA ltV s a hsp]
      exact pairwise_of_split_erase hsp ih
  refine hs.imp ?_
  intro p q hpq
  refine ⟨hpq, ?_⟩
  intro hc
  rw [hpq] at hc
  exact absurd hc.1 (by decide)

/-- Inserting the arguments 3, 1, 2 and then 1 again gives the domain (1,9), (2,0), (3,0),
with its arguments in increasing order and the argument 1 once. -/
theorem reachable_points_sorted_witness :
    (set_value nat_lt nat_lt (set_value nat_lt nat_lt (set_value nat_lt nat_lt
      (set_value nat_lt nat_lt empty 3 0) 1 0) 2 0) 1 9).points =
      [⟨1, 9⟩, ⟨2, 0⟩, ⟨3, 0⟩] ∧
    (set_value nat_lt nat_lt (set_value nat_lt nat_lt (set_value nat_lt nat_lt
      (set_value nat_lt nat_lt empty 3 0) 1 0) 2 0) 1 9).points.Pairwise
      (fun p q => nat_lt p.arg q.arg = true ∧
        ¬ (nat_lt p.arg q.arg = false ∧ nat_lt q.arg p.arg = false)) :=
  ⟨by decide,
    reachable_points_sorted nat_lt nat_lt_swo _
      (Reachable.set_value _ 1 9 (Reachable.set_value _ 2 0 (Reachable.set_value _ 1 0
        (Reachable.set_value _ 3 0 Reachable.empty))))⟩

end FunctionMaxima

namespace FunctionMaxima

variable {α A V σ E : Type}

/-- C11: the order of the maxima.  For strict weak orders on `A` and on `V`, in every
state reachable from the empty structure by `set_value` and `erase`, the values of the
Maxima Index from `mx_begin()` to `mx_end()` never increase: no later entry has a value
greater than the value of an earlier entry; and of two consecutive entries with equivalent
values the later one has the strictly greater argument. -/
theorem reachable_maxima_order {ltA : A → A → Bool} {ltV : V → V → Bool}
    (hA : StrictWeakOrder ltA) (hV : StrictWeakOrder ltV) (s : FunctionMaxima A V)
    (h : Reachable ltA ltV s) :
    s.maxima.Pairwise (fun p q => ltV p.value q.value = false) ∧
    ∀ (i : Nat) (p q : point_type A V), mx_begin s ≤ i → i + 1 < mx_end s →
      s.maxima[i]? = some p → s.maxima[i + 1]? = some q →
      ltV p.value q.value = false → ltV q.value p.value = false →
      ltA p.arg q.arg = true := by
  have hwf := reachable_wellFormed hA hV h
  constructor
  · refine hwf.maxima_sorted.imp ?_
    intro p q hpq
    rcases (maxima_comparator_eq_true_iff ltA ltV p q).1 hpq with h1 | h1
    · exact hV.asymm h1
    · exact h1.1
  · intro i p q _ _ hp hq h1 h2
    obtain ⟨hi, ep⟩ := List.getElem?_eq_some.1 hp
    obtain ⟨hj, eq⟩ := List.getElem?_eq_some.1 hq
    have hc := List.pairwise_iff_getElem.1 hwf.maxima_sorted i (i + 1) hi hj (by omega)
    rw [ep, eq] at hc
    rcases (maxima_comparator_eq_true_iff ltA ltV p q).1 hc with h3 | h3
    · rw [h2] at h3
      exact absurd h3 (by decide)
    · exact h3.2.2

/-- After the points (1,10), (2,5), (3,10) the maxima are (1,10), (3,10): the values do not
increase and the equivalent values 10, 10 come with the arguments 1, 3 in this order. -/
theorem reachable_maxima_order_witness :
    Reachable nat_lt nat_lt scenario_three ∧
    scenario_three.maxima = [⟨1, 10⟩, ⟨3, 10⟩] ∧
    (scenario_three.maxima.Pairwise (fun p q => nat_lt p.value q.value = false) ∧
      ∀ (i : Nat) (p q : point_type Nat Nat), mx_begin scenario_three ≤ i →
        i + 1 < mx_end scenario_three →
        scenario_three.maxima[i]? = some p → scenario_three.maxima[i + 1]? = some q →
        nat_lt p.value q.value = false → nat_lt q.value p.value = false →
        nat_lt p.arg q.arg = true) :=
  ⟨scenario_three_reachable, by decide,
    reachable_maxima_order nat_lt_swo nat_lt_swo scenario_three scenario_three_reachable⟩

/-- C12: the first maximum is the global maximum.  For strict weak orders on `A` and on
`V`, in every reachable state with a non-empty domain the Maxima Index is not empty
(`mx_begin()` is not `mx_end()`), and the value of the entry at `mx_begin()` is not less
than the value of any point of the Domain Index. -/
theorem first_maximum_greatest {ltA : A → A → Bool} {ltV : V → V → Bool}
    (hA : StrictWeakOrder ltA) (hV : StrictWeakOrder ltV) (s : FunctionMaxima A V)
    (h : Reachable ltA ltV s) (hne : s.points ≠ []) :
    mx_begin s ≠ mx_end s ∧
    ∃ m, s.maxima[mx_begin s]? = some m ∧ ∀ p ∈ s.points, ltV m.value p.value = false := by
  have hwf := reachable_wellFormed hA hV h
  obtain ⟨g, hg, hmax⟩ := exists_greatest hV s.points hne
  have hgm : g ∈ s.maxima :=
    (hwf.mem_maxima_iff g).2 (mem_local_maxima_of_greatest s.points g hg hmax)
  unfold mx_begin mx_end
  cases hm : s.maxima with
  | nil =>
    rw [hm] at hgm
    exact absurd hgm (by simp)
  | cons m rest =>
    refine ⟨by simp, m, by simp, ?_⟩
    have hmg : ltV m.value g.value = false := by
      rw [hm] at hgm
      rcases List.mem_cons.1 hgm with e | hr
      · rw [e]
        exact hV.irrefl _
      · have hs := hwf.maxima_sorted
        rw [hm] at hs
        have hc := (List.pairwise_cons.1 hs).1 g hr
        rcases (maxima_comparator_eq_true_iff ltA ltV m g).1 hc with h1 | h1
        · exact hV.asymm h1
        · exact h1.1
    intro p hp
    exact hV.not_lt_trans hmg (hmax p hp)

/-- In Scenario A the first maximum is (1,10), and no point of the domain (1,10), (2,5),
(3,10), (4,1) has a value above 10. -/
theorem first_maximum_greatest_witness :
    Reachable nat_lt nat_lt scenario_A ∧ scenario_A.points ≠ [] ∧
    scenario_A.points = [⟨1, 10⟩, ⟨2, 5⟩, ⟨3, 10⟩, ⟨4, 1⟩] ∧
    scenario_A.maxima[mx_begin scenario_A]? = some ⟨1, 10⟩ ∧
    (mx_begin scenario_A ≠ mx_end scenario_A ∧
      ∃ m, scenario_A.maxima[mx_begin scenario_A]? = some m ∧
        ∀ p ∈ scenario_A.points, nat_lt m.value p.value = false) :=
  ⟨scenario_A_reachable, by decide, by decide, by decide,
    first_maximum_greatest nat_lt_swo nat_lt_swo scenario_A scenario_A_reachable
      (by decide)⟩

end FunctionMaxima

namespace FunctionMaxima

variable {α A V σ E : Type}

/-- C13: the singleton domain.  For strict weak orders on `A` and on `V`, in every
reachable state whose domain is the one point `p`, the Maxima Index is `p` alone, whatever
the value of `p`.  The code has no case for a missing neighbour: for the first point it
calls `is_maximum(new_mid, new_mid, new_mid)`, and when `erase` leaves one point it calls
`is_maximum` with that point in all three places, so that for any less-than test `lt` on
the values, a strict weak order or not, the point becomes a maximum exactly when
`lt v v` is false. -/
theorem singleton_domain {ltA : A → A → Bool} {ltV : V → V → Bool}
    (hA : StrictWeakOrder ltA) (hV : StrictWeakOrder ltV) (s : FunctionMaxima A V)
    (h : Reachable ltA ltV s) (p : point_type A V) (hp : s.points = [p]) :
    s.maxima = [p] ∧
    (∀ (lt : V → V → Bool) (a : A) (v : V),
      (set_value_locals ltA lt empty a v).is_max_new =
        is_maximum lt (⟨a, v⟩ : point_type A V) ⟨a, v⟩ ⟨a, v⟩ ∧
      set_value ltA lt empty a v = ⟨[⟨a, v⟩], if lt v v = true then [] else [⟨a, v⟩]⟩) ∧
    (∀ (lt : V → V → Bool) (q : point_type A V) (mx : List (point_type A V)),
      (ltA p.arg q.arg = true →
        (erase_locals ltA lt ⟨[p, q], mx⟩ 1 q).is_max_left = is_maximum lt p p p) ∧
      (ltA q.arg p.arg = true →
        (erase_locals ltA lt ⟨[q, p], mx⟩ 0 q).is_max_right = is_maximum lt p p p)) := by
  have hwf := reachable_wellFormed hA hV h
  refine ⟨?_, ?_, ?_⟩
  · have hperm := hwf.perm hA hV
    rw [hp] at hperm
    simpa [local_maxima_between, not_below] using hperm
  · intro lt a v
    constructor
    · simp [set_value_locals, empty, multiset_find, multiset_lower_bound,
        multiset_upper_bound]
    · simp [set_value, set_value_locals, empty, multiset_find, multiset_lower_bound,
        multiset_upper_bound, multiset_insert, insert_at, is_maximum, mx_state.insert]
      cases lt v v <;> simp
  · intro lt q mx
    have hqq := hA.irrefl q.arg
    constructor
    · intro hpq
      have hqp := hA.asymm hpq
      simp [erase_locals, multiset_upper_bound, points_comparator, hqq, hqp, deref]
    · intro hqp
      simp [erase_locals, multiset_upper_bound, points_comparator, hqq, hqp, deref]

/-- The first point (7,0) is a maximum although its value is the least there is, and so is
the point (2,3) that remains when (1,9) is erased; with the test `≤` in place of `<` on the
values, which is not irreflexive, the first point is not put into the Maxima Index. -/
theorem singleton_domain_witness :
    Reachable nat_lt nat_lt (set_value nat_lt nat_lt empty 7 0) ∧
    (set_value nat_lt nat_lt empty 7 0).points = [⟨7, 0⟩] ∧
    erase nat_lt nat_lt (set_value nat_lt nat_lt (set_value nat_lt nat_lt empty 1 9) 2 3) 1 =
      ⟨[⟨2, 3⟩], [⟨2, 3⟩]⟩ ∧
    set_value nat_lt nat_le empty 7 0 = ⟨[⟨7, 0⟩], []⟩ ∧
    ((set_value nat_lt nat_lt empty 7 0).maxima = [⟨7, 0⟩] ∧
      (∀ (lt : Nat → Nat → Bool) (a : Nat) (v : Nat),
        (set_value_locals nat_lt lt empty a v).is_max_new =
          is_maximum lt (⟨a, v⟩ : point_type Nat Nat) ⟨a, v⟩ ⟨a, v⟩ ∧
        set_value nat_lt lt empty a v =
          ⟨[⟨a, v⟩], if lt v v = true then [] else [⟨a, v⟩]⟩) ∧
      (∀ (lt : Nat → Nat → Bool) (q : point_type Nat Nat) (mx : List (point_type Nat Nat)),
        (nat_lt (⟨7, 0⟩ : point_type Nat Nat).arg q.arg = true →
          (erase_locals nat_lt lt ⟨[⟨7, 0⟩, q], mx⟩ 1 q).is_max_left =
            is_maximum lt (⟨7, 0⟩ : point_type Nat Nat) ⟨7, 0⟩ ⟨7, 0⟩) ∧
        (nat_lt q.arg (⟨7, 0⟩ : point_type Nat Nat).arg = true →
          (erase_locals nat_lt lt ⟨[q, ⟨7, 0⟩], mx⟩ 0 q).is_max_right =
            is_maximum lt (⟨7, 0⟩ : point_type Nat Nat) ⟨7, 0⟩ ⟨7, 0⟩))) :=
  ⟨Reachable.set_value _ 7 0 Reachable.empty, by decide, by decide, by decide,
    singleton_domain nat_lt_swo nat_lt_swo (set_value nat_lt nat_lt empty 7 0)
      (Reachable.set_value _ 7 0 Reachable.empty) ⟨7, 0⟩ (by decide)⟩

end FunctionMaxima

namespace FunctionMaxima

variable {α A V σ E : Type}

/-- C14, as amended: the transient duplicate.  For a strict weak order on `A`, a state
whose domain is strictly increasing in the argument and an argument `a` that the domain
point `o` has, `set_value(a, v)` inserts the new point into the Domain Index, behind `o`,
before it removes `o`: the Domain Index has the one entry `o` at `a` up to the insertion,
the two entries `o`, `(a, v)` from `points.insert` until `points.erase`, and the one entry
`(a, v)` from then on; the last of these states is the result of the call. -/
theorem set_value_transient_duplicate {ltA : A → A → Bool} (hA : StrictWeakOrder ltA)
    (ltV : V → V → Bool) (s : FunctionMaxima A V)
    (hs : s.points.Pairwise (fun p q => ltA p.arg q.arg = true)) (a : A) (v : V)
    (ha : ∃ p ∈ s.points, ltA p.arg a = false ∧ ltA a p.arg = false) :
    ∃ (L R : List (point_type A V)) (o : point_type A V),
      s.points = L ++ o :: R ∧ (ltA o.arg a = false ∧ ltA a o.arg = false) ∧
      (set_value_steps ltA ltV s a v).map (fun t => t.points) =
        [L ++ o :: R, L ++ o :: R, L ++ o :: R,
          L ++ o :: ⟨a, v⟩ :: R, L ++ o :: ⟨a, v⟩ :: R, L ++ o :: ⟨a, v⟩ :: R,
          L ++ ⟨a, v⟩ :: R, L ++ ⟨a, v⟩ :: R] ∧
      (set_value_steps ltA ltV s a v).map (fun t => entries_at ltA t.points a) =
        [[o], [o], [o], [o, ⟨a, v⟩], [o, ⟨a, v⟩], [o, ⟨a, v⟩], [⟨a, v⟩], [⟨a, v⟩]] ∧
      (set_value_steps ltA ltV s a v).getLast? = some (set_value ltA ltV s a v) := by
  obtain ⟨L, M, R, h⟩ := splitAt_exists hA s.points hs a
  obtain ⟨p, hp, hpa⟩ := ha
  have hM := h.mid_of_mem hp hpa.1 hpa.2
  subst hM
  have e : s.points = L ++ p :: R := by simpa using h.eq
  have hsteps : (set_value_steps ltA ltV s a v).map (fun t => t.points) =
      [s.points, s.points, s.points,
        (multiset_insert (points_comparator ltA) s.points ⟨a, v⟩).1,
        (multiset_insert (points_comparator ltA) s.points ⟨a, v⟩).1,
        (multiset_insert (points_comparator ltA) s.points ⟨a, v⟩).1,
        (set_value ltA ltV s a v).points, (set_value ltA ltV s a v).points] := rfl
  have hins : (multiset_insert (points_comparator ltA) s.points ⟨a, v⟩).1 =
      L ++ p :: ⟨a, v⟩ :: R := by
    unfold multiset_insert
    simp only
    rw [upper_bound_points hA h v, e]
    have e2 : L ++ p :: R = (L ++ [p]) ++ R := by simp
    have e3 : L.length + [p].length = (L ++ [p]).length := by simp
    rw [e2, e3, insert_at_append_length]
    simp
  have hfin := set_value_points hA ltV s a v h
  have hmap : (set_value_steps ltA ltV s a v).map (fun t => entries_at ltA t.points a) =
      ((set_value_steps ltA ltV s a v).map (fun t => t.points)).map
        (fun pts => entries_at ltA pts a) := by
    rw [List.map_map]
    rfl
  have hL := entries_at_eq_nil L a (fun x hx => Or.inl (h.left x hx))
  have hR := entries_at_eq_nil R a (fun x hx => Or.inr (h.right x hx))
  have hnew : ltA a a = false := hA.irrefl a
  have c1 : entries_at ltA (L ++ p :: R) a = [p] := by
    rw [← e]
    exact entries_at_split h
  have c2 : entries_at ltA (L ++ p :: ⟨a, v⟩ :: R) a = [p, ⟨a, v⟩] := by
    have e4 : L ++ p :: ⟨a, v⟩ :: R = L ++ ([p, ⟨a, v⟩] ++ R) := by simp
    rw [e4, entries_at_append, entries_at_append, hL, hR,
      entries_at_eq_self [p, ⟨a, v⟩] a]
    · simp
    · intro x hx
      simp only [List.mem_cons, List.mem_singleton, List.mem_nil_iff, or_false] at hx
      rcases hx with rfl | rfl
      · exact hpa
      · exact ⟨hnew, hnew⟩
  have c3 : entries_at ltA (L ++ ⟨a, v⟩ :: R) a = [⟨a, v⟩] := by
    have e5 : L ++ (⟨a, v⟩ : point_type A V) :: R = L ++ [⟨a, v⟩] ++ R := by simp
    have hsp : SplitAt ltA (L ++ (⟨a, v⟩ : point_type A V) :: R) a L [⟨a, v⟩] R := by
      refine ⟨e5, h.left, ?_, h.right, by simp⟩
      intro x hx
      rw [List.mem_singleton] at hx
      subst hx
      exact ⟨hnew, hnew⟩
    exact entries_at_split hsp
  refine ⟨L, R, p, e, hpa, ?_, ?_, rfl⟩
  · rw [hsteps, hins, hfin, e]
  · rw [hmap, hsteps, hins, hfin, e]
    simp only [List.map_cons, List.map_nil, c1, c2, c3]

/-- Overwriting the point (3,10) of Scenario A by (3,0): the Domain Index holds (3,10)
alone at the argument 3 in the first three states, (3,10) and (3,0) in the next three, and
(3,0) alone in the last two. -/
theorem set_value_transient_duplicate_witness :
    scenario_A.points.Pairwise (fun p q => nat_lt p.arg q.arg = true) ∧
    (∃ p ∈ scenario_A.points, nat_lt p.arg 3 = false ∧ nat_lt 3 p.arg = false) ∧
    (set_value_steps nat_lt nat_lt scenario_A 3 0).map
        (fun t => (entries_at nat_lt t.points 3).length) = [1, 1, 1, 2, 2, 2, 1, 1] ∧
    (∃ (L R : List (point_type Nat Nat)) (o : point_type Nat Nat),
      scenario_A.points = L ++ o :: R ∧ (nat_lt o.arg 3 = false ∧ nat_lt 3 o.arg = false) ∧
      (set_value_steps nat_lt nat_lt scenario_A 3 0).map (fun t => t.points) =
        [L ++ o :: R, L ++ o :: R, L ++ o :: R,
          L ++ o :: ⟨3, 0⟩ :: R, L ++ o :: ⟨3, 0⟩ :: R, L ++ o :: ⟨3, 0⟩ :: R,
          L ++ ⟨3, 0⟩ :: R, L ++ ⟨3, 0⟩ :: R] ∧
      (set_value_steps nat_lt nat_lt scenario_A 3 0).map
          (fun t => entries_at nat_lt t.points 3) =
        [[o], [o], [o], [o, ⟨3, 0⟩], [o, ⟨3, 0⟩], [o, ⟨3, 0⟩], [⟨3, 0⟩], [⟨3, 0⟩]] ∧
      (set_value_steps nat_lt nat_lt scenario_A 3 0).getLast? =
        some (set_value nat_lt nat_lt scenario_A 3 0)) :=
  ⟨by decide, by decide, by decide,
    set_value_transient_duplicate nat_lt_swo nat_lt scenario_A (by decide) 3 0 (by decide)⟩

/-- C14, as stated, fails: in the state with the one point (1,5), `set_value(1, 7)` goes
through states whose Domain Index holds both (1,5) and (1,7), because `points.insert`
comes before `points.erase`: it is not true that every intermediate state has at most one
entry at the argument 1, and the old entry is still there when the new one has been
inserted. -/
theorem set_value_transient_duplicate_counterexample :
    set_value nat_lt nat_lt empty 1 5 = ⟨[⟨1, 5⟩], [⟨1, 5⟩]⟩ ∧
    (set_value_steps nat_lt nat_lt ⟨[⟨1, 5⟩], [⟨1, 5⟩]⟩ 1 7).map (fun t => t.points) =
      [[⟨1, 5⟩], [⟨1, 5⟩], [⟨1, 5⟩], [⟨1, 5⟩, ⟨1, 7⟩], [⟨1, 5⟩, ⟨1, 7⟩],
        [⟨1, 5⟩, ⟨1, 7⟩], [⟨1, 7⟩], [⟨1, 7⟩]] ∧
    ¬ (∀ t ∈ set_value_steps nat_lt nat_lt ⟨[⟨1, 5⟩], [⟨1, 5⟩]⟩ 1 7,
      (entries_at nat_lt t.points 1).length ≤ 1) := by
  decide

end FunctionMaxima

namespace FunctionMaxima

variable {α A V σ E : Type}

/-- C15: a mutation touches the maxima status of at most three points.  For strict weak
orders on `A` and on `V`, a state whose domain is strictly increasing in the argument
(whatever its Maxima Index holds), every `a` and `v`, and every point `p` that a domain
point `q` separates from `a` (`p < q < a` or `a < q < p` in the argument, so that `p` is
neither at `a` nor the left or the right domain-neighbour of `a`): `p` is in the Maxima
Index after `set_value(a, v)` exactly when it was before, and after `erase(a)` exactly when
it was before. -/
theorem mutation_frame {ltA : A → A → Bool} {ltV : V → V → Bool}
    (hA : StrictWeakOrder ltA) (hV : StrictWeakOrder ltV) (s : FunctionMaxima A V)
    (hs : s.points.Pairwise (fun p q => ltA p.arg q.arg = true)) (a : A) (v : V)
    (p : point_type A V)
    (hfar : (∃ q ∈ s.points, ltA p.arg q.arg = true ∧ ltA q.arg a = true) ∨
      (∃ q ∈ s.points, ltA a q.arg = true ∧ ltA q.arg p.arg = true)) :
    (p ∈ (set_value ltA ltV s a v).maxima ↔ p ∈ s.maxima) ∧
    (p ∈ (erase ltA ltV s a).maxima ↔ p ∈ s.maxima) := by
  obtain ⟨L, M, R, h⟩ := splitAt_exists hA s.points hs a
  obtain ⟨hpL, hpR, hpM, hpa⟩ := h.separated hA hs hfar
  constructor
  · rw [set_value_maxima_eq]
    apply (set_value_located hA hV s a v h).commit_mem hA hV h p hpL hpR hpM
    intro _ e
    rw [e] at hpa
    exact hpa ⟨hA.irrefl a, hA.irrefl a⟩
  · rcases h.mid_cases with hM | ⟨m, hM⟩
    · subst hM
      rw [erase_of_find_eq_end ltA ltV s a (find_absent hA h)]
    · subst hM
      have e : s.points = L ++ m :: R := by simpa using h.eq
      have hm : s.points[find ltA s a]? = some m := by
        rw [find_present h, e]
        exact getElem?_append_length L R m
      have h3 := splitAt_self hA hs e
      have hx := erase_located hA hV s h3
      rw [erase_maxima_eq ltA ltV s a hm, find_present h]
      apply hx.commit_mem hA hV h3 p hpL hpR hpM
      intro hc
      rw [hx.new_none rfl] at hc
      exact absurd hc (by decide)

/-- In Scenario A, with the maxima (1,10) and (3,10): `set_value(4, 20)` takes the
neighbour (3,10) of the argument 4 out of the Maxima Index, while the point (1,10), which
(2,5) separates from the argument 4, stays in it, as it does after `erase(4)` and after
`erase(3)`. -/
theorem mutation_frame_witness :
    scenario_A.points.Pairwise (fun p q => nat_lt p.arg q.arg = true) ∧
    ((∃ q ∈ scenario_A.points,
        nat_lt (⟨1, 10⟩ : point_type Nat Nat).arg q.arg = true ∧ nat_lt q.arg 4 = true) ∨
      (∃ q ∈ scenario_A.points,
        nat_lt 4 q.arg = true ∧ nat_lt q.arg (⟨1, 10⟩ : point_type Nat Nat).arg = true)) ∧
    scenario_A.maxima = [⟨1, 10⟩, ⟨3, 10⟩] ∧
    (set_value nat_lt nat_lt scenario_A 4 20).maxima = [⟨4, 20⟩, ⟨1, 10⟩] ∧
    (erase nat_lt nat_lt scenario_A 3).maxima = [⟨1, 10⟩] ∧
    ((⟨1, 10⟩ ∈ (set_value nat_lt nat_lt scenario_A 4 20).maxima ↔
        (⟨1, 10⟩ : point_type Nat Nat) ∈ scenario_A.maxima) ∧
      (⟨1, 10⟩ ∈ (erase nat_lt nat_lt scenario_A 4).maxima ↔
        (⟨1, 10⟩ : point_type Nat Nat) ∈ scenario_A.maxima)) :=
  ⟨by decide, by decide, by decide, by decide, by decide,
    mutation_frame nat_lt_swo nat_lt_swo scenario_A (by decide) 4 20 ⟨1, 10⟩ (by decide)⟩

end FunctionMaxima

namespace FunctionMaxima

variable {α A V σ E : Type}

/-- C16: `set_value` changes the function only at `a`.  For a strict weak order on `A`, a
state whose domain is strictly increasing in the argument, every `a`, `v`, and every `b`
not equivalent to `a`: `find(b)` after `set_value(a, v)` is the iterator that `find(b)`
gave before (moved along with its point when the new point is put in front of it), it is
`end()` exactly when it was before, and it points to the same point; `value_at(b)` gives
the same value or the same error; and `size()` grows by 1 when `a` was absent and stays
when `a` was present. -/
theorem set_value_frame {ltA : A → A → Bool} (hA : StrictWeakOrder ltA) (ltV : V → V → Bool)
    (s : FunctionMaxima A V) (hs : s.points.Pairwise (fun p q => ltA p.arg q.arg = true))
    (a : A) (v : V) (b : A) (hb : ¬ (ltA a b = false ∧ ltA b a = false)) :
    find ltA (set_value ltA ltV s a v) b =
      (if find ltA s a = s.points.length then
        after_insert (multiset_upper_bound (points_comparator ltA) s.points ⟨a, v⟩)
          (find ltA s b)
      else find ltA s b) ∧
    (find ltA (set_value ltA ltV s a v) b = (set_value ltA ltV s a v).points.length ↔
      find ltA s b = s.points.length) ∧
    (set_value ltA ltV s a v).points[find ltA (set_value ltA ltV s a v) b]? =
      s.points[find ltA s b]? ∧
    value_at ltA (set_value ltA ltV s a v) b = value_at ltA s b ∧
    ((∀ p ∈ s.points, ¬ (ltA p.arg a = false ∧ ltA a p.arg = false)) →
      size (set_value ltA ltV s a v) = size s + 1) ∧
    ((∃ p ∈ s.points, ltA p.arg a = false ∧ ltA a p.arg = false) →
      size (set_value ltA ltV s a v) = size s) := by
  obtain ⟨L, M, R, h⟩ := splitAt_exists hA s.points hs a
  have hpts : (set_value ltA ltV s a v).points = L ++ [⟨a, v⟩] ++ R := by
    simp [set_value_points hA ltV s a v h]
  have hs1 : (set_value ltA ltV s a v).points.Pairwise
      (fun p q => ltA p.arg q.arg = true) := by
    rw [set_value_points hA ltV s a v h]
    exact pairwise_of_split h hs v
  have hMb : ∀ x ∈ M, ¬ (ltA x.arg b = false ∧ ltA b x.arg = false) :=
    fun x hx => not_equiv_of_equiv hA (h.mid x hx) hb
  have hNb : ∀ x ∈ [(⟨a, v⟩ : point_type A V)],
      ¬ (ltA x.arg b = false ∧ ltA b x.arg = false) := by
    intro x hx
    rw [List.mem_singleton] at hx
    subst hx
    exact hb
  obtain ⟨f0, d0⟩ := find_three hA hs b h.eq hMb
  obtain ⟨f1, d1⟩ := find_three hA hs1 b hpts hNb
  have hlen := split_length h
  have hlen1 : (set_value ltA ltV s a v).points.length = L.length + 1 + R.length := by
    rw [hpts]
    simp only [List.length_append, List.length_singleton]
  have hj : R.findIdx (fun p => !(ltA p.arg b) && !(ltA b p.arg)) ≤ R.length :=
    List.findIdx_le_length _
  have hub := upper_bound_points hA h v
  have hfa : find ltA s a = s.points.length ↔ M = [] := by
    rcases h.mid_cases with hM | ⟨m, hM⟩
    · subst hM
      simp [find_absent hA h]
    · subst hM
      rw [find_present h, hlen]
      simp only [List.length_singleton]
      constructor
      · intro hc
        omega
      · intro hc
        exact absurd hc (by simp)
  have hsize : size (set_value ltA ltV s a v) = L.length + 1 + R.length := hlen1
  have hsize0 : size s = L.length + M.length + R.length := hlen
  refine ⟨?_, ?_, ?_, ?_, ?_, ?_⟩
  · rw [f1, f0, hub]
    rcases h.mid_cases with hM | ⟨m, hM⟩
    · rw [if_pos (hfa.2 hM), hM]
      unfold after_insert
      simp only [List.length_nil, List.length_singleton]
      split_ifs <;> omega
    · have hne : ¬ find ltA s a = s.points.length := by
        rw [hfa, hM]
        simp
      rw [if_neg hne, hM]
      simp
  · rw [f1, f0, hlen1, hlen]
    simp only [List.length_singleton]
    have hM := h.len
    split_ifs <;> omega
  · rw [d1, d0]
  · unfold value_at
    simp only
    rw [d1, d0]
  · intro ha
    rw [hsize, hsize0, h.mid_nil ha]
    simp only [List.length_nil]
    omega
  · rintro ⟨p, hp, hpa⟩
    rw [hsize, hsize0, h.mid_of_mem hp hpa.1 hpa.2]
    simp

/-- In Scenario A, `set_value(0, 7)` adds a point in front: `find(3)` moves from index 2
to index 3 with its point and `find(9)` from `end()`, which is 4, to `end()`, which is 5,
and the size grows from 4 to 5; `set_value(2, 7)` overwrites a point: `find(3)` stays at
index 2 and the size stays 4. -/
theorem set_value_frame_witness :
    scenario_A.points.Pairwise (fun p q => nat_lt p.arg q.arg = true) ∧
    ¬ (nat_lt 0 3 = false ∧ nat_lt 3 0 = false) ∧
    find nat_lt scenario_A 3 = 2 ∧ find nat_lt (set_value nat_lt nat_lt scenario_A 0 7) 3 = 3 ∧
    find nat_lt scenario_A 9 = 4 ∧ find nat_lt (set_value nat_lt nat_lt scenario_A 0 7) 9 = 5 ∧
    find nat_lt (set_value nat_lt nat_lt scenario_A 2 7) 3 = 2 ∧
    value_at nat_lt (set_value nat_lt nat_lt scenario_A 0 7) 3 = .ok 10 ∧
    size scenario_A = 4 ∧ size (set_value nat_lt nat_lt scenario_A 0 7) = 5 ∧
    size (set_value nat_lt nat_lt scenario_A 2 7) = 4 ∧
    (find nat_lt (set_value nat_lt nat_lt scenario_A 0 7) 3 =
        (if find nat_lt scenario_A 0 = scenario_A.points.length then
          after_insert (multiset_upper_bound (points_comparator nat_lt) scenario_A.points
            ⟨0, 7⟩) (find nat_lt scenario_A 3)
        else find nat_lt scenario_A 3) ∧
      (find nat_lt (set_value nat_lt nat_lt scenario_A 0 7) 3 =
          (set_value nat_lt nat_lt scenario_A 0 7).points.length ↔
        find nat_lt scenario_A 3 = scenario_A.points.length) ∧
      (set_value nat_lt nat_lt scenario_A 0 7).points[
          find nat_lt (set_value nat_lt nat_lt scenario_A 0 7) 3]? =
        scenario_A.points[find nat_lt scenario_A 3]? ∧
      value_at nat_lt (set_value nat_lt nat_lt scenario_A 0 7) 3 =
        value_at nat_lt scenario_A 3 ∧
      ((∀ p ∈ scenario_A.points, ¬ (nat_lt p.arg 0 = false ∧ nat_lt 0 p.arg = false)) →
        size (set_value nat_lt nat_lt scenario_A 0 7) = size scenario_A + 1) ∧
      ((∃ p ∈ scenario_A.points, nat_lt p.arg 0 = false ∧ nat_lt 0 p.arg = false) →
        size (set_value nat_lt nat_lt scenario_A 0 7) = size scenario_A)) :=
  ⟨by decide, by decide, by decide, by decide, by decide, by decide, by decide, rfl,
    by decide, by decide, by decide,
    set_value_frame nat_lt_swo nat_lt scenario_A (by decide) 0 7 3 (by decide)⟩

/-- C17: `erase` removes exactly the point at `a`.  For a strict weak order on `A`, a state
whose domain is strictly increasing in the argument, every `a` that a domain point has,
and every `b` not equivalent to `a`: `find(b)` after `erase(a)` is the iterator that
`find(b)` gave before (moved along with its point when the erased point was in front of
it), it is `end()` exactly when it was before, and it points to the same point;
`value_at(b)` gives the same value or the same error; and `size()` is less by exactly 1. -/
theorem erase_frame {ltA : A → A → Bool} (hA : StrictWeakOrder ltA) (ltV : V → V → Bool)
    (s : FunctionMaxima A V) (hs : s.points.Pairwise (fun p q => ltA p.arg q.arg = true))
    (a : A) (ha : ∃ p ∈ s.points, ltA p.arg a = false ∧ ltA a p.arg = false)
    (b : A) (hb : ¬ (ltA a b = false ∧ ltA b a = false)) :
    find ltA (erase ltA ltV s a) b = after_erase (find ltA s a) (find ltA s b) ∧
    (find ltA (erase ltA ltV s a) b = (erase ltA ltV s a).points.length ↔
      find ltA s b = s.points.length) ∧
    (erase ltA ltV s a).points[find ltA (erase ltA ltV s a) b]? =
      s.points[find ltA s b]? ∧
    value_at ltA (erase ltA ltV s a) b = value_at ltA s b ∧
    size (erase ltA ltV s a) + 1 = size s := by
  obtain ⟨L, M, R, h⟩ := splitAt_exists hA s.points hs a
  obtain ⟨p, hp, hpa⟩ := ha
  have hM := h.mid_of_mem hp hpa.1 hpa.2
  subst hM
  have hpts : (erase ltA ltV s a).points = L ++ [] ++ R := by
    simp [erase_points hA ltV s a h]
  have hs1 : (erase ltA ltV s a).points.Pairwise (fun p q => ltA p.arg q.arg = true) := by
    rw [erase_points hA ltV s a h]
    exact pairwise_of_split_erase h hs
  have hMb : ∀ x ∈ [p], ¬ (ltA x.arg b = false ∧ ltA b x.arg = false) :=
    fun x hx => not_equiv_of_equiv hA (h.mid x hx) hb
  have hNb : ∀ x ∈ ([] : List (point_type A V)),
      ¬ (ltA x.arg b = false ∧ ltA b x.arg = false) := by
    intro x hx
    exact absurd hx (by simp)
  obtain ⟨f0, d0⟩ := find_three hA hs b h.eq hMb
  obtain ⟨f1, d1⟩ := find_three hA hs1 b hpts hNb
  have hlen := split_length h
  have hlen1 : (erase ltA ltV s a).points.length = L.length + R.length := by
    rw [hpts]
    simp only [List.length_append, List.length_nil]
    omega
  have hj : R.findIdx (fun p => !(ltA p.arg b) && !(ltA b p.arg)) ≤ R.length :=
    List.findIdx_le_length _
  simp only [List.length_singleton, List.length_nil] at f0 f1 hlen
  refine ⟨?_, ?_, ?_, ?_, ?_⟩
  · rw [f1, f0, find_present h]
    unfold after_erase
    split_ifs <;> omega
  · rw [f1, f0, hlen1, hlen]
    split_ifs <;> omega
  · rw [d1, d0]
  · unfold value_at
    simp only
    rw [d1, d0]
  · unfold size
    rw [hlen1, hlen]
    omega

/-- In Scenario A, `erase(2)` removes the point in front of (3,10): `find(3)` moves from
index 2 to index 1 with its point, `find(1)` stays at index 0, `find(9)` goes from `end()`,
which is 4, to `end()`, which is 3, and the size goes from 4 to 3. -/
theorem erase_frame_witness :
    scenario_A.points.Pairwise (fun p q => nat_lt p.arg q.arg = true) ∧
    (∃ p ∈ scenario_A.points, nat_lt p.arg 2 = false ∧ nat_lt 2 p.arg = false) ∧
    ¬ (nat_lt 2 3 = false ∧ nat_lt 3 2 = false) ∧
    find nat_lt scenario_A 2 = 1 ∧
    find nat_lt scenario_A 3 = 2 ∧ find nat_lt (erase nat_lt nat_lt scenario_A 2) 3 = 1 ∧
    find nat_lt scenario_A 1 = 0 ∧ find nat_lt (erase nat_lt nat_lt scenario_A 2) 1 = 0 ∧
    find nat_lt scenario_A 9 = 4 ∧ find nat_lt (erase nat_lt nat_lt scenario_A 2) 9 = 3 ∧
    value_at nat_lt (erase nat_lt nat_lt scenario_A 2) 3 = .ok 10 ∧
    size scenario_A = 4 ∧ size (erase nat_lt nat_lt scenario_A 2) = 3 ∧
    (find nat_lt (erase nat_lt nat_lt scenario_A 2) 3 =
        after_erase (find nat_lt scenario_A 2) (find nat_lt scenario_A 3) ∧
      (find nat_lt (erase nat_lt nat_lt scenario_A 2) 3 =
          (erase nat_lt nat_lt scenario_A 2).points.length ↔
        find nat_lt scenario_A 3 = scenario_A.points.length) ∧
      (erase nat_lt nat_lt scenario_A 2).points[
          find nat_lt (erase nat_lt nat_lt scenario_A 2) 3]? =
        scenario_A.points[find nat_lt scenario_A 3]? ∧
      value_at nat_lt (erase nat_lt nat_lt scenario_A 2) 3 = value_at nat_lt scenario_A 3 ∧
      size (erase nat_lt nat_lt scenario_A 2) + 1 = size scenario_A) :=
  ⟨by decide, by decide, by decide, by decide, by decide, by decide, by decide, by decide,
    by decide, by decide, rfl, by decide, by decide,
    erase_frame nat_lt_swo nat_lt scenario_A (by decide) 2 (by decide) 3 (by decide)⟩

end FunctionMaxima

namespace FunctionMaxima

variable {α A V σ E : Type}

/-- C18: insert then erase restores the state.  For strict weak orders on `A` and on `V`,
every reachable state, every argument `a` that no domain point has and every `v`,
`set_value(a, v)` followed by `erase(a)` gives the Domain Index and the Maxima Index that
were there before the two calls, as sequences of points; so a neighbour that the insertion
promoted or demoted has its former status again. -/
theorem set_value_then_erase {ltA : A → A → Bool} {ltV : V → V → Bool}
    (hA : StrictWeakOrder ltA) (hV : StrictWeakOrder ltV) (s : FunctionMaxima A V)
    (h : Reachable ltA ltV s) (a : A) (v : V)
    (ha : ∀ p ∈ s.points, ¬ (ltA p.arg a = false ∧ ltA a p.arg = false)) :
    (erase ltA ltV (set_value ltA ltV s a v) a).points = s.points ∧
    (erase ltA ltV (set_value ltA ltV s a v) a).maxima = s.maxima := by
  have hwf := reachable_wellFormed hA hV h
  obtain ⟨L, M, R, hsp⟩ := splitAt_exists hA s.points hwf.points_sorted a
  have hM := hsp.mid_nil ha
  subst hM
  have h2 := splitAt_set_value hA ltV s a v hsp
  have hpts := erase_points hA ltV (set_value ltA ltV s a v) a h2
  have e : erase ltA ltV (set_value ltA ltV s a v) a = s := by
    apply WellFormed.eq_of_points hA hV
      (erase_wellFormed hA hV (set_value_wellFormed hA hV hwf a v) a) hwf
    rw [hpts, hsp.eq]
    simp
  rw [e]
  exact ⟨rfl, rfl⟩

/-- In the state (1,10), (3,10) with both points maxima, inserting (2,20) demotes both
neighbours and erasing the argument 2 promotes them again; inserting (2,5) and erasing it
leaves them maxima throughout. -/
theorem set_value_then_erase_witness :
    Reachable nat_lt nat_lt (set_value nat_lt nat_lt (set_value nat_lt nat_lt empty 1 10)
      3 10) ∧
    set_value nat_lt nat_lt (set_value nat_lt nat_lt empty 1 10) 3 10 =
      ⟨[⟨1, 10⟩, ⟨3, 10⟩], [⟨1, 10⟩, ⟨3, 10⟩]⟩ ∧
    set_value nat_lt nat_lt ⟨[⟨1, 10⟩, ⟨3, 10⟩], [⟨1, 10⟩, ⟨3, 10⟩]⟩ 2 20 =
      ⟨[⟨1, 10⟩, ⟨2, 20⟩, ⟨3, 10⟩], [⟨2, 20⟩]⟩ ∧
    (∀ p ∈ (set_value nat_lt nat_lt (set_value nat_lt nat_lt empty 1 10) 3 10).points,
      ¬ (nat_lt p.arg 2 = false ∧ nat_lt 2 p.arg = false)) ∧
    ((erase nat_lt nat_lt (set_value nat_lt nat_lt
        (set_value nat_lt nat_lt (set_value nat_lt nat_lt empty 1 10) 3 10) 2 20) 2).points =
        (set_value nat_lt nat_lt (set_value nat_lt nat_lt empty 1 10) 3 10).points ∧
      (erase nat_lt nat_lt (set_value nat_lt nat_lt
        (set_value nat_lt nat_lt (set_value nat_lt nat_lt empty 1 10) 3 10) 2 20) 2).maxima =
        (set_value nat_lt nat_lt (set_value nat_lt nat_lt empty 1 10) 3 10).maxima) :=
  ⟨Reachable.set_value _ 3 10 (Reachable.set_value _ 1 10 Reachable.empty), by decide,
    by decide, by decide,
    set_value_then_erase nat_lt_swo nat_lt_swo
      (set_value nat_lt nat_lt (set_value nat_lt nat_lt empty 1 10) 3 10)
      (Reachable.set_value _ 3 10 (Reachable.set_value _ 1 10 Reachable.empty)) 2 20
      (by decide)⟩

/-- C19: `set_value` is idempotent.  For strict weak orders on `A` and on `V`, every
reachable state and every `a` and `v`, `set_value(a, v)` performed twice gives the same
Domain Index and the same Maxima Index, as sequences of points, as performed once; after
the second call the Domain Index has the one entry `(a, v)` at `a` and the Maxima Index
has at most one entry at `a`. -/
theorem set_value_idempotent {ltA : A → A → Bool} {ltV : V → V → Bool}
    (hA : StrictWeakOrder ltA) (hV : StrictWeakOrder ltV) (s : FunctionMaxima A V)
    (h : Reachable ltA ltV s) (a : A) (v : V) :
    (set_value ltA ltV (set_value ltA ltV s a v) a v).points =
      (set_value ltA ltV s a v).points ∧
    (set_value ltA ltV (set_value ltA ltV s a v) a v).maxima =
      (set_value ltA ltV s a v).maxima ∧
    entries_at ltA (set_value ltA ltV (set_value ltA ltV s a v) a v).points a = [⟨a, v⟩] ∧
    (entries_at ltA (set_value ltA ltV (set_value ltA ltV s a v) a v).maxima a).length ≤ 1 := by
  have hwf := reachable_wellFormed hA hV h
  obtain ⟨L, M, R, hsp⟩ := splitAt_exists hA s.points hwf.points_sorted a
  have h2 := splitAt_set_value hA ltV s a v hsp
  have hwf1 := set_value_wellFormed hA hV hwf a v
  have hwf2 := set_value_wellFormed hA hV hwf1 a v
  have h3 := splitAt_set_value hA ltV (set_value ltA ltV s a v) a v h2
  have e : set_value ltA ltV (set_value ltA ltV s a v) a v = set_value ltA ltV s a v := by
    apply WellFormed.eq_of_points hA hV hwf2 hwf1
    rw [set_value_points hA ltV _ a v h2, set_value_points hA ltV s a v hsp]
  have hent := entries_at_split h3
  refine ⟨by rw [e], by rw [e], hent, ?_⟩
  have hle := hwf2.entries_at_le hA hV a
  rw [hent] at hle
  simpa using hle

/-- In Scenario A, `set_value(3, 10)` on the maximum (3,10) that is already there, and
`set_value(2, 20)` twice, leave one entry at the argument in each index. -/
theorem set_value_idempotent_witness :
    Reachable nat_lt nat_lt scenario_A ∧
    set_value nat_lt nat_lt scenario_A 2 20 =
      ⟨[⟨1, 10⟩, ⟨2, 20⟩, ⟨3, 10⟩, ⟨4, 1⟩], [⟨2, 20⟩]⟩ ∧
    set_value nat_lt nat_lt (set_value nat_lt nat_lt scenario_A 2 20) 2 20 =
      ⟨[⟨1, 10⟩, ⟨2, 20⟩, ⟨3, 10⟩, ⟨4, 1⟩], [⟨2, 20⟩]⟩ ∧
    set_value nat_lt nat_lt scenario_A 3 10 = scenario_A ∧
    ((set_value nat_lt nat_lt (set_value nat_lt nat_lt scenario_A 2 20) 2 20).points =
        (set_value nat_lt nat_lt scenario_A 2 20).points ∧
      (set_value nat_lt nat_lt (set_value nat_lt nat_lt scenario_A 2 20) 2 20).maxima =
        (set_value nat_lt nat_lt scenario_A 2 20).maxima ∧
      entries_at nat_lt
        (set_value nat_lt nat_lt (set_value nat_lt nat_lt scenario_A 2 20) 2 20).points 2 =
        [⟨2, 20⟩] ∧
      (entries_at nat_lt
        (set_value nat_lt nat_lt (set_value nat_lt nat_lt scenario_A 2 20) 2 20).maxima
        2).length ≤ 1) :=
  ⟨scenario_A_reachable, by decide, by decide, by decide,
    set_value_idempotent nat_lt_swo nat_lt_swo scenario_A scenario_A_reachable 2 20⟩

/-- C20: the Maxima Index never holds a point twice.  For strict weak orders on `A` and on
`V`, in every state reachable from the empty structure by `set_value` and `erase`, no two
entries of the Maxima Index have equivalent arguments, no point is there twice, and the
number of entries from `mx_begin()` to `mx_end()` is at most `size()`. -/
theorem reachable_maxima_unique {ltA : A → A → Bool} {ltV : V → V → Bool}
    (hA : StrictWeakOrder ltA) (hV : StrictWeakOrder ltV) (s : FunctionMaxima A V)
    (h : Reachable ltA ltV s) :
    s.maxima.Pairwise (fun p q => ¬ (ltA p.arg q.arg = false ∧ ltA q.arg p.arg = false)) ∧
    s.maxima.Nodup ∧
    mx_end s - mx_begin s ≤ size s := by
  have hwf := reachable_wellFormed hA hV h
  have hsub := local_maxima_between_sublist ltV none none s.points
  have hperm := hwf.perm hA hV
  refine ⟨?_, maxima_nodup hA hV hwf.maxima_sorted, ?_⟩
  · have hp : s.points.Pairwise
        (fun p q => ¬ (ltA p.arg q.arg = false ∧ ltA q.arg p.arg = false)) := by
      refine hwf.points_sorted.imp ?_
      intro p q hpq hc
      rw [hpq] at hc
      exact absurd hc.1 (by decide)
    refine (List.Perm.pairwise_iff ?_ hperm).2 (hp.sublist hsub)
    intro x y hxy hc
    exact hxy ⟨hc.2, hc.1⟩
  · unfold mx_end mx_begin size
    rw [Nat.sub_zero, hperm.length_eq]
    exact hsub.length_le

/-- After the points (1,10), (2,5), (3,10) and `set_value(3, 10)` once more, the Maxima
Index holds (1,10) and (3,10), each once: two entries for a domain of three points. -/
theorem reachable_maxima_unique_witness :
    Reachable nat_lt nat_lt (set_value nat_lt nat_lt scenario_three 3 10) ∧
    (set_value nat_lt nat_lt scenario_three 3 10).maxima = [⟨1, 10⟩, ⟨3, 10⟩] ∧
    size (set_value nat_lt nat_lt scenario_three 3 10) = 3 ∧
    ((set_value nat_lt nat_lt scenario_three 3 10).maxima.Pairwise
        (fun p q => ¬ (nat_lt p.arg q.arg = false ∧ nat_lt q.arg p.arg = false)) ∧
      (set_value nat_lt nat_lt scenario_three 3 10).maxima.Nodup ∧
      mx_end (set_value nat_lt nat_lt scenario_three 3 10) -
        mx_begin (set_value nat_lt nat_lt scenario_three 3 10) ≤
        size (set_value nat_lt nat_lt scenario_three 3 10)) :=
  ⟨Reachable.set_value _ 3 10 scenario_three_reachable, by decide, by decide,
    reachable_maxima_unique nat_lt_swo nat_lt_swo _
      (Reachable.set_value _ 3 10 scenario_three_reachable)⟩

end FunctionMaxima
